import Mathlib

/-!
# EZBlueSmirfUART: a shallow embedding of the command/response driver

The driver of `EZBlueSmirfUART.h` talks to a serial Bluetooth module through
three primitives of the transport (`available`, `read`, `print`), a
millisecond clock (`millis`, `delay`) and a diagnostic serial port.  The
embedding makes that environment an explicit state, `World`, that every
operation takes and returns.

Modelling conventions.

* `clock` is the true time since power-up in milliseconds.  `millis` reports it
  modulo `2^32` (an `unsigned long` of the target), and elapsed times are
  computed modulo `2^32` exactly as `millis() - start_ms` is.
* `rx` is what the module will deliver: the unread bytes in stream order, each
  with the time at which it reaches the receive buffer.  The head of the list is
  available once the clock has reached its arrival time.
* A polling loop that finds nothing to read lets one millisecond pass
  (`spin`); reading a byte and printing take no time at this resolution.
* The busy-wait loops of the source have no bound of their own, so each loop
  takes a `fuel` argument that bounds the number of iterations, and the result
  is `none` when the fuel runs out.  `BT_fuel w` is enough fuel for every loop
  run from `w` with the deadlines the driver uses.
* The incoming stream is a finite list of bytes; a module that never stops
  sending is outside the model.
* Strings are `String`s (commands, tokens, addresses) or lists of `Char`
  (buffers); a `char` array is read as a C string through `cstr`.  The text
  `sprintf` formats is kept as a string, without the array it is written to.
-/

namespace EZBlueSmirf

/-! ## The environment -/

/-- The two ways the driver writes to the diagnostic serial port:
`BT_DBG_PRINT` (silenced by `BT_NOVERBOSE`) and `BT_ERR_PRINT`. -/
inductive Chan where
  | dbg
  | err
deriving DecidableEq, Repr

/-- State of the environment the driver runs in. -/
structure World where
  /-- true time in milliseconds -/
  clock : Nat
  /-- unread bytes of the Bluetooth stream with their arrival times -/
  rx : List (Nat × Char)
  /-- strings printed to the Bluetooth stream, oldest first -/
  tx : List String
  /-- texts printed to the diagnostic serial port, oldest first -/
  serial : List (Chan × String)
  /-- whether the build defines `BT_NOVERBOSE` -/
  noverbose : Bool
deriving DecidableEq, Repr

/-- Number of values of an `unsigned long` (32 bits on the target). -/
def ULONG_RANGE : Nat := 2 ^ 32

/-- Reading of `millis()`: the clock as an `unsigned long`. -/
def millis (w : World) : Nat := w.clock % ULONG_RANGE

/-- The `unsigned long` difference `now - start`. -/
def elapsed_ms (now start : Nat) : Nat := (now + ULONG_RANGE - start % ULONG_RANGE) % ULONG_RANGE

/-- The call `delay(ms)`. -/
def delay (ms : Nat) (w : World) : World := { w with clock := w.clock + ms }

/-- One millisecond of polling in which nothing is read. -/
def spin (w : World) : World := { w with clock := w.clock + 1 }

/-- The call `Bluetooth.available()`: is the next byte of the stream there yet? -/
def Bluetooth_available (w : World) : Bool :=
  match w.rx with
  | [] => false
  | (t, _) :: _ => decide (t ≤ w.clock)

/-- The call `(char)Bluetooth.read()`.  The driver only reads after `available`
said yes; a read of an empty stream yields `-1`, the byte `0xFF` as a `char`. -/
def Bluetooth_read (w : World) : Char × World :=
  match w.rx with
  | [] => (Char.ofNat 255, w)
  | (_, c) :: rest => (c, { w with rx := rest })

/-- The call `Bluetooth.print(s)`. -/
def Bluetooth_print (s : String) (w : World) : World := { w with tx := w.tx ++ [s] }

/-- The macro `BT_DBG_PRINT(X)`: nothing under `BT_NOVERBOSE`, else `Serial.print(X)`. -/
def BT_DBG_PRINT (s : String) (w : World) : World :=
  if w.noverbose then w else { w with serial := w.serial ++ [(Chan.dbg, s)] }

/-- The macro `BT_DBG_PRINTLN(X)`; `Serial.println` ends the text with CR LF. -/
def BT_DBG_PRINTLN (s : String) (w : World) : World := BT_DBG_PRINT (s ++ "\r\n") w

/-- The macro `BT_ERR_PRINT(X)`: always `Serial.print(X)`. -/
def BT_ERR_PRINT (s : String) (w : World) : World :=
  { w with serial := w.serial ++ [(Chan.err, s)] }

/-- The macro `BT_ERR_PRINTLN(X)`. -/
def BT_ERR_PRINTLN (s : String) (w : World) : World := BT_ERR_PRINT (s ++ "\r\n") w

/-! ## C strings -/

/-- The bytes of a `char` array read as a C string: those before the first zero.
For an array that holds no zero this is the whole array, where the source would
read on past its end; the statements on `BT_BondPrivatelyWith` therefore
suppose a zero in the buffer they compare and print. -/
def cstr (data : List Char) : List Char := data.takeWhile (fun c => c != '\x00')

/-- ASCII `tolower`. -/
def tolower (c : Char) : Char :=
  if 65 ≤ c.toNat ∧ c.toNat ≤ 90 then Char.ofNat (c.toNat + 32) else c

/-- Case-insensitive comparison `stricmp`: both strings are read up to their
terminating zero (the end of the list counts as one).  Zero when they agree up
to ASCII case, else the difference of the first pair of folded characters that
differ. -/
def stricmp : List Char → List Char → Int
  | [], [] => 0
  | [], b :: _ => 0 - ((tolower b).toNat : Int)
  | a :: _, [] => ((tolower a).toNat : Int)
  | a :: as, b :: bs =>
    if tolower a = tolower b then
      if a = '\x00' then 0 else stricmp as bs
    else ((tolower a).toNat : Int) - ((tolower b).toNat : Int)

/-- The struct `CharStr`: a buffer of `n = 50` characters. -/
structure CharStr where
  data : List Char
deriving DecidableEq, Repr

/-- The constant `CharStr::n`. -/
def CharStr.n : Nat := 50

/-- The constructor `CharStr()`: `memset(data, 0, n)`. -/
def CharStr.new : CharStr := ⟨List.replicate CharStr.n '\x00'⟩

/-! ## The driver -/

/-- The loop of `BT_FlushPrint`; yields the final `count`, `last_char` and world.
The counter is a natural number here; the `int` of the source overflows once
more than `INT_MAX` bytes are drained in one call, so the statement on the
trailing newline supposes a stream of at most `INT_MAX` bytes. -/
def BT_FlushPrint_loop (time_wait_ms : Nat) :
    Nat → Nat → Nat → Char → World → Option (Nat × Char × World)
  | 0, _, _, _, _ => none
  | fuel + 1, start_ms, count, last_char, w =>
    -- keep reseting timer when there is more data to consume.
    let start_ms := if Bluetooth_available w then millis w else start_ms
    let delta_ms := elapsed_ms (millis w) start_ms
    if delta_ms > time_wait_ms then some (count, last_char, w)
    else if Bluetooth_available w then
      let (c, w1) := Bluetooth_read w
      BT_FlushPrint_loop time_wait_ms fuel start_ms (count + 1) c (BT_DBG_PRINT (String.singleton c) w1)
    else BT_FlushPrint_loop time_wait_ms fuel start_ms count last_char (spin w)

/-- The function `BT_FlushPrint(time_wait_ms)`. -/
def BT_FlushPrint (fuel : Nat) (time_wait_ms : Nat) (w : World) : Option World :=
  match BT_FlushPrint_loop time_wait_ms fuel (millis w) 0 '\x00' w with
  | none => none
  | some (count, last_char, w1) =>
    -- Add new line if not present.
    if count > 0 ∧ last_char ≠ '\n' then some (BT_DBG_PRINTLN "" w1) else some w1

/-- The function `BT_Send(msg)`. -/
def BT_Send (fuel : Nat) (msg : String) (w : World) : Option World :=
  match BT_FlushPrint fuel 200 w with
  | none => none
  | some w1 =>
    some (BT_DBG_PRINTLN "" (Bluetooth_print msg (BT_DBG_PRINT msg (BT_DBG_PRINT "> " w1))))

/-- The loop of `BT_ReceiveResponse`; `dest` is the buffer written so far. -/
def BT_ReceiveResponse_loop (timeout_ms start_ms : Nat) :
    Nat → Nat → CharStr → World → Option (Bool × CharStr × World)
  | 0, _, _, _ => none
  | fuel + 1, pos, dest, w =>
    if pos ≥ CharStr.n then
      some (false, dest, BT_ERR_PRINT ": Error - overflow" (BT_ERR_PRINT "BT_ReceiveResponse" w))
    else
      let delta_ms := elapsed_ms (millis w) start_ms
      -- Exit subroutine for timeout.
      if delta_ms > timeout_ms then
        some (false, dest,
          BT_ERR_PRINTLN ": Error - timeout waiting for response" (BT_ERR_PRINT "BT_ReceiveResponse" w))
      -- Not ready yet so defer.
      else if !Bluetooth_available w then
        BT_ReceiveResponse_loop timeout_ms start_ms fuel pos dest (spin w)
      else
        let (c, w1) := Bluetooth_read w
        -- If terminating character.
        if c = '\n' ∨ c = '\r' then
          let dest1 : CharStr := ⟨dest.data.set pos '\x00'⟩
          some (true, dest1, BT_DBG_PRINTLN (String.mk (cstr dest1.data)) w1)
        else
          -- Copy otherwise and continue loop.
          BT_ReceiveResponse_loop timeout_ms start_ms fuel (pos + 1) ⟨dest.data.set pos c⟩ w1

/-- The function `BT_ReceiveResponse(dest, timeout_ms)`; the buffer behind the
pointer `dest` is returned with the result. -/
def BT_ReceiveResponse (fuel : Nat) (dest : CharStr) (timeout_ms : Nat) (w : World) :
    Option (Bool × CharStr × World) :=
  BT_ReceiveResponse_loop timeout_ms (millis w) fuel 0 dest w

/-- The loop of `BT_WaitUntil`: `it` is what is left of the token from the
cursor on.  Yields `true` when the cursor reached the end of the token and
`false` on the timeout path. -/
def BT_WaitUntil_loop (str : String) (time_ms start_ms : Nat) :
    Nat → List Char → World → Option (Bool × World)
  | _, [], w => some (true, w)
  | 0, _ :: _, _ => none
  | fuel + 1, x :: rest, w =>
    let delta_ms := elapsed_ms (millis w) start_ms
    if delta_ms > time_ms then
      some (false, BT_ERR_PRINTLN str (BT_ERR_PRINT "Error, timeout in bluetooth while waiting for " w))
    else if !Bluetooth_available w then
      BT_WaitUntil_loop str time_ms start_ms fuel (x :: rest) (spin w)
    else
      let (c, w1) := Bluetooth_read w
      if c = x then BT_WaitUntil_loop str time_ms start_ms fuel rest w1
      else BT_WaitUntil_loop str time_ms start_ms fuel (x :: rest) w1

/-- The function `BT_WaitUntil(str, time_ms)`. -/
def BT_WaitUntil (fuel : Nat) (str : String) (time_ms : Nat) (w : World) : Option World :=
  match BT_WaitUntil_loop str time_ms (millis w) fuel str.toList w with
  | none => none
  | some (false, w1) => some w1
  | some (true, w1) => BT_FlushPrint fuel 200 (BT_DBG_PRINT str w1)

/-- The function `BT_CmdResponse(cmd, resp, time_ms)`. -/
def BT_CmdResponse (fuel : Nat) (cmd resp : String) (time_ms : Nat) (w : World) : Option World :=
  match BT_Send fuel cmd w with
  | none => none
  | some w1 => BT_WaitUntil fuel resp time_ms w1

/-- The function `BT_Setup()`: `delay(1000)`, then `Bluetooth.begin(115200)`,
which leaves the modelled state as it is. -/
def BT_Setup (w : World) : World := delay 1000 w

/-- Lines 70-71 of `BT_IsConnected`: enter command mode and send `GK`. -/
def BT_IsConnected_query (fuel : Nat) (w : World) : Option World :=
  (BT_CmdResponse fuel "$$$" "CMD" 1000 w).bind fun w1 =>
  BT_Send fuel "GK\n" w1

/-- The function `BT_IsConnected()`.  The status line is read into a fresh
buffer `conn`; what `BT_ReceiveResponse` returns is dropped, as in the source. -/
def BT_IsConnected (fuel : Nat) (w : World) : Option (Bool × World) :=
  (BT_IsConnected_query fuel w).bind fun w2 =>
  (BT_ReceiveResponse fuel CharStr.new 4000 w2).bind fun (_, conn, w3) =>
  let is_connected := decide (0 = stricmp (cstr conn.data) "1,0,0".toList)
  (BT_CmdResponse fuel "---\n" "END" 4000 w3).bind fun w4 =>
  some (is_connected, w4)

/-- The function `BT_EnterCmdModeAndPrintSettingsAndExit()`. -/
def BT_EnterCmdModeAndPrintSettingsAndExit (fuel : Nat) (w : World) : Option World :=
  (BT_Send fuel "$$$" w).bind fun w1 =>
  (BT_WaitUntil fuel "CMD" 1000 w1).bind fun w2 =>
  (BT_FlushPrint fuel 200 w2).bind fun w3 =>
  (BT_Send fuel "D\n" w3).bind fun w4 =>
  (BT_FlushPrint fuel 200 w4).bind fun w5 =>
  (BT_Send fuel "E\n" (BT_DBG_PRINTLN "" w5)).bind fun w6 =>
  (BT_FlushPrint fuel 200 w6).bind fun w7 =>
  (BT_Send fuel "---\n" w7).bind fun w8 =>
  (BT_WaitUntil fuel "END" 1000 w8).bind fun w9 =>
  some (BT_DBG_PRINTLN "\nFinished Bluetooth settings print and successfully exited" w9)

/-- Lines 218-227 of `BT_BondPrivatelyWith`: set the module up, send `GB` and
read the module's own address into a fresh buffer `rec_addr`.  Yields what
`BT_ReceiveResponse` returned (the source drops it), the buffer and the world. -/
def BT_BondPrivatelyWith_address (fuel : Nat) (w : World) : Option (Bool × CharStr × World) :=
  (BT_CmdResponse fuel "$$$" "CMD" 1000 (BT_Setup w)).bind fun w1 =>
  (BT_CmdResponse fuel "SF,1\n" "AOK" 5000 w1).bind fun w2 =>
  (BT_CmdResponse fuel "SA,4\n" "AOK" 4000 w2).bind fun w3 =>
  (BT_CmdResponse fuel "SE,1\n" "AOK" 4000 w3).bind fun w4 =>
  (BT_Send fuel "GB\n" w4).bind fun w5 =>
  BT_ReceiveResponse fuel CharStr.new 4000 w5

/-- The text `sprintf(buf, "SR,%s\n", connect_to_addr)` formats.  The
destination `buf` has 50 bytes; the embedding keeps the text and not the
array, so the capacity is a separate obligation on `connect_to_addr`: the
source writes past `buf` for an address of more than 45 characters, and the
statements on `BT_BondPrivatelyWith` suppose at most 45. -/
def sprintf_SR (connect_to_addr : String) : String := "SR," ++ connect_to_addr ++ "\n"

/-- Lines 244-261 of `BT_BondPrivatelyWith`: the pairing commands once
`connect_to_addr` is known. -/
def BT_BondPrivatelyWith_pair (fuel : Nat) (connect_to_addr : String) (w : World) :
    Option (Bool × World) :=
  (BT_CmdResponse fuel (sprintf_SR connect_to_addr) "AOK" 4000 w).bind fun w1 =>
  (BT_CmdResponse fuel "SM,6\n" "AOK" 4000 (delay 1000 w1)).bind fun w2 =>
  (BT_CmdResponse fuel "SP,c0de\n" "AOK" 4000 w2).bind fun w3 =>
  (BT_CmdResponse fuel "R,1\n" "Reboot!" 6000 w3).bind fun w4 =>
  (BT_CmdResponse fuel "$$$" "CMD" 2000 (delay 1000 w4)).bind fun w5 =>
  (BT_Send fuel "D\n" w5).bind fun w6 =>
  (BT_FlushPrint fuel 1000 w6).bind fun w7 =>
  (BT_CmdResponse fuel "---\n" "END" 4000 w7).bind fun w8 =>
  (BT_FlushPrint fuel 200 w8).bind fun w9 =>
  some (true, w9)

/-- The diagnostic lines of the mismatch branch of `BT_BondPrivatelyWith`. -/
def BT_BondPrivatelyWith_report (rec_addr : CharStr) (bt_addr1 bt_addr2 : String) (w : World) :
    World :=
  BT_DBG_PRINTLN "\"" (BT_DBG_PRINT bt_addr2 (BT_DBG_PRINT "\tbt_addr2: \""
  (BT_DBG_PRINTLN "\"" (BT_DBG_PRINT bt_addr1 (BT_DBG_PRINT "\tbt_addr1: \""
  (BT_DBG_PRINTLN "\"" (BT_DBG_PRINT (String.mk (cstr rec_addr.data)) (BT_DBG_PRINT "\trec_addr: \""
  (BT_DBG_PRINTLN ": Error Bluetooth bonding address is incorrect"
  (BT_DBG_PRINT "BT_BondPrivatelyWith" w))))))))))

/-- Lines 230-261 of `BT_BondPrivatelyWith`: choose `connect_to_addr` from the
address read, or report the mismatch and return `false`.  Faithful when
`rec_addr.data` holds a zero (the read before did not overflow), which is when
`stricmp` and the report stay inside the array. -/
def BT_BondPrivatelyWith_validate (fuel : Nat) (bt_addr1 bt_addr2 : String) (rec_addr : CharStr)
    (w : World) : Option (Bool × World) :=
  if 0 = stricmp (cstr rec_addr.data) bt_addr1.toList then
    BT_BondPrivatelyWith_pair fuel bt_addr2 w
  else if 0 = stricmp (cstr rec_addr.data) bt_addr2.toList then
    BT_BondPrivatelyWith_pair fuel bt_addr1 w
  else
    some (false, BT_BondPrivatelyWith_report rec_addr bt_addr1 bt_addr2 w)

/-- The function `BT_BondPrivatelyWith(bt_addr1, bt_addr2)`. -/
def BT_BondPrivatelyWith (fuel : Nat) (bt_addr1 bt_addr2 : String) (w : World) :
    Option (Bool × World) :=
  (BT_BondPrivatelyWith_address fuel w).bind fun (_, rec_addr, w1) =>
  BT_BondPrivatelyWith_validate fuel bt_addr1 bt_addr2 rec_addr w1

/-! ## Vocabulary of the statements -/

/-- No byte of the stream `rx` arrives before time `t`. -/
def notBefore (t : Nat) (rx : List (Nat × Char)) : Bool :=
  match rx with
  | [] => true
  | (t1, _) :: _ => decide (t ≤ t1)

/-- The clock once a loop that started polling at `c` has read all of `pre`:
it waits for each byte that is not there yet. -/
def arrive (c : Nat) (pre : List (Nat × Char)) : Nat := pre.foldl (fun c p => max c p.1) c

/-- The buffer `data` after the characters `cs` were stored from index `pos` on. -/
def store (data : List Char) (pos : Nat) : List Char → List Char
  | [] => data
  | c :: cs => store (data.set pos c) (pos + 1) cs

/-- Whether a byte ends a line for `BT_ReceiveResponse`. -/
def isTerminator (c : Char) : Bool := c = '\n' || c = '\r'

/-- The bytes of the stream `rx` that have reached the receive buffer by time
`deadline`, in stream order: a byte is only delivered after those before it. -/
def delivered (deadline : Nat) (rx : List (Nat × Char)) : List (Nat × Char) :=
  rx.takeWhile (fun p => decide (p.1 ≤ deadline))

/-- The bytes of the stream `rx` that are still on their way at time `deadline`. -/
def pending (deadline : Nat) (rx : List (Nat × Char)) : List (Nat × Char) :=
  rx.dropWhile (fun p => decide (p.1 ≤ deadline))

/-- The cursor of `BT_WaitUntil` run on a list of bytes: the number of bytes read
until the cursor has passed all of `it`, advancing on each byte equal to the
character under it; `none` when the bytes end first. -/
def scan : List Char → List Char → Option Nat
  | [], _ => some 0
  | _ :: _, [] => none
  | x :: rest, b :: bs =>
    if b = x then (scan rest bs).map (· + 1) else (scan (x :: rest) bs).map (· + 1)

/-- The world after `BT_Send msg` met a quiet stream: the flush waited out its
201 ms, then came the echo on the diagnostic port and the message itself. -/
def sent (msg : String) (w : World) : World :=
  BT_DBG_PRINTLN "" (Bluetooth_print msg (BT_DBG_PRINT msg (BT_DBG_PRINT "> " (delay 201 w))))

/-- The world after `BT_CmdResponse cmd resp time_ms` got no byte at all: the
command went out and the wait for `resp` ran into its deadline. -/
def unanswered (cmd resp : String) (time_ms : Nat) (w : World) : World :=
  BT_ERR_PRINTLN resp (BT_ERR_PRINT "Error, timeout in bluetooth while waiting for "
    (delay (time_ms + 1) (sent cmd w)))

/-- A module that stays silent, except that 1404 ms after power-up (just after
`BT_IsConnected` has sent `GK`) it sends `1,0,0` and never ends the line. -/
def module_unended_status : World :=
  ⟨0, [(1404, '1'), (1404, ','), (1404, '0'), (1404, ','), (1404, '0')], [], [], false⟩

/-- A module that stays silent, except that 16010 ms after power-up (just after
`BT_BondPrivatelyWith` has sent `GB`) it reports the address `000666AB12CD`,
ended by a carriage return.  The build defines `BT_NOVERBOSE`. -/
def module_reports_address : World :=
  ⟨0, "000666AB12CD\r".toList.map (fun c => (16010, c)), [], [], true⟩

/-- The size of `char buf[50]`, the array `BT_BondPrivatelyWith` formats the
`SR` command into. -/
def BT_BondPrivatelyWith_buf_size : Nat := 50

/-- What a flush that reads `consumed` echoes to the serial port: each byte, in
a verbose build, and nothing when `BT_NOVERBOSE` is defined. -/
def echoes (noverbose : Bool) (consumed : List (Nat × Char)) : List (Chan × String) :=
  if noverbose then [] else consumed.map (fun p => (Chan.dbg, String.singleton p.2))

/-- The variables of the loop of `BT_ReceiveResponse` at the head of an
iteration: the write position, the buffer and the environment. -/
structure ReceiveState where
  pos : Nat
  dest : CharStr
  w : World

/-- One iteration of the loop of `BT_ReceiveResponse` from the state `s`: the
index of `dest->data` written in it, if any, and either the value the function
returns or the state at the head of the next iteration. -/
def BT_ReceiveResponse_iteration (timeout_ms start_ms : Nat) (s : ReceiveState) :
    Option Nat × ((Bool × CharStr × World) ⊕ ReceiveState) :=
  if s.pos ≥ CharStr.n then
    (none, Sum.inl (false, s.dest,
      BT_ERR_PRINT ": Error - overflow" (BT_ERR_PRINT "BT_ReceiveResponse" s.w)))
  else
    let delta_ms := elapsed_ms (millis s.w) start_ms
    if delta_ms > timeout_ms then
      (none, Sum.inl (false, s.dest,
        BT_ERR_PRINTLN ": Error - timeout waiting for response"
          (BT_ERR_PRINT "BT_ReceiveResponse" s.w)))
    else if !Bluetooth_available s.w then
      (none, Sum.inr ⟨s.pos, s.dest, spin s.w⟩)
    else
      let (c, w1) := Bluetooth_read s.w
      if c = '\n' ∨ c = '\r' then
        let dest1 : CharStr := ⟨s.dest.data.set s.pos '\x00'⟩
        (some s.pos, Sum.inl (true, dest1, BT_DBG_PRINTLN (String.mk (cstr dest1.data)) w1))
      else
        (some s.pos, Sum.inr ⟨s.pos + 1, ⟨s.dest.data.set s.pos c⟩, w1⟩)

/-- The state at the head of iteration number `k` (counted from 0) of the loop of
`BT_ReceiveResponse` started in `s`; `none` when the function has returned
before. -/
def BT_ReceiveResponse_head (timeout_ms start_ms : Nat) : Nat → ReceiveState → Option ReceiveState
  | 0, s => some s
  | k + 1, s =>
    match (BT_ReceiveResponse_iteration timeout_ms start_ms s).2 with
    | Sum.inl _ => none
    | Sum.inr s1 => BT_ReceiveResponse_head timeout_ms start_ms k s1

/-- A statement of the straight-line parts of the driver's functions: a call of
one of the four stream operations, a `delay`, or a `BT_DBG_PRINTLN`. -/
inductive Stmt where
  | cmdResponse (cmd resp : String) (time_ms : Nat)
  | send (msg : String)
  | waitUntil (str : String) (time_ms : Nat)
  | flushPrint (time_wait_ms : Nat)
  | pause (ms : Nat)
  | dbgPrintln (s : String)
deriving DecidableEq, Repr

/-- What a statement does: the call it stands for. -/
def Stmt.exec (fuel : Nat) : Stmt → World → Option World
  | Stmt.cmdResponse cmd resp time_ms, w => BT_CmdResponse fuel cmd resp time_ms w
  | Stmt.send msg, w => BT_Send fuel msg w
  | Stmt.waitUntil str time_ms, w => BT_WaitUntil fuel str time_ms w
  | Stmt.flushPrint time_wait_ms, w => BT_FlushPrint fuel time_wait_ms w
  | Stmt.pause ms, w => some (delay ms w)
  | Stmt.dbgPrintln s, w => some (BT_DBG_PRINTLN s w)

/-- Statements run one after the other. -/
def exec_all (fuel : Nat) : List Stmt → World → Option World
  | [], w => some w
  | s :: rest, w => (s.exec fuel w).bind (exec_all fuel rest)

/-- Lines 70-71 of `BT_IsConnected`, statement by statement. -/
def BT_IsConnected_before : List Stmt :=
  [Stmt.cmdResponse "$$$" "CMD" 1000, Stmt.send "GK\n"]

/-- Line 77 of `BT_IsConnected`; the deadline is the default of `BT_CmdResponse`. -/
def BT_IsConnected_after : List Stmt :=
  [Stmt.cmdResponse "---\n" "END" 4000]

/-- The body of `BT_EnterCmdModeAndPrintSettingsAndExit`, statement by statement. -/
def BT_EnterCmdModeAndPrintSettingsAndExit_body : List Stmt :=
  [Stmt.send "$$$", Stmt.waitUntil "CMD" 1000, Stmt.flushPrint 200, Stmt.send "D\n",
    Stmt.flushPrint 200, Stmt.dbgPrintln "", Stmt.send "E\n", Stmt.flushPrint 200,
    Stmt.send "---\n", Stmt.waitUntil "END" 1000,
    Stmt.dbgPrintln "\nFinished Bluetooth settings print and successfully exited"]

/-- Lines 218-225 of `BT_BondPrivatelyWith`, statement by statement (`BT_Setup`
is its `delay`). -/
def BT_BondPrivatelyWith_before : List Stmt :=
  [Stmt.pause 1000, Stmt.cmdResponse "$$$" "CMD" 1000, Stmt.cmdResponse "SF,1\n" "AOK" 5000,
    Stmt.cmdResponse "SA,4\n" "AOK" 4000, Stmt.cmdResponse "SE,1\n" "AOK" 4000,
    Stmt.send "GB\n"]

/-- Lines 246-259 of `BT_BondPrivatelyWith`, statement by statement. -/
def BT_BondPrivatelyWith_after (connect_to_addr : String) : List Stmt :=
  [Stmt.cmdResponse (sprintf_SR connect_to_addr) "AOK" 4000, Stmt.pause 1000,
    Stmt.cmdResponse "SM,6\n" "AOK" 4000, Stmt.cmdResponse "SP,c0de\n" "AOK" 4000,
    Stmt.cmdResponse "R,1\n" "Reboot!" 6000, Stmt.pause 1000,
    Stmt.cmdResponse "$$$" "CMD" 2000, Stmt.send "D\n", Stmt.flushPrint 1000,
    Stmt.cmdResponse "---\n" "END" 4000, Stmt.flushPrint 200]

/-- The command/response exchanges among some statements, each with the command
sent, the token waited for and the deadline in ms: a `BT_CmdResponse`, or a
`BT_Send` followed at once by a `BT_WaitUntil`. -/
def exchanges : List Stmt → List (String × String × Nat)
  | [] => []
  | Stmt.cmdResponse cmd resp time_ms :: rest => (cmd, resp, time_ms) :: exchanges rest
  | Stmt.send cmd :: Stmt.waitUntil resp time_ms :: rest => (cmd, resp, time_ms) :: exchanges rest
  | _ :: rest => exchanges rest

/-- All command/response exchanges of the driver, function by function, with
`connect_to_addr` the peer address of the `SR` command. -/
def driver_exchanges (connect_to_addr : String) : List (String × String × Nat) :=
  exchanges BT_IsConnected_before ++ exchanges BT_IsConnected_after ++
    exchanges BT_EnterCmdModeAndPrintSettingsAndExit_body ++
    exchanges BT_BondPrivatelyWith_before ++
    exchanges (BT_BondPrivatelyWith_after connect_to_addr)

/-- Modelled from the spec: the wire-protocol table of section 6, which is not
part of the source.  One row for each command that is answered by a token: the
command sent, the expected token, and the least and the largest deadline in ms
the table allows.  The `SR` row is the one for the address `addr`. -/
def wire_protocol (addr : String) : List (String × String × Nat × Nat) :=
  [("$$$", "CMD", 1000, 1000), ("SF,1\n", "AOK", 5000, 5000), ("SA,4\n", "AOK", 4000, 4000),
    ("SE,1\n", "AOK", 4000, 4000), (sprintf_SR addr, "AOK", 4000, 4000),
    ("SM,6\n", "AOK", 4000, 4000), ("SP,c0de\n", "AOK", 4000, 4000),
    ("R,1\n", "Reboot!", 6000, 6000), ("---\n", "END", 1000, 2000)]

/-- Whether an exchange uses the token and a deadline some row of the table
gives for its command. -/
def follows_table (addr : String) (e : String × String × Nat) : Bool :=
  (wire_protocol addr).any (fun row =>
    row.1 == e.1 && row.2.1 == e.2.1 && decide (row.2.2.1 ≤ e.2.2) && decide (e.2.2 ≤ row.2.2.2))

/-- The largest value of `int count` in `BT_FlushPrint` on the boards whose
`int` has 16 bits (the AVR ones); no C implementation has a smaller one.  A
flush that drains more bytes than this in one call overflows the counter. -/
def INT_MAX : Nat := 32767

/-- Fuel that suffices for every loop the driver runs from `w` on: each unread
byte costs one iteration, each quiet stretch at most the longest deadline. -/
def BT_fuel (w : World) : Nat := (w.rx.length + 1) * 8192

/-- The run from `w` to `w1` printed exactly `cmds` to the Bluetooth stream,
read a front part of the incoming bytes and left the verbosity flag alone. -/
structure Emits (cmds : List String) (w w1 : World) : Prop where
  tx_eq : w1.tx = w.tx ++ cmds
  noverbose_eq : w1.noverbose = w.noverbose
  rx_suffix : w1.rx <:+ w.rx

/-! ## Clock arithmetic -/

theorem elapsed_ms_self (w : World) : elapsed_ms (millis w) (millis w) = 0 := by
  unfold elapsed_ms millis ULONG_RANGE
  omega

theorem elapsed_ms_spin (w : World) (s : Nat) :
    elapsed_ms (millis (spin w)) s = (elapsed_ms (millis w) s + 1) % ULONG_RANGE := by
  unfold elapsed_ms millis spin ULONG_RANGE
  simp only
  omega

theorem elapsed_ms_since (c0 d : Nat) (w : World) (hc : w.clock = c0 + d) :
    elapsed_ms (millis w) (c0 % ULONG_RANGE) = d % ULONG_RANGE := by
  unfold elapsed_ms millis ULONG_RANGE
  rw [hc]
  omega

/-! ## Frames -/

theorem Emits.refl (w : World) : Emits [] w w :=
  ⟨by simp, rfl, List.suffix_refl _⟩

theorem Emits.trans {a b : List String} {w w1 w2 : World} (h1 : Emits a w w1)
    (h2 : Emits b w1 w2) : Emits (a ++ b) w w2 :=
  ⟨by rw [h2.tx_eq, h1.tx_eq, List.append_assoc], h2.noverbose_eq.trans h1.noverbose_eq,
    h2.rx_suffix.trans h1.rx_suffix⟩

theorem Emits.fuel_le {a : List String} {w w1 : World} (h : Emits a w w1) :
    BT_fuel w1 ≤ BT_fuel w := by
  unfold BT_fuel
  exact Nat.mul_le_mul_right _ (Nat.succ_le_succ h.rx_suffix.length_le)

theorem Emits.spin (w : World) : Emits [] w (spin w) :=
  ⟨by simp [EZBlueSmirf.spin], rfl, List.suffix_refl _⟩

theorem Emits.delay (ms : Nat) (w : World) : Emits [] w (delay ms w) :=
  ⟨by simp [EZBlueSmirf.delay], rfl, List.suffix_refl _⟩

theorem Emits.dbg (s : String) (w : World) : Emits [] w (BT_DBG_PRINT s w) := by
  unfold BT_DBG_PRINT
  split
  · exact Emits.refl w
  · exact ⟨by simp, rfl, List.suffix_refl _⟩

theorem Emits.dbgln (s : String) (w : World) : Emits [] w (BT_DBG_PRINTLN s w) :=
  Emits.dbg _ w

theorem Emits.err (s : String) (w : World) : Emits [] w (BT_ERR_PRINT s w) :=
  ⟨by simp [BT_ERR_PRINT], rfl, List.suffix_refl _⟩

theorem Emits.errln (s : String) (w : World) : Emits [] w (BT_ERR_PRINTLN s w) :=
  Emits.err _ w

theorem Emits.print (s : String) (w : World) : Emits [s] w (Bluetooth_print s w) :=
  ⟨rfl, rfl, List.suffix_refl _⟩

theorem Emits.read (w : World) : Emits [] w (Bluetooth_read w).2 := by
  unfold Bluetooth_read
  split
  · exact Emits.refl w
  · next h => exact ⟨by simp, rfl, by rw [h]; exact List.suffix_cons _ _⟩

theorem Emits.nil_trans {b : List String} {w w1 w2 : World} (h1 : Emits [] w w1)
    (h2 : Emits b w1 w2) : Emits b w w2 := by
  simpa using h1.trans h2

theorem Emits.trans_nil {a : List String} {w w1 w2 : World} (h1 : Emits a w w1)
    (h2 : Emits [] w1 w2) : Emits a w w2 := by
  simpa using h1.trans h2

theorem Bluetooth_read_length (w : World) (h : Bluetooth_available w = true) :
    (Bluetooth_read w).2.rx.length + 1 = w.rx.length := by
  unfold Bluetooth_available at h
  unfold Bluetooth_read
  split
  · next h1 => simp [h1] at h
  · next h1 => simp [h1]

/-! ## One iteration of each loop -/

theorem BT_FlushPrint_loop_read (wait fuel start count : Nat) (last : Char) (w : World)
    (ha : Bluetooth_available w = true) :
    BT_FlushPrint_loop wait (fuel + 1) start count last w =
      BT_FlushPrint_loop wait fuel (millis w) (count + 1) (Bluetooth_read w).1
        (BT_DBG_PRINT (String.singleton (Bluetooth_read w).1) (Bluetooth_read w).2) := by
  simp [BT_FlushPrint_loop, ha, elapsed_ms_self]

theorem BT_FlushPrint_loop_break (wait fuel start count : Nat) (last : Char) (w : World)
    (ha : Bluetooth_available w = false) (hd : wait < elapsed_ms (millis w) start) :
    BT_FlushPrint_loop wait (fuel + 1) start count last w = some (count, last, w) := by
  simp [BT_FlushPrint_loop, ha, hd]

theorem BT_FlushPrint_loop_spin (wait fuel start count : Nat) (last : Char) (w : World)
    (ha : Bluetooth_available w = false) (hd : elapsed_ms (millis w) start ≤ wait) :
    BT_FlushPrint_loop wait (fuel + 1) start count last w =
      BT_FlushPrint_loop wait fuel start count last (spin w) := by
  simp [BT_FlushPrint_loop, ha, Nat.not_lt.mpr hd]

theorem BT_ReceiveResponse_loop_overflow (timeout start fuel pos : Nat) (dest : CharStr)
    (w : World) (hp : CharStr.n ≤ pos) :
    BT_ReceiveResponse_loop timeout start (fuel + 1) pos dest w =
      some (false, dest, BT_ERR_PRINT ": Error - overflow" (BT_ERR_PRINT "BT_ReceiveResponse" w)) := by
  simp [BT_ReceiveResponse_loop, hp]

theorem BT_ReceiveResponse_loop_timeout (timeout start fuel pos : Nat) (dest : CharStr)
    (w : World) (hp : pos < CharStr.n) (hd : timeout < elapsed_ms (millis w) start) :
    BT_ReceiveResponse_loop timeout start (fuel + 1) pos dest w =
      some (false, dest, BT_ERR_PRINTLN ": Error - timeout waiting for response"
        (BT_ERR_PRINT "BT_ReceiveResponse" w)) := by
  simp [BT_ReceiveResponse_loop, Nat.not_le.mpr hp, hd]

theorem BT_ReceiveResponse_loop_spin (timeout start fuel pos : Nat) (dest : CharStr)
    (w : World) (hp : pos < CharStr.n) (hd : elapsed_ms (millis w) start ≤ timeout)
    (ha : Bluetooth_available w = false) :
    BT_ReceiveResponse_loop timeout start (fuel + 1) pos dest w =
      BT_ReceiveResponse_loop timeout start fuel pos dest (spin w) := by
  simp [BT_ReceiveResponse_loop, Nat.not_le.mpr hp, Nat.not_lt.mpr hd, ha]

theorem BT_ReceiveResponse_loop_end (timeout start fuel pos : Nat) (dest : CharStr)
    (w : World) (hp : pos < CharStr.n) (hd : elapsed_ms (millis w) start ≤ timeout)
    (ha : Bluetooth_available w = true)
    (hc : (Bluetooth_read w).1 = '\n' ∨ (Bluetooth_read w).1 = '\r') :
    BT_ReceiveResponse_loop timeout start (fuel + 1) pos dest w =
      some (true, ⟨dest.data.set pos '\x00'⟩,
        BT_DBG_PRINTLN (String.mk (cstr (dest.data.set pos '\x00'))) (Bluetooth_read w).2) := by
  simp [BT_ReceiveResponse_loop, Nat.not_le.mpr hp, Nat.not_lt.mpr hd, ha, hc]

theorem BT_ReceiveResponse_loop_store (timeout start fuel pos : Nat) (dest : CharStr)
    (w : World) (hp : pos < CharStr.n) (hd : elapsed_ms (millis w) start ≤ timeout)
    (ha : Bluetooth_available w = true)
    (hc : ¬ ((Bluetooth_read w).1 = '\n' ∨ (Bluetooth_read w).1 = '\r')) :
    BT_ReceiveResponse_loop timeout start (fuel + 1) pos dest w =
      BT_ReceiveResponse_loop timeout start fuel (pos + 1)
        ⟨dest.data.set pos (Bluetooth_read w).1⟩ (Bluetooth_read w).2 := by
  simp [BT_ReceiveResponse_loop, Nat.not_le.mpr hp, Nat.not_lt.mpr hd, ha, hc]

theorem BT_WaitUntil_loop_done (str : String) (time start fuel : Nat) (w : World) :
    BT_WaitUntil_loop str time start fuel [] w = some (true, w) := by
  cases fuel <;> simp [BT_WaitUntil_loop]

theorem BT_WaitUntil_loop_timeout (str : String) (time start fuel : Nat) (x : Char)
    (rest : List Char) (w : World) (hd : time < elapsed_ms (millis w) start) :
    BT_WaitUntil_loop str time start (fuel + 1) (x :: rest) w =
      some (false, BT_ERR_PRINTLN str
        (BT_ERR_PRINT "Error, timeout in bluetooth while waiting for " w)) := by
  simp [BT_WaitUntil_loop, hd]

theorem BT_WaitUntil_loop_spin (str : String) (time start fuel : Nat) (x : Char)
    (rest : List Char) (w : World) (hd : elapsed_ms (millis w) start ≤ time)
    (ha : Bluetooth_available w = false) :
    BT_WaitUntil_loop str time start (fuel + 1) (x :: rest) w =
      BT_WaitUntil_loop str time start fuel (x :: rest) (spin w) := by
  simp [BT_WaitUntil_loop, Nat.not_lt.mpr hd, ha]

theorem BT_WaitUntil_loop_hit (str : String) (time start fuel : Nat) (x : Char)
    (rest : List Char) (w : World) (hd : elapsed_ms (millis w) start ≤ time)
    (ha : Bluetooth_available w = true) (hc : (Bluetooth_read w).1 = x) :
    BT_WaitUntil_loop str time start (fuel + 1) (x :: rest) w =
      BT_WaitUntil_loop str time start fuel rest (Bluetooth_read w).2 := by
  simp [BT_WaitUntil_loop, Nat.not_lt.mpr hd, ha, hc]

theorem BT_WaitUntil_loop_miss (str : String) (time start fuel : Nat) (x : Char)
    (rest : List Char) (w : World) (hd : elapsed_ms (millis w) start ≤ time)
    (ha : Bluetooth_available w = true) (hc : (Bluetooth_read w).1 ≠ x) :
    BT_WaitUntil_loop str time start (fuel + 1) (x :: rest) w =
      BT_WaitUntil_loop str time start fuel (x :: rest) (Bluetooth_read w).2 := by
  simp [BT_WaitUntil_loop, Nat.not_lt.mpr hd, ha, hc]

/-! ## What the primitives leave alone -/

@[simp] theorem BT_DBG_PRINT_rx (s : String) (w : World) : (BT_DBG_PRINT s w).rx = w.rx := by
  unfold BT_DBG_PRINT; split <;> rfl

@[simp] theorem BT_DBG_PRINT_clock (s : String) (w : World) :
    (BT_DBG_PRINT s w).clock = w.clock := by
  unfold BT_DBG_PRINT; split <;> rfl

@[simp] theorem BT_DBG_PRINT_tx (s : String) (w : World) : (BT_DBG_PRINT s w).tx = w.tx := by
  unfold BT_DBG_PRINT; split <;> rfl

@[simp] theorem BT_DBG_PRINTLN_rx (s : String) (w : World) : (BT_DBG_PRINTLN s w).rx = w.rx :=
  BT_DBG_PRINT_rx _ w

@[simp] theorem BT_DBG_PRINTLN_clock (s : String) (w : World) :
    (BT_DBG_PRINTLN s w).clock = w.clock :=
  BT_DBG_PRINT_clock _ w

@[simp] theorem BT_DBG_PRINTLN_tx (s : String) (w : World) : (BT_DBG_PRINTLN s w).tx = w.tx :=
  BT_DBG_PRINT_tx _ w

@[simp] theorem BT_ERR_PRINT_rx (s : String) (w : World) : (BT_ERR_PRINT s w).rx = w.rx := rfl

@[simp] theorem BT_ERR_PRINT_clock (s : String) (w : World) :
    (BT_ERR_PRINT s w).clock = w.clock := rfl

@[simp] theorem BT_ERR_PRINT_tx (s : String) (w : World) : (BT_ERR_PRINT s w).tx = w.tx := rfl

@[simp] theorem BT_ERR_PRINTLN_rx (s : String) (w : World) : (BT_ERR_PRINTLN s w).rx = w.rx := rfl

@[simp] theorem BT_ERR_PRINTLN_clock (s : String) (w : World) :
    (BT_ERR_PRINTLN s w).clock = w.clock := rfl

@[simp] theorem BT_ERR_PRINTLN_tx (s : String) (w : World) : (BT_ERR_PRINTLN s w).tx = w.tx := rfl

@[simp] theorem Bluetooth_print_rx (s : String) (w : World) : (Bluetooth_print s w).rx = w.rx :=
  rfl

@[simp] theorem Bluetooth_print_clock (s : String) (w : World) :
    (Bluetooth_print s w).clock = w.clock := rfl

@[simp] theorem spin_rx (w : World) : (spin w).rx = w.rx := rfl

@[simp] theorem spin_clock (w : World) : (spin w).clock = w.clock + 1 := rfl

@[simp] theorem delay_rx (ms : Nat) (w : World) : (delay ms w).rx = w.rx := rfl

@[simp] theorem delay_clock (ms : Nat) (w : World) : (delay ms w).clock = w.clock + ms := rfl

@[simp] theorem Bluetooth_read_clock (w : World) : (Bluetooth_read w).2.clock = w.clock := by
  unfold Bluetooth_read; split <;> rfl

theorem millis_congr {w w1 : World} (h : w1.clock = w.clock) : millis w1 = millis w := by
  unfold millis; rw [h]

/-! ## Every loop ends, given fuel -/

theorem BT_FlushPrint_loop_total (wait : Nat) (hw : wait + 1 < ULONG_RANGE) :
    ∀ (fuel start count : Nat) (last : Char) (w : World),
      (if Bluetooth_available w = true then w.rx.length * (wait + 2) + 1
        else w.rx.length * (wait + 2) + (wait + 1 - elapsed_ms (millis w) start) + 1) ≤ fuel →
      ∃ r, BT_FlushPrint_loop wait fuel start count last w = some r ∧ Emits [] w r.2.2 := by
  intro fuel
  induction fuel with
  | zero =>
    intro start count last w h
    split at h <;> omega
  | succ fuel ih =>
    intro start count last w h
    by_cases ha : Bluetooth_available w = true
    · rw [BT_FlushPrint_loop_read _ _ _ _ _ _ ha]
      rw [if_pos ha] at h
      have hl := Bluetooth_read_length w ha
      have hmul : w.rx.length * (wait + 2) =
          (Bluetooth_read w).2.rx.length * (wait + 2) + (wait + 2) := by
        rw [← hl, Nat.add_mul, Nat.one_mul]
      obtain ⟨r, hr, he⟩ := ih (millis w) (count + 1) (Bluetooth_read w).1
        (BT_DBG_PRINT (String.singleton (Bluetooth_read w).1) (Bluetooth_read w).2) (by
          simp only [BT_DBG_PRINT_rx]
          split <;> omega)
      exact ⟨r, hr, ((Emits.read w).trans_nil (Emits.dbg _ _)).trans_nil he⟩
    · have ha0 : Bluetooth_available w = false := by simpa using ha
      rw [if_neg ha] at h
      by_cases hd : wait < elapsed_ms (millis w) start
      · rw [BT_FlushPrint_loop_break _ _ _ _ _ _ ha0 hd]
        exact ⟨_, rfl, Emits.refl w⟩
      · have hd1 : elapsed_ms (millis w) start ≤ wait := Nat.not_lt.mp hd
        rw [BT_FlushPrint_loop_spin _ _ _ _ _ _ ha0 hd1]
        have hs := elapsed_ms_spin w start
        rw [Nat.mod_eq_of_lt (by omega)] at hs
        obtain ⟨r, hr, he⟩ := ih start count last (spin w) (by
          rw [hs]
          simp only [spin_rx]
          split <;> omega)
        exact ⟨r, hr, (Emits.spin w).trans_nil he⟩

theorem BT_FlushPrint_total (fuel wait : Nat) (w : World) (hw : wait + 2 ≤ 8192)
    (hf : BT_fuel w ≤ fuel) :
    ∃ w1, BT_FlushPrint fuel wait w = some w1 ∧ Emits [] w w1 := by
  have hR : wait + 1 < ULONG_RANGE := by unfold ULONG_RANGE; omega
  obtain ⟨r, hr, he⟩ := BT_FlushPrint_loop_total wait hR fuel (millis w) 0 '\x00' w (by
    unfold BT_fuel at hf
    have h1 : w.rx.length * (wait + 2) ≤ w.rx.length * 8192 := Nat.mul_le_mul_left _ hw
    have h2 : (w.rx.length + 1) * 8192 = w.rx.length * 8192 + 8192 := by
      rw [Nat.add_mul, Nat.one_mul]
    split <;> omega)
  obtain ⟨count, last, w1⟩ := r
  unfold BT_FlushPrint
  rw [hr]
  simp only
  split
  · exact ⟨_, rfl, he.trans_nil (Emits.dbgln _ _)⟩
  · exact ⟨_, rfl, he⟩

theorem BT_Send_total (fuel : Nat) (msg : String) (w : World) (hf : BT_fuel w ≤ fuel) :
    ∃ w1, BT_Send fuel msg w = some w1 ∧ Emits [msg] w w1 := by
  obtain ⟨w1, h1, e1⟩ := BT_FlushPrint_total fuel 200 w (by omega) hf
  unfold BT_Send
  rw [h1]
  refine ⟨_, rfl, ?_⟩
  exact Emits.nil_trans e1 (Emits.nil_trans (Emits.dbg _ _) (Emits.nil_trans (Emits.dbg _ _)
    ((Emits.print msg _).trans_nil (Emits.dbgln _ _))))

theorem BT_ReceiveResponse_loop_total (timeout start : Nat) (ht : timeout + 1 < ULONG_RANGE) :
    ∀ (fuel pos : Nat) (dest : CharStr) (w : World),
      (CharStr.n - pos) + (timeout + 1 - elapsed_ms (millis w) start) + 1 ≤ fuel →
      ∃ r, BT_ReceiveResponse_loop timeout start fuel pos dest w = some r ∧ Emits [] w r.2.2 := by
  intro fuel
  induction fuel with
  | zero => intro pos dest w h; omega
  | succ fuel ih =>
    intro pos dest w h
    by_cases hp : CharStr.n ≤ pos
    · rw [BT_ReceiveResponse_loop_overflow _ _ _ _ _ _ hp]
      exact ⟨_, rfl, (Emits.err _ _).trans_nil (Emits.err _ _)⟩
    have hp1 : pos < CharStr.n := Nat.not_le.mp hp
    by_cases hd : timeout < elapsed_ms (millis w) start
    · rw [BT_ReceiveResponse_loop_timeout _ _ _ _ _ _ hp1 hd]
      exact ⟨_, rfl, (Emits.err _ _).trans_nil (Emits.errln _ _)⟩
    have hd1 : elapsed_ms (millis w) start ≤ timeout := Nat.not_lt.mp hd
    by_cases ha : Bluetooth_available w = true
    · by_cases hc : (Bluetooth_read w).1 = '\n' ∨ (Bluetooth_read w).1 = '\r'
      · rw [BT_ReceiveResponse_loop_end _ _ _ _ _ _ hp1 hd1 ha hc]
        exact ⟨_, rfl, (Emits.read w).trans_nil (Emits.dbgln _ _)⟩
      · rw [BT_ReceiveResponse_loop_store _ _ _ _ _ _ hp1 hd1 ha hc]
        have hm : millis (Bluetooth_read w).2 = millis w := millis_congr (by simp)
        obtain ⟨r, hr, he⟩ := ih (pos + 1) ⟨dest.data.set pos (Bluetooth_read w).1⟩
          (Bluetooth_read w).2 (by rw [hm]; omega)
        exact ⟨r, hr, (Emits.read w).trans_nil he⟩
    · have ha0 : Bluetooth_available w = false := by simpa using ha
      rw [BT_ReceiveResponse_loop_spin _ _ _ _ _ _ hp1 hd1 ha0]
      have hs := elapsed_ms_spin w start
      rw [Nat.mod_eq_of_lt (by omega)] at hs
      obtain ⟨r, hr, he⟩ := ih pos dest (spin w) (by rw [hs]; omega)
      exact ⟨r, hr, (Emits.spin w).trans_nil he⟩

theorem BT_ReceiveResponse_total (fuel timeout : Nat) (dest : CharStr) (w : World)
    (ht : timeout + 52 ≤ 8192) (hf : BT_fuel w ≤ fuel) :
    ∃ r, BT_ReceiveResponse fuel dest timeout w = some r ∧ Emits [] w r.2.2 := by
  have hR : timeout + 1 < ULONG_RANGE := by unfold ULONG_RANGE; omega
  unfold BT_ReceiveResponse
  apply BT_ReceiveResponse_loop_total timeout (millis w) hR
  unfold BT_fuel at hf
  have h2 : (w.rx.length + 1) * 8192 = w.rx.length * 8192 + 8192 := by
    rw [Nat.add_mul, Nat.one_mul]
  unfold CharStr.n
  omega

theorem BT_WaitUntil_loop_total (str : String) (time start : Nat)
    (ht : time + 1 < ULONG_RANGE) :
    ∀ (fuel : Nat) (it : List Char) (w : World),
      w.rx.length + (time + 1 - elapsed_ms (millis w) start) + 1 ≤ fuel →
      ∃ r, BT_WaitUntil_loop str time start fuel it w = some r ∧ Emits [] w r.2 := by
  intro fuel
  induction fuel with
  | zero => intro it w h; omega
  | succ fuel ih =>
    intro it w h
    cases it with
    | nil =>
      rw [BT_WaitUntil_loop_done]
      exact ⟨_, rfl, Emits.refl w⟩
    | cons x rest =>
      by_cases hd : time < elapsed_ms (millis w) start
      · rw [BT_WaitUntil_loop_timeout _ _ _ _ _ _ _ hd]
        exact ⟨_, rfl, (Emits.err _ _).trans_nil (Emits.errln _ _)⟩
      have hd1 : elapsed_ms (millis w) start ≤ time := Nat.not_lt.mp hd
      by_cases ha : Bluetooth_available w = true
      · have hm : millis (Bluetooth_read w).2 = millis w := millis_congr (by simp)
        have hl := Bluetooth_read_length w ha
        by_cases hc : (Bluetooth_read w).1 = x
        · rw [BT_WaitUntil_loop_hit _ _ _ _ _ _ _ hd1 ha hc]
          obtain ⟨r, hr, he⟩ := ih rest (Bluetooth_read w).2 (by rw [hm]; omega)
          exact ⟨r, hr, (Emits.read w).trans_nil he⟩
        · rw [BT_WaitUntil_loop_miss _ _ _ _ _ _ _ hd1 ha hc]
          obtain ⟨r, hr, he⟩ := ih (x :: rest) (Bluetooth_read w).2 (by rw [hm]; omega)
          exact ⟨r, hr, (Emits.read w).trans_nil he⟩
      · have ha0 : Bluetooth_available w = false := by simpa using ha
        rw [BT_WaitUntil_loop_spin _ _ _ _ _ _ _ hd1 ha0]
        have hs := elapsed_ms_spin w start
        rw [Nat.mod_eq_of_lt (by omega)] at hs
        obtain ⟨r, hr, he⟩ := ih (x :: rest) (spin w) (by rw [hs]; simp only [spin_rx]; omega)
        exact ⟨r, hr, (Emits.spin w).trans_nil he⟩

theorem BT_WaitUntil_total (fuel : Nat) (str : String) (time : Nat) (w : World)
    (ht : time + 2 ≤ 8192) (hf : BT_fuel w ≤ fuel) :
    ∃ w1, BT_WaitUntil fuel str time w = some w1 ∧ Emits [] w w1 := by
  have hR : time + 1 < ULONG_RANGE := by unfold ULONG_RANGE; omega
  obtain ⟨r, hr, he⟩ := BT_WaitUntil_loop_total str time (millis w) hR fuel str.toList w (by
    unfold BT_fuel at hf
    have h2 : (w.rx.length + 1) * 8192 = w.rx.length * 8192 + 8192 := by
      rw [Nat.add_mul, Nat.one_mul]
    omega)
  obtain ⟨b, w1⟩ := r
  unfold BT_WaitUntil
  rw [hr]
  cases b with
  | false => exact ⟨_, rfl, he⟩
  | true =>
    obtain ⟨w2, h2, e2⟩ := BT_FlushPrint_total fuel 200 (BT_DBG_PRINT str w1) (by omega)
      (Nat.le_trans (he.trans_nil (Emits.dbg _ _)).fuel_le hf)
    exact ⟨w2, h2, (he.trans_nil (Emits.dbg _ _)).trans_nil e2⟩

theorem BT_CmdResponse_total (fuel : Nat) (cmd resp : String) (time : Nat) (w : World)
    (ht : time + 2 ≤ 8192) (hf : BT_fuel w ≤ fuel) :
    ∃ w1, BT_CmdResponse fuel cmd resp time w = some w1 ∧ Emits [cmd] w w1 := by
  obtain ⟨w1, h1, e1⟩ := BT_Send_total fuel cmd w hf
  obtain ⟨w2, h2, e2⟩ := BT_WaitUntil_total fuel resp time w1 ht (Nat.le_trans e1.fuel_le hf)
  unfold BT_CmdResponse
  rw [h1]
  exact ⟨w2, h2, e1.trans_nil e2⟩

/-! ## Case-insensitive comparison -/

theorem tolower_toNat (c : Char) :
    (tolower c).toNat = if 65 ≤ c.toNat ∧ c.toNat ≤ 90 then c.toNat + 32 else c.toNat := by
  unfold tolower
  split
  · next h =>
    obtain ⟨h1, h2⟩ := h
    generalize c.toNat = n at h1 h2
    interval_cases n <;> rfl
  · rfl

theorem toNat_eq_zero_iff (c : Char) : c.toNat = 0 ↔ c = '\x00' := by
  constructor
  · intro h
    apply Char.ext
    apply UInt32.ext
    exact h
  · intro h; rw [h]; rfl

theorem tolower_eq_zero_iff (c : Char) : (tolower c).toNat = 0 ↔ c = '\x00' := by
  rw [tolower_toNat, ← toNat_eq_zero_iff]
  split <;> omega

theorem toNat_injective {a b : Char} (h : a.toNat = b.toNat) : a = b := by
  apply Char.ext
  apply UInt32.ext
  exact h

theorem cstr_nil : cstr [] = [] := rfl

theorem cstr_cons_zero (l : List Char) : cstr ('\x00' :: l) = [] := rfl

theorem cstr_cons (c : Char) (l : List Char) (h : c ≠ '\x00') : cstr (c :: l) = c :: cstr l := by
  unfold cstr
  rw [List.takeWhile_cons_of_pos]
  simpa using h

theorem stricmp_eq_zero_iff (a b : List Char) :
    stricmp a b = 0 ↔ (cstr a).map tolower = (cstr b).map tolower := by
  induction a generalizing b with
  | nil =>
    cases b with
    | nil => simp [stricmp]
    | cons y ys =>
      have hy := tolower_eq_zero_iff y
      by_cases h0 : y = '\x00'
      · subst h0
        simp [stricmp, cstr_nil, cstr_cons_zero]
        exact hy.mpr rfl
      · rw [cstr_nil, cstr_cons _ _ h0]
        simp only [stricmp, List.map_nil, List.map_cons]
        constructor
        · intro h; exact absurd (hy.mp (by omega)) h0
        · intro h; exact absurd h (by simp)
  | cons x xs ih =>
    cases b with
    | nil =>
      have hx := tolower_eq_zero_iff x
      by_cases h0 : x = '\x00'
      · subst h0
        simp [stricmp, cstr_nil, cstr_cons_zero]
        exact hx.mpr rfl
      · rw [cstr_nil, cstr_cons _ _ h0]
        simp only [stricmp, List.map_nil, List.map_cons]
        constructor
        · intro h; exact absurd (hx.mp (by omega)) h0
        · intro h; exact absurd h (by simp)
    | cons y ys =>
      have hx := tolower_eq_zero_iff x
      have hy := tolower_eq_zero_iff y
      unfold stricmp
      by_cases ht : tolower x = tolower y
      · rw [if_pos ht]
        by_cases h0 : x = '\x00'
        · have hy0 : y = '\x00' := hy.mp (by rw [← ht]; exact hx.mpr h0)
          subst h0; subst hy0
          simp [cstr_cons_zero]
        · have hy0 : y ≠ '\x00' := fun h => h0 (hx.mp (by rw [ht]; exact hy.mpr h))
          rw [if_neg h0, cstr_cons _ _ h0, cstr_cons _ _ hy0, ih ys]
          simp [ht]
      · rw [if_neg ht]
        have hne : (tolower x).toNat ≠ (tolower y).toNat := fun h => ht (toNat_injective h)
        constructor
        · intro h; omega
        · intro h
          exfalso
          by_cases h0 : x = '\x00'
          · by_cases hy0 : y = '\x00'
            · exact ht (by rw [h0, hy0])
            · rw [h0, cstr_cons_zero, cstr_cons _ _ hy0] at h
              simp at h
          · by_cases hy0 : y = '\x00'
            · rw [hy0, cstr_cons_zero, cstr_cons _ _ h0] at h
              simp at h
            · rw [cstr_cons _ _ h0, cstr_cons _ _ hy0] at h
              simp only [List.map_cons, List.cons.injEq] at h
              exact ht h.1

theorem stricmp_self (a : List Char) : stricmp a a = 0 :=
  (stricmp_eq_zero_iff a a).mpr rfl

theorem stricmp_symm {a b : List Char} (h : stricmp a b = 0) : stricmp b a = 0 :=
  (stricmp_eq_zero_iff b a).mpr ((stricmp_eq_zero_iff a b).mp h).symm

theorem stricmp_trans {a b c : List Char} (h1 : stricmp a b = 0) (h2 : stricmp b c = 0) :
    stricmp a c = 0 :=
  (stricmp_eq_zero_iff a c).mpr
    (((stricmp_eq_zero_iff a b).mp h1).trans ((stricmp_eq_zero_iff b c).mp h2))

/-! ## The bonding sequence ends and prints its commands in order -/

theorem BT_BondPrivatelyWith_address_total (fuel : Nat) (w : World) (hf : BT_fuel w ≤ fuel) :
    ∃ r, BT_BondPrivatelyWith_address fuel w = some r ∧
      Emits ["$$$", "SF,1\n", "SA,4\n", "SE,1\n", "GB\n"] w r.2.2 := by
  have e0 : Emits [] w (BT_Setup w) := Emits.delay 1000 w
  obtain ⟨w1, h1, e1⟩ := BT_CmdResponse_total fuel "$$$" "CMD" 1000 (BT_Setup w) (by omega)
    (Nat.le_trans e0.fuel_le hf)
  have e1 := e0.nil_trans e1
  obtain ⟨w2, h2, e2⟩ := BT_CmdResponse_total fuel "SF,1\n" "AOK" 5000 w1 (by omega)
    (Nat.le_trans e1.fuel_le hf)
  have e2 := e1.trans e2
  obtain ⟨w3, h3, e3⟩ := BT_CmdResponse_total fuel "SA,4\n" "AOK" 4000 w2 (by omega)
    (Nat.le_trans e2.fuel_le hf)
  have e3 := e2.trans e3
  obtain ⟨w4, h4, e4⟩ := BT_CmdResponse_total fuel "SE,1\n" "AOK" 4000 w3 (by omega)
    (Nat.le_trans e3.fuel_le hf)
  have e4 := e3.trans e4
  obtain ⟨w5, h5, e5⟩ := BT_Send_total fuel "GB\n" w4 (Nat.le_trans e4.fuel_le hf)
  have e5 := e4.trans e5
  obtain ⟨r, h6, e6⟩ := BT_ReceiveResponse_total fuel 4000 CharStr.new w5 (by omega)
    (Nat.le_trans e5.fuel_le hf)
  refine ⟨r, ?_, e5.trans_nil e6⟩
  simp only [BT_BondPrivatelyWith_address, h1, h2, h3, h4, h5, h6, Option.some_bind]

theorem BT_BondPrivatelyWith_pair_total (fuel : Nat) (addr : String) (w : World)
    (hf : BT_fuel w ≤ fuel) :
    ∃ w9, BT_BondPrivatelyWith_pair fuel addr w = some (true, w9) ∧
      Emits [sprintf_SR addr, "SM,6\n", "SP,c0de\n", "R,1\n", "$$$", "D\n", "---\n"] w w9 := by
  obtain ⟨w1, h1, e1⟩ := BT_CmdResponse_total fuel (sprintf_SR addr) "AOK" 4000 w (by omega) hf
  have d1 : Emits [] w1 (delay 1000 w1) := Emits.delay 1000 w1
  obtain ⟨w2, h2, e2⟩ := BT_CmdResponse_total fuel "SM,6\n" "AOK" 4000 (delay 1000 w1) (by omega)
    (Nat.le_trans (e1.trans_nil d1).fuel_le hf)
  have e2 := (e1.trans_nil d1).trans e2
  obtain ⟨w3, h3, e3⟩ := BT_CmdResponse_total fuel "SP,c0de\n" "AOK" 4000 w2 (by omega)
    (Nat.le_trans e2.fuel_le hf)
  have e3 := e2.trans e3
  obtain ⟨w4, h4, e4⟩ := BT_CmdResponse_total fuel "R,1\n" "Reboot!" 6000 w3 (by omega)
    (Nat.le_trans e3.fuel_le hf)
  have e4 := e3.trans e4
  have d4 : Emits [] w4 (delay 1000 w4) := Emits.delay 1000 w4
  obtain ⟨w5, h5, e5⟩ := BT_CmdResponse_total fuel "$$$" "CMD" 2000 (delay 1000 w4) (by omega)
    (Nat.le_trans (e4.trans_nil d4).fuel_le hf)
  have e5 := (e4.trans_nil d4).trans e5
  obtain ⟨w6, h6, e6⟩ := BT_Send_total fuel "D\n" w5 (Nat.le_trans e5.fuel_le hf)
  have e6 := e5.trans e6
  obtain ⟨w7, h7, e7⟩ := BT_FlushPrint_total fuel 1000 w6 (by omega) (Nat.le_trans e6.fuel_le hf)
  have e7 := e6.trans_nil e7
  obtain ⟨w8, h8, e8⟩ := BT_CmdResponse_total fuel "---\n" "END" 4000 w7 (by omega)
    (Nat.le_trans e7.fuel_le hf)
  have e8 := e7.trans e8
  obtain ⟨w9, h9, e9⟩ := BT_FlushPrint_total fuel 200 w8 (by omega) (Nat.le_trans e8.fuel_le hf)
  refine ⟨w9, ?_, e8.trans_nil e9⟩
  simp only [BT_BondPrivatelyWith_pair, h1, h2, h3, h4, h5, h6, h7, h8, h9, Option.some_bind]

theorem BT_BondPrivatelyWith_unfold (fuel : Nat) (a b : String) (w : World) (ok : Bool)
    (rec_addr : CharStr) (w1 : World)
    (hrec : BT_BondPrivatelyWith_address fuel w = some (ok, rec_addr, w1)) :
    BT_BondPrivatelyWith fuel a b w = BT_BondPrivatelyWith_validate fuel a b rec_addr w1 := by
  simp only [BT_BondPrivatelyWith, hrec, Option.some_bind]

/-! ## The largest timeout never fires

With `timeout_ms = 0xFFFFFFFF` the test `delta_ms > timeout_ms` is never true of an
`unsigned long`, so a loop that gets no byte polls for ever: no amount of fuel
yields a result.  This is why the statements about deadlines below take a
timeout with `timeout + 1 < ULONG_RANGE`. -/

theorem elapsed_ms_lt (now start : Nat) : elapsed_ms now start < ULONG_RANGE := by
  unfold elapsed_ms
  exact Nat.mod_lt _ (by unfold ULONG_RANGE; omega)

theorem BT_ReceiveResponse_loop_unbounded (start pos : Nat) (dest : CharStr)
    (hp : pos < CharStr.n) :
    ∀ (fuel : Nat) (w : World), w.rx = [] →
      BT_ReceiveResponse_loop (ULONG_RANGE - 1) start fuel pos dest w = none := by
  intro fuel
  induction fuel with
  | zero => intro w _; rfl
  | succ fuel ih =>
    intro w hrx
    have hlt := elapsed_ms_lt (millis w) start
    rw [BT_ReceiveResponse_loop_spin _ _ _ _ _ _ hp (by omega)
      (by unfold Bluetooth_available; rw [hrx])]
    exact ih (spin w) hrx

theorem BT_WaitUntil_loop_unbounded (str : String) (start : Nat) (x : Char) (r : List Char) :
    ∀ (fuel : Nat) (w : World), w.rx = [] →
      BT_WaitUntil_loop str (ULONG_RANGE - 1) start fuel (x :: r) w = none := by
  intro fuel
  induction fuel with
  | zero => intro w _; rfl
  | succ fuel ih =>
    intro w hrx
    have hlt := elapsed_ms_lt (millis w) start
    rw [BT_WaitUntil_loop_spin _ _ _ _ _ _ _ (by omega)
      (by unfold Bluetooth_available; rw [hrx])]
    exact ih (spin w) hrx

/-! ## Quiet stretches -/

theorem delay_zero (w : World) : delay 0 w = w := by
  cases w; rfl

theorem spin_eq_delay (w : World) : spin w = delay 1 w := rfl

theorem delay_delay (a b : Nat) (w : World) : delay a (delay b w) = delay (b + a) w := by
  cases w; simp [delay, Nat.add_assoc]

theorem delay_spin (k : Nat) (w : World) : delay k (spin w) = delay (k + 1) w := by
  rw [spin_eq_delay, delay_delay, Nat.add_comm]

theorem notBefore_mono {t s : Nat} {rx : List (Nat × Char)} (h : s ≤ t)
    (hq : notBefore t rx = true) : notBefore s rx = true := by
  unfold notBefore at *
  split
  · rfl
  · next t2 c rest =>
    simp only [decide_eq_true_eq] at hq ⊢
    omega

theorem available_false_of_notBefore {t : Nat} {w : World} (hq : notBefore t w.rx = true)
    (hc : w.clock < t) : Bluetooth_available w = false := by
  unfold notBefore at hq
  unfold Bluetooth_available
  split at hq
  · next h => simp [h]
  · next t2 c rest h =>
    simp only [decide_eq_true_eq] at hq
    simp [h]
    omega

theorem elapsed_ms_delay (k : Nat) (w : World) (s : Nat) :
    elapsed_ms (millis (delay k w)) s = (elapsed_ms (millis w) s + k) % ULONG_RANGE := by
  unfold elapsed_ms millis delay ULONG_RANGE
  simp only
  omega

theorem BT_FlushPrint_loop_skip (wait start count : Nat) (last : Char)
    (hw : wait + 1 < ULONG_RANGE) :
    ∀ (k fuel : Nat) (w : World), notBefore (w.clock + k) w.rx = true →
      elapsed_ms (millis w) start + k ≤ wait + 1 →
      BT_FlushPrint_loop wait (fuel + k) start count last w =
        BT_FlushPrint_loop wait fuel start count last (delay k w) := by
  intro k
  induction k with
  | zero => intro fuel w _ _; rw [delay_zero]; rfl
  | succ k ih =>
    intro fuel w hq hd
    have ha : Bluetooth_available w = false := available_false_of_notBefore hq (by omega)
    rw [← Nat.add_assoc, BT_FlushPrint_loop_spin _ _ _ _ _ _ ha (by omega)]
    have hs := elapsed_ms_spin w start
    rw [Nat.mod_eq_of_lt (by omega)] at hs
    rw [ih fuel (spin w) (by simpa [Nat.add_assoc, Nat.add_comm 1 k] using hq) (by omega),
      delay_spin]

theorem BT_FlushPrint_quiet (fuel wait : Nat) (w : World) (hw : wait + 1 < ULONG_RANGE)
    (hq : notBefore (w.clock + wait + 2) w.rx = true) (hf : wait + 2 ≤ fuel) :
    BT_FlushPrint fuel wait w = some (delay (wait + 1) w) := by
  obtain ⟨f, rfl⟩ : ∃ f, fuel = (f + 1) + (wait + 1) := ⟨fuel - (wait + 2), by omega⟩
  unfold BT_FlushPrint
  rw [BT_FlushPrint_loop_skip wait _ _ _ hw (wait + 1) (f + 1) w
    (notBefore_mono (by omega) hq) (by rw [elapsed_ms_self]; omega)]
  have ha : Bluetooth_available (delay (wait + 1) w) = false :=
    available_false_of_notBefore (t := w.clock + wait + 2) (by simpa using hq)
      (by simp; omega)
  rw [BT_FlushPrint_loop_break _ _ _ _ _ _ ha (by
    rw [elapsed_ms_delay, elapsed_ms_self, Nat.zero_add, Nat.mod_eq_of_lt hw]; omega)]
  simp

theorem BT_Send_quiet (fuel : Nat) (msg : String) (w : World)
    (hq : notBefore (w.clock + 202) w.rx = true) (hf : 202 ≤ fuel) :
    BT_Send fuel msg w = some (sent msg w) := by
  unfold BT_Send sent
  rw [BT_FlushPrint_quiet fuel 200 w (by unfold ULONG_RANGE; omega) hq hf]

theorem BT_WaitUntil_loop_skip (str : String) (time start : Nat) (x : Char) (rest : List Char) :
    ∀ (k fuel : Nat) (w : World), notBefore (w.clock + k) w.rx = true →
      elapsed_ms (millis w) start + k ≤ time + 1 →
      elapsed_ms (millis w) start + k < ULONG_RANGE →
      BT_WaitUntil_loop str time start (fuel + k) (x :: rest) w =
        BT_WaitUntil_loop str time start fuel (x :: rest) (delay k w) := by
  intro k
  induction k with
  | zero => intro fuel w _ _ _; rw [delay_zero]; rfl
  | succ k ih =>
    intro fuel w hq hd hR
    have ha : Bluetooth_available w = false := available_false_of_notBefore hq (by omega)
    rw [← Nat.add_assoc, BT_WaitUntil_loop_spin _ _ _ _ _ _ _ (by omega) ha]
    have hs := elapsed_ms_spin w start
    rw [Nat.mod_eq_of_lt (by omega)] at hs
    rw [ih fuel (spin w) (by simpa [Nat.add_assoc, Nat.add_comm 1 k] using hq) (by omega)
      (by omega), delay_spin]

theorem BT_WaitUntil_silent (fuel : Nat) (str : String) (time : Nat) (w : World)
    (hne : str.toList ≠ []) (ht : time + 1 < ULONG_RANGE)
    (hq : notBefore (w.clock + time + 1) w.rx = true) (hf : time + 2 ≤ fuel) :
    BT_WaitUntil fuel str time w = some (BT_ERR_PRINTLN str
      (BT_ERR_PRINT "Error, timeout in bluetooth while waiting for " (delay (time + 1) w))) := by
  obtain ⟨f, rfl⟩ : ∃ f, fuel = (f + 1) + (time + 1) := ⟨fuel - (time + 2), by omega⟩
  obtain ⟨x, rest, hx⟩ := List.exists_cons_of_ne_nil hne
  unfold BT_WaitUntil
  rw [hx, BT_WaitUntil_loop_skip str time _ x rest (time + 1) (f + 1) w
    (by simpa [Nat.add_assoc] using hq) (by rw [elapsed_ms_self]; omega)
    (by rw [elapsed_ms_self]; omega)]
  rw [BT_WaitUntil_loop_timeout _ _ _ _ _ _ _ (by
    rw [elapsed_ms_delay, elapsed_ms_self, Nat.zero_add, Nat.mod_eq_of_lt ht]; omega)]

theorem BT_CmdResponse_silent (fuel : Nat) (cmd resp : String) (time : Nat) (w : World)
    (hne : resp.toList ≠ []) (ht : time + 1 < ULONG_RANGE)
    (hq : notBefore (w.clock + 202 + time) w.rx = true) (hf : time + 202 ≤ fuel) :
    BT_CmdResponse fuel cmd resp time w = some (unanswered cmd resp time w) := by
  unfold BT_CmdResponse unanswered
  rw [BT_Send_quiet fuel cmd w (notBefore_mono (by omega) hq) (by omega)]
  simp only
  rw [BT_WaitUntil_silent fuel resp time _ hne ht
    (by simpa [sent, Nat.add_assoc] using
      notBefore_mono (s := w.clock + 201 + time + 1) (by omega) hq)
    (by omega)]

theorem BT_ReceiveResponse_loop_skip (timeout start pos : Nat) (dest : CharStr)
    (hp : pos < CharStr.n) :
    ∀ (k fuel : Nat) (w : World), notBefore (w.clock + k) w.rx = true →
      elapsed_ms (millis w) start + k ≤ timeout + 1 →
      elapsed_ms (millis w) start + k < ULONG_RANGE →
      BT_ReceiveResponse_loop timeout start (fuel + k) pos dest w =
        BT_ReceiveResponse_loop timeout start fuel pos dest (delay k w) := by
  intro k
  induction k with
  | zero => intro fuel w _ _ _; rw [delay_zero]; rfl
  | succ k ih =>
    intro fuel w hq hd hR
    have ha : Bluetooth_available w = false := available_false_of_notBefore hq (by omega)
    rw [← Nat.add_assoc, BT_ReceiveResponse_loop_spin _ _ _ _ _ _ hp (by omega) ha]
    have hs := elapsed_ms_spin w start
    rw [Nat.mod_eq_of_lt (by omega)] at hs
    rw [ih fuel (spin w) (by simpa [Nat.add_assoc, Nat.add_comm 1 k] using hq) (by omega)
      (by omega), delay_spin]

/-! ## Reading a run of bytes into the buffer -/

theorem elapsed_ms_of_le (c0 : Nat) (w : World) (h1 : c0 ≤ w.clock)
    (h2 : w.clock - c0 < ULONG_RANGE) :
    elapsed_ms (millis w) (c0 % ULONG_RANGE) = w.clock - c0 := by
  rw [elapsed_ms_since c0 (w.clock - c0) w (by omega), Nat.mod_eq_of_lt h2]

theorem Bluetooth_read_cons {w : World} {t : Nat} {c : Char} {rest : List (Nat × Char)}
    (h : w.rx = (t, c) :: rest) : Bluetooth_read w = (c, { w with rx := rest }) := by
  unfold Bluetooth_read
  rw [h]

theorem Bluetooth_available_cons {w : World} {t : Nat} {c : Char} {rest : List (Nat × Char)}
    (h : w.rx = (t, c) :: rest) : Bluetooth_available w = decide (t ≤ w.clock) := by
  unfold Bluetooth_available
  rw [h]

theorem arrive_nil (c : Nat) : arrive c [] = c := rfl

theorem arrive_cons (c : Nat) (p : Nat × Char) (pre : List (Nat × Char)) :
    arrive c (p :: pre) = arrive (max c p.1) pre := rfl

theorem arrive_append (c : Nat) (pre post : List (Nat × Char)) :
    arrive c (pre ++ post) = arrive (arrive c pre) post := by
  unfold arrive
  rw [List.foldl_append]

theorem le_arrive (c : Nat) (pre : List (Nat × Char)) : c ≤ arrive c pre := by
  induction pre generalizing c with
  | nil => exact Nat.le_refl c
  | cons p pre ih => rw [arrive_cons]; exact Nat.le_trans (Nat.le_max_left _ _) (ih _)

theorem arrive_le (c d : Nat) (pre : List (Nat × Char)) (hc : c ≤ d)
    (hp : ∀ p ∈ pre, p.1 ≤ d) : arrive c pre ≤ d := by
  induction pre generalizing c with
  | nil => exact hc
  | cons p pre ih =>
    rw [arrive_cons]
    exact ih _ (Nat.max_le.mpr ⟨hc, hp p (List.mem_cons_self _ _)⟩)
      (fun q hq => hp q (List.mem_cons_of_mem _ hq))

theorem isTerminator_false {c : Char} (h : isTerminator c = false) :
    ¬ (c = '\n' ∨ c = '\r') := by
  simpa [isTerminator] using h

theorem isTerminator_true {c : Char} (h : isTerminator c = true) : c = '\n' ∨ c = '\r' := by
  simpa [isTerminator] using h

theorem store_eq (cs : List Char) : ∀ (data : List Char) (pos : Nat),
    pos + cs.length ≤ data.length →
    store data pos cs = data.take pos ++ cs ++ data.drop (pos + cs.length) := by
  induction cs with
  | nil => intro data pos _; simp [store]
  | cons c cs ih =>
    intro data pos h
    simp only [List.length_cons] at h
    rw [store, ih _ _ (by rw [List.length_set]; omega)]
    rw [List.set_eq_take_append_cons_drop, if_pos (by omega)]
    have h1 : (List.take pos data ++ c :: List.drop (pos + 1) data).take (pos + 1) =
        List.take pos data ++ [c] := by
      rw [List.take_append_eq_append_take]
      simp [List.length_take, Nat.min_eq_left (show pos ≤ data.length by omega)]
    have h2 : (List.take pos data ++ c :: List.drop (pos + 1) data).drop (pos + 1 + cs.length) =
        List.drop (pos + (cs.length + 1)) data := by
      rw [List.drop_append_eq_append_drop]
      simp [List.length_take, Nat.min_eq_left (show pos ≤ data.length by omega)]
      rw [List.drop_eq_nil_of_le (by simp; omega)]
      have : pos + 1 + cs.length - pos = cs.length + 1 := by omega
      rw [this, List.nil_append, List.drop_succ_cons, List.drop_drop]
      congr 1
      omega
    rw [h1, h2]
    simp [List.append_assoc]

theorem store_zero (cs data : List Char) (h : cs.length ≤ data.length) :
    store data 0 cs = cs ++ data.drop cs.length := by
  rw [store_eq cs data 0 (by omega)]
  simp

theorem store_zero_set (cs data : List Char) (h : cs.length < data.length) :
    (store data 0 cs).set cs.length '\x00' = cs ++ '\x00' :: data.drop (cs.length + 1) := by
  rw [store_zero cs data (by omega), List.set_append_right _ _ (Nat.le_refl _), Nat.sub_self]
  cases hd : data.drop cs.length with
  | nil =>
    have := List.drop_eq_nil_iff.mp hd
    omega
  | cons x xs =>
    have : data.drop (cs.length + 1) = xs := by
      rw [← List.drop_drop, hd]
      rfl
    rw [this]
    rfl

theorem BT_ReceiveResponse_loop_read (timeout c0 : Nat) (ht : timeout < ULONG_RANGE) :
    ∀ (pre rest : List (Nat × Char)) (fuel pos : Nat) (dest : CharStr) (w : World),
      w.rx = pre ++ rest → c0 ≤ w.clock → w.clock ≤ c0 + timeout →
      pos + pre.length ≤ CharStr.n →
      (∀ p ∈ pre, p.1 ≤ c0 + timeout ∧ isTerminator p.2 = false) →
      BT_ReceiveResponse_loop timeout (c0 % ULONG_RANGE)
          (fuel + (pre.length + (arrive w.clock pre - w.clock))) pos dest w =
        BT_ReceiveResponse_loop timeout (c0 % ULONG_RANGE) fuel (pos + pre.length)
          ⟨store dest.data pos (pre.map Prod.snd)⟩
          { w with rx := rest, clock := arrive w.clock pre } := by
  intro pre
  induction pre with
  | nil =>
    intro rest fuel pos dest w hrx _ _ _ _
    cases w
    simp only [List.nil_append] at hrx
    subst hrx
    simp [arrive, store]
  | cons p pre ih =>
    intro rest fuel pos dest w hrx h0 h1 hpos hpre
    obtain ⟨t, c⟩ := p
    obtain ⟨hpt, hpc⟩ := hpre (t, c) (List.mem_cons_self _ _)
    simp only [List.length_cons] at hpos
    have hp : pos < CharStr.n := by omega
    have hel := elapsed_ms_of_le c0 w h0 (by omega)
    -- wait for the byte
    have hskip : ∀ F, BT_ReceiveResponse_loop timeout (c0 % ULONG_RANGE) (F + (t - w.clock))
        pos dest w = BT_ReceiveResponse_loop timeout (c0 % ULONG_RANGE) F pos dest
          (delay (t - w.clock) w) := by
      intro F
      by_cases hle : t ≤ w.clock
      · rw [Nat.sub_eq_zero_of_le hle, delay_zero]; rfl
      · exact BT_ReceiveResponse_loop_skip timeout _ pos dest hp (t - w.clock) F w
          (by rw [hrx]; simp [notBefore]; omega) (by omega) (by omega)
    have hw1c : (delay (t - w.clock) w).clock = max w.clock t := by
      simp only [delay_clock]; omega
    have hw1rx : (delay (t - w.clock) w).rx = (t, c) :: (pre ++ rest) := by
      rw [delay_rx, hrx]; rfl
    have hel1 := elapsed_ms_of_le c0 (delay (t - w.clock) w) (by rw [hw1c]; omega)
      (by rw [hw1c]; omega)
    have hav : Bluetooth_available (delay (t - w.clock) w) = true := by
      rw [Bluetooth_available_cons hw1rx, hw1c]; simp
    have hrd := Bluetooth_read_cons hw1rx
    have hstep : ∀ F, BT_ReceiveResponse_loop timeout (c0 % ULONG_RANGE) (F + 1) pos dest
        (delay (t - w.clock) w) = BT_ReceiveResponse_loop timeout (c0 % ULONG_RANGE) F (pos + 1)
          ⟨dest.data.set pos c⟩ { delay (t - w.clock) w with rx := pre ++ rest } := by
      intro F
      rw [BT_ReceiveResponse_loop_store _ _ _ _ _ _ hp (by rw [hel1, hw1c]; omega) hav
        (by rw [hrd]; exact isTerminator_false hpc), hrd]
    have hge := le_arrive (max w.clock t) pre
    have hfuel : fuel + ((pre.length + 1) + (arrive w.clock ((t, c) :: pre) - w.clock)) =
        ((fuel + (pre.length + (arrive (max w.clock t) pre - max w.clock t))) + 1) +
          (t - w.clock) := by
      rw [arrive_cons]
      simp only
      omega
    simp only [List.length_cons]
    rw [hfuel, hskip, hstep]
    have := ih rest fuel (pos + 1) ⟨dest.data.set pos c⟩
      { delay (t - w.clock) w with rx := pre ++ rest } rfl
      (by simp only [delay_clock]; omega) (by simp only [delay_clock]; omega) (by omega)
      (fun q hq => hpre q (List.mem_cons_of_mem _ hq))
    have hc2 : ({ delay (t - w.clock) w with rx := pre ++ rest } : World).clock =
        max w.clock t := hw1c
    rw [hc2] at this
    rw [this, arrive_cons]
    simp only [List.map_cons, store]
    congr 1
    omega

theorem BT_ReceiveResponse_loop_await (timeout c0 pos : Nat) (dest : CharStr) (w : World)
    (t : Nat) (c : Char) (rest : List (Nat × Char)) (fuel : Nat)
    (hrx : w.rx = (t, c) :: rest) (hp : pos < CharStr.n) (ht : timeout < ULONG_RANGE)
    (h0 : c0 ≤ w.clock) (h1 : w.clock ≤ c0 + timeout) (htt : t ≤ c0 + timeout) :
    BT_ReceiveResponse_loop timeout (c0 % ULONG_RANGE) (fuel + (t - w.clock)) pos dest w =
      BT_ReceiveResponse_loop timeout (c0 % ULONG_RANGE) fuel pos dest
        { w with clock := max w.clock t } := by
  have hel := elapsed_ms_of_le c0 w h0 (by omega)
  have hd : delay (t - w.clock) w = { w with clock := max w.clock t } := by
    cases w
    simp only [delay, World.mk.injEq, and_true, true_and]
    omega
  rw [← hd]
  by_cases hle : t ≤ w.clock
  · rw [Nat.sub_eq_zero_of_le hle, delay_zero]; rfl
  · exact BT_ReceiveResponse_loop_skip timeout _ pos dest hp (t - w.clock) fuel w
      (by rw [hrx]; simp [notBefore]; omega) (by omega) (by omega)

theorem BT_ReceiveResponse_line (fuel timeout : Nat) (dest : CharStr) (w : World)
    (pre rest : List (Nat × Char)) (t : Nat) (term : Char)
    (ht : timeout < ULONG_RANGE) (hrx : w.rx = pre ++ (t, term) :: rest)
    (hlen : pre.length < CharStr.n)
    (hpre : ∀ p ∈ pre, p.1 ≤ w.clock + timeout ∧ isTerminator p.2 = false)
    (hterm : isTerminator term = true) (htt : t ≤ w.clock + timeout)
    (hf : CharStr.n + timeout + 1 ≤ fuel) :
    BT_ReceiveResponse fuel dest timeout w =
      some (true, ⟨(store dest.data 0 (pre.map Prod.snd)).set pre.length '\x00'⟩,
        BT_DBG_PRINTLN
          (String.mk (cstr ((store dest.data 0 (pre.map Prod.snd)).set pre.length '\x00')))
          { w with rx := rest, clock := arrive w.clock (pre ++ [(t, term)]) }) := by
  have hc1 := le_arrive w.clock pre
  have hc2 := arrive_le w.clock (w.clock + timeout) pre (by omega) (fun p hp => (hpre p hp).1)
  obtain ⟨f, rfl⟩ : ∃ f, fuel = ((f + 1) + (t - arrive w.clock pre)) +
      (pre.length + (arrive w.clock pre - w.clock)) :=
    ⟨fuel - (1 + (t - arrive w.clock pre) + (pre.length + (arrive w.clock pre - w.clock))), by
      unfold CharStr.n at hf hlen; omega⟩
  unfold BT_ReceiveResponse millis
  rw [BT_ReceiveResponse_loop_read timeout w.clock ht pre ((t, term) :: rest) _ 0 dest w hrx
    (Nat.le_refl _) (by omega) (by omega) hpre]
  rw [BT_ReceiveResponse_loop_await timeout w.clock (0 + pre.length) _
    { w with rx := (t, term) :: rest, clock := arrive w.clock pre } t term rest (f + 1) rfl
    (by omega) ht hc1 hc2 htt]
  have hrx2 : ({ w with rx := (t, term) :: rest, clock := max (arrive w.clock pre) t } :
      World).rx = (t, term) :: rest := rfl
  rw [BT_ReceiveResponse_loop_end _ _ _ _ _ _ (by omega)
    (by rw [elapsed_ms_of_le w.clock _ (by simp only; omega) (by simp only; omega)]
        simp only; omega)
    (by rw [Bluetooth_available_cons hrx2]; simp)
    (by rw [Bluetooth_read_cons hrx2]; exact isTerminator_true hterm)]
  rw [Bluetooth_read_cons hrx2, arrive_append, arrive_cons, arrive_nil]
  simp

theorem BT_ReceiveResponse_at_capacity (fuel timeout : Nat) (dest : CharStr) (w : World)
    (pre rest : List (Nat × Char)) (ht : timeout < ULONG_RANGE) (hrx : w.rx = pre ++ rest)
    (hlen : pre.length = CharStr.n)
    (hpre : ∀ p ∈ pre, p.1 ≤ w.clock + timeout ∧ isTerminator p.2 = false)
    (hf : CharStr.n + timeout + 1 ≤ fuel) :
    BT_ReceiveResponse fuel dest timeout w =
      some (false, ⟨store dest.data 0 (pre.map Prod.snd)⟩,
        BT_ERR_PRINT ": Error - overflow" (BT_ERR_PRINT "BT_ReceiveResponse"
          { w with rx := rest, clock := arrive w.clock pre })) := by
  have hc1 := le_arrive w.clock pre
  have hc2 := arrive_le w.clock (w.clock + timeout) pre (by omega) (fun p hp => (hpre p hp).1)
  obtain ⟨f, rfl⟩ : ∃ f, fuel = (f + 1) + (pre.length + (arrive w.clock pre - w.clock)) :=
    ⟨fuel - (1 + (pre.length + (arrive w.clock pre - w.clock))), by
      unfold CharStr.n at hf hlen; omega⟩
  unfold BT_ReceiveResponse millis
  rw [BT_ReceiveResponse_loop_read timeout w.clock ht pre rest _ 0 dest w hrx
    (Nat.le_refl _) (by omega) (by omega) hpre]
  rw [BT_ReceiveResponse_loop_overflow _ _ _ _ _ _ (by omega)]

theorem BT_ReceiveResponse_deadline (fuel timeout : Nat) (dest : CharStr) (w : World)
    (pre rest : List (Nat × Char)) (ht : timeout + 1 < ULONG_RANGE) (hrx : w.rx = pre ++ rest)
    (hlen : pre.length < CharStr.n)
    (hpre : ∀ p ∈ pre, p.1 ≤ w.clock + timeout ∧ isTerminator p.2 = false)
    (hq : notBefore (w.clock + timeout + 1) rest = true)
    (hf : CharStr.n + timeout + 2 ≤ fuel) :
    BT_ReceiveResponse fuel dest timeout w =
      some (false, ⟨store dest.data 0 (pre.map Prod.snd)⟩,
        BT_ERR_PRINTLN ": Error - timeout waiting for response"
          (BT_ERR_PRINT "BT_ReceiveResponse"
            { w with rx := rest, clock := w.clock + timeout + 1 })) := by
  have hc1 := le_arrive w.clock pre
  have hc2 := arrive_le w.clock (w.clock + timeout) pre (by omega) (fun p hp => (hpre p hp).1)
  obtain ⟨f, rfl⟩ : ∃ f, fuel = ((f + 1) + (w.clock + timeout + 1 - arrive w.clock pre)) +
      (pre.length + (arrive w.clock pre - w.clock)) :=
    ⟨fuel - (1 + (w.clock + timeout + 1 - arrive w.clock pre) +
      (pre.length + (arrive w.clock pre - w.clock))), by
      unfold CharStr.n at hf hlen; omega⟩
  unfold BT_ReceiveResponse millis
  rw [BT_ReceiveResponse_loop_read timeout w.clock (by omega) pre rest _ 0 dest w hrx
    (Nat.le_refl _) (by omega) (by omega) hpre]
  have hel := elapsed_ms_of_le w.clock
    ({ w with rx := rest, clock := arrive w.clock pre } : World) hc1
    (by simp only; omega)
  rw [BT_ReceiveResponse_loop_skip timeout _ (0 + pre.length) _ (by omega)
    (w.clock + timeout + 1 - arrive w.clock pre) (f + 1)
    { w with rx := rest, clock := arrive w.clock pre }
    (by
      have : arrive w.clock pre + (w.clock + timeout + 1 - arrive w.clock pre) =
          w.clock + timeout + 1 := by omega
      simp only [this]
      exact hq)
    (by rw [hel]; simp only; omega) (by rw [hel]; simp only; omega)]
  rw [BT_ReceiveResponse_loop_timeout _ _ _ _ _ _ (by omega) (by
    rw [elapsed_ms_delay, hel, Nat.mod_eq_of_lt (by simp only; omega)]
    simp only; omega)]
  have hd : delay (w.clock + timeout + 1 - arrive w.clock pre)
      ({ w with rx := rest, clock := arrive w.clock pre } : World) =
      { w with rx := rest, clock := w.clock + timeout + 1 } := by
    simp only [delay, World.mk.injEq, and_true, true_and]
    omega
  rw [hd]

/-! ## Bytes delivered by a deadline -/

theorem delivered_append_pending (deadline : Nat) (rx : List (Nat × Char)) :
    delivered deadline rx ++ pending deadline rx = rx :=
  List.takeWhile_append_dropWhile _ rx

theorem delivered_le {deadline : Nat} {rx : List (Nat × Char)} {p : Nat × Char}
    (h : p ∈ delivered deadline rx) : p.1 ≤ deadline := by
  have := List.mem_takeWhile_imp h
  simpa using this

theorem notBefore_pending (deadline : Nat) (rx : List (Nat × Char)) :
    notBefore (deadline + 1) (pending deadline rx) = true := by
  induction rx with
  | nil => rfl
  | cons p rx ih =>
    unfold pending at ih ⊢
    by_cases h : p.1 ≤ deadline
    · rw [List.dropWhile_cons_of_pos (by simpa using h)]
      exact ih
    · rw [List.dropWhile_cons_of_neg (by simpa using h)]
      obtain ⟨t, c⟩ := p
      simp only [notBefore, decide_eq_true_eq]
      simp only at h
      omega

theorem cstr_append_zero (cs tl : List Char) : cstr (cs ++ '\x00' :: tl) = cstr cs := by
  induction cs with
  | nil => rfl
  | cons c cs ih =>
    by_cases h : c = '\x00'
    · subst h; rfl
    · rw [List.cons_append, cstr_cons _ _ h, cstr_cons _ _ h, ih]

theorem cstr_eq_self (cs : List Char) (h : ∀ c ∈ cs, c ≠ '\x00') : cstr cs = cs := by
  unfold cstr
  rw [List.takeWhile_eq_self_iff]
  intro c hc
  simpa using h c hc

/-! ## The token waiter -/

theorem scan_nil (bs : List Char) : scan [] bs = some 0 := by
  cases bs <;> rfl

theorem sublist_cons_of_ne {x b : Char} {r bs : List Char} (hne : b ≠ x) :
    List.Sublist (x :: r) (b :: bs) ↔ List.Sublist (x :: r) bs := by
  constructor
  · intro h
    cases h with
    | cons _ h1 => exact h1
    | cons₂ _ h1 => exact absurd rfl hne
  · intro h
    exact List.Sublist.cons _ h

theorem sublist_take_iff_scan (bs : List Char) :
    ∀ (it : List Char) (m : Nat),
      List.Sublist it (bs.take m) ↔ ∃ n, scan it bs = some n ∧ n ≤ m := by
  induction bs with
  | nil =>
    intro it m
    cases it with
    | nil => simp [scan]
    | cons x r => simp [scan]
  | cons b bs ih =>
    intro it m
    cases it with
    | nil => simp [scan]
    | cons x r =>
      cases m with
      | zero =>
        simp only [List.take_zero, List.sublist_nil, scan]
        constructor
        · intro h; exact absurd h (by simp)
        · rintro ⟨n, hn, hle⟩
          split at hn <;> simp at hn <;> omega
      | succ m =>
        rw [List.take_succ_cons]
        by_cases hb : b = x
        · subst hb
          rw [List.cons_sublist_cons, ih r m]
          simp only [scan, if_true, Option.map_eq_some']
          constructor
          · rintro ⟨n, hn, hle⟩
            exact ⟨n + 1, ⟨n, hn, rfl⟩, by omega⟩
          · rintro ⟨n, ⟨k, hk, rfl⟩, hle⟩
            exact ⟨k, hk, by omega⟩
        · rw [sublist_cons_of_ne hb, ih (x :: r) m]
          simp only [scan, if_neg hb, Option.map_eq_some']
          constructor
          · rintro ⟨n, hn, hle⟩
            exact ⟨n + 1, ⟨n, hn, rfl⟩, by omega⟩
          · rintro ⟨n, ⟨k, hk, rfl⟩, hle⟩
            exact ⟨k, hk, by omega⟩

theorem scan_le_length (bs : List Char) :
    ∀ (it : List Char) (n : Nat), scan it bs = some n → n ≤ bs.length := by
  induction bs with
  | nil =>
    intro it n h
    cases it with
    | nil => simp [scan] at h; omega
    | cons x r => simp [scan] at h
  | cons b bs ih =>
    intro it n h
    cases it with
    | nil => simp [scan] at h; omega
    | cons x r =>
      simp only [scan] at h
      split at h
      · obtain ⟨k, hk, rfl⟩ := Option.map_eq_some'.mp h
        have := ih _ _ hk
        simp only [List.length_cons]; omega
      · obtain ⟨k, hk, rfl⟩ := Option.map_eq_some'.mp h
        have := ih _ _ hk
        simp only [List.length_cons]; omega

theorem sublist_iff_scan (it bs : List Char) :
    List.Sublist it bs ↔ (scan it bs).isSome = true := by
  have h := sublist_take_iff_scan bs it bs.length
  rw [List.take_length] at h
  rw [h, Option.isSome_iff_exists]
  constructor
  · rintro ⟨n, hn, _⟩; exact ⟨n, hn⟩
  · rintro ⟨n, hn⟩; exact ⟨n, hn, scan_le_length bs it n hn⟩

theorem delivered_nil (deadline : Nat) : delivered deadline [] = [] := rfl

theorem delivered_cons_late {deadline t : Nat} (c : Char) (rx : List (Nat × Char))
    (h : deadline < t) : delivered deadline ((t, c) :: rx) = [] := by
  unfold delivered
  rw [List.takeWhile_cons_of_neg]
  simp only [decide_eq_true_eq]; omega

theorem delivered_cons_early {deadline t : Nat} (c : Char) (rx : List (Nat × Char))
    (h : t ≤ deadline) : delivered deadline ((t, c) :: rx) = (t, c) :: delivered deadline rx := by
  unfold delivered
  rw [List.takeWhile_cons_of_pos]
  simp only [decide_eq_true_eq]; exact h

theorem BT_WaitUntil_loop_await (str : String) (time c0 : Nat) (x : Char) (r : List Char)
    (w : World) (t : Nat) (c : Char) (rest : List (Nat × Char)) (fuel : Nat)
    (hrx : w.rx = (t, c) :: rest) (ht : time < ULONG_RANGE)
    (h0 : c0 ≤ w.clock) (h1 : w.clock ≤ c0 + time) (htt : t ≤ c0 + time) :
    BT_WaitUntil_loop str time (c0 % ULONG_RANGE) (fuel + (t - w.clock)) (x :: r) w =
      BT_WaitUntil_loop str time (c0 % ULONG_RANGE) fuel (x :: r)
        { w with clock := max w.clock t } := by
  have hel := elapsed_ms_of_le c0 w h0 (by omega)
  have hd : delay (t - w.clock) w = { w with clock := max w.clock t } := by
    cases w
    simp only [delay, World.mk.injEq, and_true, true_and]
    omega
  rw [← hd]
  by_cases hle : t ≤ w.clock
  · rw [Nat.sub_eq_zero_of_le hle, delay_zero]; rfl
  · exact BT_WaitUntil_loop_skip str time _ x r (t - w.clock) fuel w
      (by rw [hrx]; simp [notBefore]; omega) (by omega) (by omega)

theorem BT_WaitUntil_loop_expire (str : String) (time c0 : Nat) (x : Char) (r : List Char)
    (w : World) (fuel : Nat) (ht : time + 1 < ULONG_RANGE)
    (h0 : c0 ≤ w.clock) (h1 : w.clock ≤ c0 + time)
    (hq : notBefore (c0 + time + 1) w.rx = true) :
    BT_WaitUntil_loop str time (c0 % ULONG_RANGE) ((fuel + 1) + (c0 + time + 1 - w.clock))
        (x :: r) w =
      some (false, BT_ERR_PRINTLN str
        (BT_ERR_PRINT "Error, timeout in bluetooth while waiting for "
          (delay (c0 + time + 1 - w.clock) w))) := by
  have hel := elapsed_ms_of_le c0 w h0 (by omega)
  rw [BT_WaitUntil_loop_skip str time _ x r (c0 + time + 1 - w.clock) (fuel + 1) w
    (by
      have : w.clock + (c0 + time + 1 - w.clock) = c0 + time + 1 := by omega
      rw [this]; exact hq)
    (by omega) (by omega)]
  rw [BT_WaitUntil_loop_timeout _ _ _ _ _ _ _ (by
    rw [elapsed_ms_delay, hel, Nat.mod_eq_of_lt (by omega)]; omega)]

theorem BT_WaitUntil_loop_scan (str : String) (time c0 : Nat) (ht : time + 1 < ULONG_RANGE) :
    ∀ (rx : List (Nat × Char)) (it : List Char) (w : World),
      w.rx = rx → c0 ≤ w.clock → w.clock ≤ c0 + time →
      ∃ N w1, (∀ f, BT_WaitUntil_loop str time (c0 % ULONG_RANGE) (f + N) it w =
          some ((scan it ((delivered (c0 + time) rx).map Prod.snd)).isSome, w1)) ∧
        ∀ n, scan it ((delivered (c0 + time) rx).map Prod.snd) = some n → w1.rx = rx.drop n := by
  intro rx
  induction rx with
  | nil =>
    intro it w hrx h0 h1
    cases it with
    | nil =>
      refine ⟨0, w, fun f => by rw [BT_WaitUntil_loop_done]; simp [scan_nil], ?_⟩
      intro n hn
      simp [scan_nil] at hn
      subst hn
      simpa using hrx
    | cons x r =>
      refine ⟨1 + (c0 + time + 1 - w.clock), (BT_ERR_PRINTLN str
        (BT_ERR_PRINT "Error, timeout in bluetooth while waiting for "
          (delay (c0 + time + 1 - w.clock) w))), fun f => ?_, ?_⟩
      · rw [← Nat.add_assoc, BT_WaitUntil_loop_expire str time c0 x r w f ht h0 h1
          (by rw [hrx]; rfl)]
        simp [delivered_nil, scan]
      · intro n hn
        simp [delivered_nil, scan] at hn
  | cons p rx ih =>
    intro it w hrx h0 h1
    obtain ⟨t, c⟩ := p
    cases it with
    | nil =>
      refine ⟨0, w, fun f => by rw [BT_WaitUntil_loop_done]; simp [scan_nil], ?_⟩
      intro n hn
      simp [scan_nil] at hn
      subst hn
      simpa using hrx
    | cons x r =>
      by_cases hlate : c0 + time < t
      · refine ⟨1 + (c0 + time + 1 - w.clock), (BT_ERR_PRINTLN str
        (BT_ERR_PRINT "Error, timeout in bluetooth while waiting for "
          (delay (c0 + time + 1 - w.clock) w))), fun f => ?_, ?_⟩
        · rw [← Nat.add_assoc, BT_WaitUntil_loop_expire str time c0 x r w f ht h0 h1
            (by rw [hrx]; simp [notBefore]; omega)]
          simp [delivered_cons_late c rx hlate, scan]
        · intro n hn
          simp [delivered_cons_late c rx hlate, scan] at hn
      · have htt : t ≤ c0 + time := Nat.not_lt.mp hlate
        have hrx2 : ({ w with clock := max w.clock t } : World).rx = (t, c) :: rx := hrx
        have hav : Bluetooth_available ({ w with clock := max w.clock t } : World) = true := by
          rw [Bluetooth_available_cons hrx2]; simp
        have hrd := Bluetooth_read_cons hrx2
        have hel := elapsed_ms_of_le c0 ({ w with clock := max w.clock t } : World)
          (by simp only; omega) (by simp only; omega)
        have hdl : elapsed_ms (millis ({ w with clock := max w.clock t } : World))
            (c0 % ULONG_RANGE) ≤ time := by rw [hel]; simp only; omega
        rw [delivered_cons_early c rx htt]
        simp only [List.map_cons, scan]
        by_cases hc : c = x
        · obtain ⟨N, w1, hN, hdrop⟩ := ih r
            ({ w with clock := max w.clock t, rx := rx } : World) rfl
            (by simp only; omega) (by simp only; omega)
          refine ⟨(N + 1) + (t - w.clock), w1, fun f => ?_, ?_⟩
          · rw [← Nat.add_assoc, ← Nat.add_assoc,
              BT_WaitUntil_loop_await str time c0 x r w t c rx _ hrx (by omega) h0 h1 htt,
              BT_WaitUntil_loop_hit _ _ _ _ _ _ _ hdl hav (by rw [hrd]; exact hc), hrd, hN f]
            simp [hc]
          · intro n hn
            rw [if_pos hc] at hn
            obtain ⟨k, hk, rfl⟩ := Option.map_eq_some'.mp hn
            rw [hdrop k hk]
            rfl
        · obtain ⟨N, w1, hN, hdrop⟩ := ih (x :: r)
            ({ w with clock := max w.clock t, rx := rx } : World) rfl
            (by simp only; omega) (by simp only; omega)
          refine ⟨(N + 1) + (t - w.clock), w1, fun f => ?_, ?_⟩
          · rw [← Nat.add_assoc, ← Nat.add_assoc,
              BT_WaitUntil_loop_await str time c0 x r w t c rx _ hrx (by omega) h0 h1 htt,
              BT_WaitUntil_loop_miss _ _ _ _ _ _ _ hdl hav (by rw [hrd]; exact hc), hrd, hN f]
            simp [hc]
          · intro n hn
            rw [if_neg hc] at hn
            obtain ⟨k, hk, rfl⟩ := Option.map_eq_some'.mp hn
            rw [hdrop k hk]
            rfl

/-! ## Claims about `BT_ReceiveResponse` -/

/-- C5: a line of fewer than 50 bytes without line feed or carriage return,
followed by one of the two, all delivered within the timeout, makes
`BT_ReceiveResponse` return true with exactly those bytes and a zero after them in
the buffer; the terminator is consumed and not stored, and what follows it stays
unread.  As a C string the buffer then reads as the line, when the line has no
zero byte of its own. -/
theorem BT_ReceiveResponse_success (fuel timeout : Nat) (dest : CharStr) (w : World)
    (line : List (Nat × Char)) (t : Nat) (term : Char) (rest : List (Nat × Char))
    (hdest : dest.data.length = CharStr.n) (ht : timeout < ULONG_RANGE)
    (hrx : w.rx = line ++ (t, term) :: rest) (hlen : line.length < CharStr.n)
    (hline : ∀ p ∈ line, p.2 ≠ '\n' ∧ p.2 ≠ '\r') (hterm : term = '\n' ∨ term = '\r')
    (htime : ∀ p ∈ line ++ [(t, term)], p.1 ≤ w.clock + timeout)
    (hf : CharStr.n + timeout + 1 ≤ fuel) :
    ∃ buf w1, BT_ReceiveResponse fuel dest timeout w = some (true, buf, w1) ∧
      buf.data = line.map Prod.snd ++ '\x00' :: dest.data.drop (line.length + 1) ∧
      w1.rx = rest ∧
      ((∀ p ∈ line, p.2 ≠ '\x00') → cstr buf.data = line.map Prod.snd) := by
  have h := BT_ReceiveResponse_line fuel timeout dest w line rest t term ht hrx hlen
    (fun p hp => ⟨htime p (List.mem_append_left _ hp), by
      have := hline p hp
      simp [isTerminator, this.1, this.2]⟩)
    (by rcases hterm with h | h <;> simp [isTerminator, h])
    (htime (t, term) (List.mem_append_right _ (List.mem_singleton_self _))) hf
  have hs := store_zero_set (line.map Prod.snd) dest.data (by rw [List.length_map, hdest]; exact hlen)
  rw [List.length_map] at hs
  refine ⟨_, _, h, hs, by simp, ?_⟩
  intro hz
  simp only
  rw [hs, cstr_append_zero, cstr_eq_self]
  intro c hc
  obtain ⟨p, hp, rfl⟩ := List.mem_map.mp hc
  exact hz p hp

/-- C6: when 50 bytes without line feed or carriage return are delivered within
the timeout, `BT_ReceiveResponse` returns false and prints the overflow message (and
nothing else) on the error channel, after reading exactly those 50 bytes: whatever
follows them in the stream stays unread. -/
theorem BT_ReceiveResponse_overflows (fuel timeout : Nat) (dest : CharStr) (w : World)
    (first rest : List (Nat × Char)) (ht : timeout < ULONG_RANGE)
    (hrx : w.rx = first ++ rest) (hlen : first.length = 50)
    (hfirst : ∀ p ∈ first, p.2 ≠ '\n' ∧ p.2 ≠ '\r')
    (htime : ∀ p ∈ first, p.1 ≤ w.clock + timeout)
    (hf : CharStr.n + timeout + 1 ≤ fuel) :
    ∃ buf w1, BT_ReceiveResponse fuel dest timeout w = some (false, buf, w1) ∧
      w1.rx = rest ∧
      w1.serial = w.serial ++
        [(Chan.err, "BT_ReceiveResponse"), (Chan.err, ": Error - overflow")] := by
  have h := BT_ReceiveResponse_at_capacity fuel timeout dest w first rest ht hrx hlen
    (fun p hp => ⟨htime p hp, by
      have := hfirst p hp
      simp [isTerminator, this.1, this.2]⟩) hf
  exact ⟨_, _, h, by simp, by simp [BT_ERR_PRINT]⟩

/-- Witness of C5: the line `OK` ended by a carriage return and a line feed,
read with the default timeout into a fresh buffer. -/
theorem BT_ReceiveResponse_success_witness :
    ∃ buf w1, BT_ReceiveResponse 5000 CharStr.new 4000
        ⟨10, [(12, 'O'), (15, 'K')] ++ (15, '\r') :: [(15, '\n')], [], [], false⟩ =
          some (true, buf, w1) ∧
      buf.data = ['O', 'K'] ++ '\x00' :: List.replicate 47 '\x00' ∧
      w1.rx = [(15, '\n')] ∧
      ((∀ p ∈ [((12 : Nat), 'O'), (15, 'K')], p.2 ≠ '\x00') → cstr buf.data = ['O', 'K']) :=
  BT_ReceiveResponse_success 5000 4000 CharStr.new
    ⟨10, [(12, 'O'), (15, 'K')] ++ (15, '\r') :: [(15, '\n')], [], [], false⟩
    [(12, 'O'), (15, 'K')] 15 '\r' [(15, '\n')] (by decide) (by decide) rfl (by decide)
    (by decide) (by decide) (by decide) (by decide)

/-- Witness of C6: fifty bytes `a` that are all there when the read starts,
followed by a line feed that stays unread. -/
theorem BT_ReceiveResponse_overflows_witness :
    ∃ buf w1, BT_ReceiveResponse 5000 CharStr.new 4000
        ⟨0, List.replicate 50 (0, 'a') ++ [(0, '\n')], [], [], false⟩ = some (false, buf, w1) ∧
      w1.rx = [(0, '\n')] ∧
      w1.serial = [] ++ [(Chan.err, "BT_ReceiveResponse"), (Chan.err, ": Error - overflow")] :=
  BT_ReceiveResponse_overflows 5000 4000 CharStr.new
    ⟨0, List.replicate 50 (0, 'a') ++ [(0, '\n')], [], [], false⟩
    (List.replicate 50 (0, 'a')) [(0, '\n')] (by decide) rfl (by decide) (by decide) (by decide)
    (by decide)

/-- Counterexample to C7 as stated: fifty bytes `a` and no terminator at all.
No line feed or carriage return arrives within the timeout, yet the call fails
with the overflow message, and the timeout message is not printed. -/
theorem BT_ReceiveResponse_timeout_counterexample :
    (∀ p ∈ List.replicate 50 ((0 : Nat), 'a'), p.2 ≠ '\n' ∧ p.2 ≠ '\r') ∧
    ∃ buf w1, BT_ReceiveResponse 5000 CharStr.new 4000
        ⟨0, List.replicate 50 (0, 'a'), [], [], false⟩ = some (false, buf, w1) ∧
      w1.serial = [(Chan.err, "BT_ReceiveResponse"), (Chan.err, ": Error - overflow")] ∧
      (Chan.err, ": Error - timeout waiting for response\r\n") ∉ w1.serial := by
  refine ⟨by decide, _, _, BT_ReceiveResponse_at_capacity 5000 4000 CharStr.new
    ⟨0, List.replicate 50 (0, 'a'), [], [], false⟩ (List.replicate 50 (0, 'a')) []
    (by decide) (by decide) (by decide) (by decide) (by decide), ?_, ?_⟩
  · rfl
  · decide

/-- C7, amended: when the bytes delivered within the timeout are fewer than 50
and hold no line feed or carriage return, `BT_ReceiveResponse` (with a timeout below
the largest `unsigned long`) returns false and prints the timeout message, and
nothing else, on the error channel. -/
theorem BT_ReceiveResponse_times_out (fuel timeout : Nat) (dest : CharStr) (w : World)
    (ht : timeout + 1 < ULONG_RANGE)
    (hlen : (delivered (w.clock + timeout) w.rx).length < 50)
    (hno : ∀ p ∈ delivered (w.clock + timeout) w.rx, p.2 ≠ '\n' ∧ p.2 ≠ '\r')
    (hf : CharStr.n + timeout + 2 ≤ fuel) :
    ∃ buf w1, BT_ReceiveResponse fuel dest timeout w = some (false, buf, w1) ∧
      w1.serial = w.serial ++ [(Chan.err, "BT_ReceiveResponse"),
        (Chan.err, ": Error - timeout waiting for response\r\n")] := by
  have h := BT_ReceiveResponse_deadline fuel timeout dest w (delivered (w.clock + timeout) w.rx)
    (pending (w.clock + timeout) w.rx) ht (delivered_append_pending _ _).symm hlen
    (fun p hp => ⟨delivered_le hp, by
      have := hno p hp
      simp [isTerminator, this.1, this.2]⟩)
    (notBefore_pending _ _) hf
  refine ⟨_, _, h, ?_⟩
  simp [BT_ERR_PRINTLN, BT_ERR_PRINT]

/-- Witness of the amended C7: two bytes arrive in time, the line feed only
after the deadline of 20 ms. -/
theorem BT_ReceiveResponse_times_out_witness :
    ∃ buf w1, BT_ReceiveResponse 100 CharStr.new 20
        ⟨5, [(6, 'O'), (7, 'K'), (26, '\n')], [], [], false⟩ = some (false, buf, w1) ∧
      w1.serial = [] ++ [(Chan.err, "BT_ReceiveResponse"),
        (Chan.err, ": Error - timeout waiting for response\r\n")] :=
  BT_ReceiveResponse_times_out 100 20 CharStr.new
    ⟨5, [(6, 'O'), (7, 'K'), (26, '\n')], [], [], false⟩ (by decide) (by decide) (by decide)
    (by decide)

theorem delivered_take (deadline : Nat) (rx : List (Nat × Char)) (n : Nat)
    (h : n ≤ (delivered deadline rx).length) : (delivered deadline rx).take n = rx.take n := by
  conv_rhs => rw [← delivered_append_pending deadline rx]
  rw [List.take_append_of_le_length h]

theorem Bluetooth_available_rx {w : World} (h : Bluetooth_available w = true) :
    ∃ t c rest, w.rx = (t, c) :: rest := by
  unfold Bluetooth_available at h
  split at h
  · simp at h
  · next t c rest hrx => exact ⟨t, c, rest, hrx⟩

theorem BT_WaitUntil_loop_consumed (str : String) (time start : Nat) :
    ∀ (fuel : Nat) (it : List Char) (w w1 : World),
      BT_WaitUntil_loop str time start fuel it w = some (true, w1) →
      ∃ consumed, w.rx = consumed ++ w1.rx ∧ List.Sublist it (consumed.map Prod.snd) := by
  intro fuel
  induction fuel with
  | zero =>
    intro it w w1 h
    cases it with
    | nil =>
      rw [BT_WaitUntil_loop_done] at h
      simp only [Option.some.injEq, Prod.mk.injEq, true_and] at h
      subst h
      exact ⟨[], rfl, List.Sublist.slnil⟩
    | cons x r => simp [BT_WaitUntil_loop] at h
  | succ fuel ih =>
    intro it w w1 h
    cases it with
    | nil =>
      rw [BT_WaitUntil_loop_done] at h
      simp only [Option.some.injEq, Prod.mk.injEq, true_and] at h
      subst h
      exact ⟨[], rfl, List.Sublist.slnil⟩
    | cons x r =>
      by_cases hd : time < elapsed_ms (millis w) start
      · rw [BT_WaitUntil_loop_timeout _ _ _ _ _ _ _ hd] at h
        simp at h
      have hd1 : elapsed_ms (millis w) start ≤ time := Nat.not_lt.mp hd
      by_cases ha : Bluetooth_available w = true
      · obtain ⟨t, c, rest, hrx⟩ := Bluetooth_available_rx ha
        have hrd := Bluetooth_read_cons hrx
        by_cases hc : (Bluetooth_read w).1 = x
        · rw [BT_WaitUntil_loop_hit _ _ _ _ _ _ _ hd1 ha hc, hrd] at h
          obtain ⟨consumed, h1, h2⟩ := ih r _ w1 h
          rw [hrd] at hc
          simp only at hc h1
          refine ⟨(t, c) :: consumed, by rw [hrx, h1]; rfl, ?_⟩
          rw [List.map_cons, hc]
          exact List.Sublist.cons₂ _ h2
        · rw [BT_WaitUntil_loop_miss _ _ _ _ _ _ _ hd1 ha hc, hrd] at h
          obtain ⟨consumed, h1, h2⟩ := ih (x :: r) _ w1 h
          simp only at h1
          refine ⟨(t, c) :: consumed, by rw [hrx, h1]; rfl, ?_⟩
          rw [List.map_cons]
          exact List.Sublist.cons _ h2
      · have ha0 : Bluetooth_available w = false := by simpa using ha
        rw [BT_WaitUntil_loop_spin _ _ _ _ _ _ _ hd1 ha0] at h
        obtain ⟨consumed, h1, h2⟩ := ih (x :: r) _ w1 h
        exact ⟨consumed, h1, h2⟩

theorem BT_WaitUntil_loop_mono (str : String) (time start : Nat) :
    ∀ (fuel : Nat) (it : List Char) (w : World) (r : Bool × World),
      BT_WaitUntil_loop str time start fuel it w = some r →
      BT_WaitUntil_loop str time start (fuel + 1) it w = some r := by
  intro fuel
  induction fuel with
  | zero =>
    intro it w r h
    cases it with
    | nil => rw [BT_WaitUntil_loop_done] at h ⊢; exact h
    | cons x rest => simp [BT_WaitUntil_loop] at h
  | succ fuel ih =>
    intro it w r h
    cases it with
    | nil => rw [BT_WaitUntil_loop_done] at h ⊢; exact h
    | cons x rest =>
      by_cases hd : time < elapsed_ms (millis w) start
      · rw [BT_WaitUntil_loop_timeout _ _ _ _ _ _ _ hd] at h ⊢
        exact h
      have hd1 : elapsed_ms (millis w) start ≤ time := Nat.not_lt.mp hd
      by_cases ha : Bluetooth_available w = true
      · by_cases hc : (Bluetooth_read w).1 = x
        · rw [BT_WaitUntil_loop_hit _ _ _ _ _ _ _ hd1 ha hc] at h ⊢
          exact ih _ _ _ h
        · rw [BT_WaitUntil_loop_miss _ _ _ _ _ _ _ hd1 ha hc] at h ⊢
          exact ih _ _ _ h
      · have ha0 : Bluetooth_available w = false := by simpa using ha
        rw [BT_WaitUntil_loop_spin _ _ _ _ _ _ _ hd1 ha0] at h ⊢
        exact ih _ _ _ h

theorem BT_WaitUntil_loop_mono_add (str : String) (time start fuel : Nat) (it : List Char)
    (w : World) (r : Bool × World) (h : BT_WaitUntil_loop str time start fuel it w = some r) :
    ∀ k, BT_WaitUntil_loop str time start (fuel + k) it w = some r := by
  intro k
  induction k with
  | zero => exact h
  | succ k ih => exact BT_WaitUntil_loop_mono str time start (fuel + k) it w r ih

/-! ## Claims about `BT_WaitUntil` -/

/-- C8: the loop of `BT_WaitUntil`, given fuel for every unread byte and every
millisecond up to the deadline, ends, and it ends on the matched path
exactly when the token is a subsequence (in order, gaps allowed) of the bytes
delivered by the deadline, and then it has read the shortest front part of the
stream that holds the token as a subsequence: the token is a subsequence of what
was read and of no shorter front part.  `BT_WaitUntil` then returns at once on
the timeout path and goes on to the trailing flush on the matched path; that
flush is not part of the wait for the token.  The timeout is below the largest
`unsigned long`, so that the deadline test can fire. -/
theorem BT_WaitUntil_subsequence (str : String) (time_ms fuel : Nat) (w : World)
    (ht : time_ms + 1 < ULONG_RANGE) (hf : w.rx.length + time_ms + 2 ≤ fuel) :
    ∃ matched w1,
      BT_WaitUntil_loop str time_ms (millis w) fuel str.toList w = some (matched, w1) ∧
      BT_WaitUntil fuel str time_ms w =
        (if matched = true then BT_FlushPrint fuel 200 (BT_DBG_PRINT str w1) else some w1) ∧
      (matched = true ↔
        List.Sublist str.toList ((delivered (w.clock + time_ms) w.rx).map Prod.snd)) ∧
      (matched = true → ∃ consumed, w.rx = consumed ++ w1.rx ∧
        List.Sublist str.toList (consumed.map Prod.snd) ∧
        ∀ m, m < consumed.length → ¬ List.Sublist str.toList ((consumed.take m).map Prod.snd)) := by
  obtain ⟨N, w1, hN, hdrop⟩ := BT_WaitUntil_loop_scan str time_ms w.clock ht w.rx str.toList w rfl
    (Nat.le_refl _) (by omega)
  obtain ⟨r, hr, _⟩ := BT_WaitUntil_loop_total str time_ms (millis w) ht fuel str.toList w (by
    rw [elapsed_ms_self]; omega)
  have hfuel : BT_WaitUntil_loop str time_ms (millis w) fuel str.toList w =
      some ((scan str.toList ((delivered (w.clock + time_ms) w.rx).map Prod.snd)).isSome, w1) := by
    have h1 := BT_WaitUntil_loop_mono_add str time_ms (millis w) fuel str.toList w r hr N
    have h2 := hN fuel
    unfold millis at h1 hr
    rw [h2] at h1
    unfold millis
    rw [hr, h1]
  refine ⟨(scan str.toList ((delivered (w.clock + time_ms) w.rx).map Prod.snd)).isSome, w1,
    hfuel, ?_, ?_, ?_⟩
  · unfold BT_WaitUntil
    rw [hfuel]
    cases (scan str.toList ((delivered (w.clock + time_ms) w.rx).map Prod.snd)).isSome <;> rfl
  · exact (sublist_iff_scan _ _).symm
  · intro hm
    obtain ⟨n, hn⟩ := Option.isSome_iff_exists.mp hm
    have hle := scan_le_length _ _ _ hn
    rw [List.length_map] at hle
    have hw1 := hdrop n hn
    have hlen : (delivered (w.clock + time_ms) w.rx).length ≤ w.rx.length := by
      conv_rhs => rw [← delivered_append_pending (w.clock + time_ms) w.rx]
      rw [List.length_append]; omega
    have htake : ∀ m, m ≤ n →
        ((delivered (w.clock + time_ms) w.rx).map Prod.snd).take m =
          ((w.rx.take n).take m).map Prod.snd := by
      intro m hmn
      rw [← List.map_take, delivered_take _ _ _ (by omega), List.take_take,
        Nat.min_eq_left hmn]
    refine ⟨w.rx.take n, by rw [hw1, List.take_append_drop], ?_, ?_⟩
    · have h1 := (sublist_take_iff_scan _ str.toList n).mpr ⟨n, hn, Nat.le_refl _⟩
      rw [htake n (Nat.le_refl _), List.take_take, Nat.min_self] at h1
      exact h1
    · intro m hmlt hsub
      rw [List.length_take, Nat.min_eq_left (by omega)] at hmlt
      rw [← htake m (by omega)] at hsub
      obtain ⟨k, hk, hkm⟩ := (sublist_take_iff_scan _ str.toList m).mp hsub
      rw [hn] at hk
      simp only [Option.some.injEq] at hk
      omega

/-- Witness of C8, with the example of the claim: the token `AOK` on the stream
`X A O oK` is matched when the final `K` is read, and the whole stream has then
been consumed. -/
theorem BT_WaitUntil_subsequence_witness :
    (∃ matched w1,
      BT_WaitUntil_loop "AOK" 1000 (millis
        ⟨0, [(0, 'X'), (1, ' '), (2, 'A'), (3, ' '), (4, 'O'), (5, ' '), (6, 'o'), (7, 'K')],
          [], [], false⟩) 2000 "AOK".toList
        ⟨0, [(0, 'X'), (1, ' '), (2, 'A'), (3, ' '), (4, 'O'), (5, ' '), (6, 'o'), (7, 'K')],
          [], [], false⟩ = some (matched, w1) ∧
      BT_WaitUntil 2000 "AOK" 1000
        ⟨0, [(0, 'X'), (1, ' '), (2, 'A'), (3, ' '), (4, 'O'), (5, ' '), (6, 'o'), (7, 'K')],
          [], [], false⟩ =
        (if matched = true then BT_FlushPrint 2000 200 (BT_DBG_PRINT "AOK" w1) else some w1) ∧
      (matched = true ↔ List.Sublist "AOK".toList ((delivered (0 + 1000)
        [(0, 'X'), (1, ' '), (2, 'A'), (3, ' '), (4, 'O'), (5, ' '), (6, 'o'), (7, 'K')]).map
          Prod.snd)) ∧
      (matched = true → ∃ consumed,
        [(0, 'X'), (1, ' '), (2, 'A'), (3, ' '), (4, 'O'), (5, ' '), (6, 'o'), (7, 'K')] =
          consumed ++ w1.rx ∧
        List.Sublist "AOK".toList (consumed.map Prod.snd) ∧
        ∀ m, m < consumed.length →
          ¬ List.Sublist "AOK".toList ((consumed.take m).map Prod.snd))) ∧
    BT_WaitUntil_loop "AOK" 1000 0 2000 "AOK".toList
        ⟨0, [(0, 'X'), (1, ' '), (2, 'A'), (3, ' '), (4, 'O'), (5, ' '), (6, 'o'), (7, 'K')],
          [], [], false⟩ = some (true, ⟨7, [], [], [], false⟩) :=
  ⟨BT_WaitUntil_subsequence "AOK" 1000 2000
    ⟨0, [(0, 'X'), (1, ' '), (2, 'A'), (3, ' '), (4, 'O'), (5, ' '), (6, 'o'), (7, 'K')],
      [], [], false⟩ (by decide) (by decide), by decide⟩

/-- Counterexample to C9 as stated: the token `AOK` on the stream `AxOK`.  The
wait ends on the matched path having read `AxOK`, which does not hold `AOK` as a
contiguous substring. -/
theorem BT_WaitUntil_contiguous_counterexample :
    BT_WaitUntil_loop "AOK" 1000 0 20 "AOK".toList
        ⟨0, [(0, 'A'), (0, 'x'), (0, 'O'), (0, 'K')], [], [], false⟩ =
      some (true, ⟨0, [], [], [], false⟩) ∧
    ¬ "AOK".toList <:+: List.map Prod.snd [((0 : Nat), 'A'), (0, 'x'), (0, 'O'), (0, 'K')] := by
  constructor
  · decide
  · decide

/-- C9, amended: whenever the loop of `BT_WaitUntil` ends on the matched path, the
bytes it read hold the characters of the token (from the cursor on) in order, not
necessarily next to each other: a byte that is not the character under the cursor
is skipped and the cursor stays where it is. -/
theorem BT_WaitUntil_in_order (str : String) (time_ms start_ms fuel : Nat) (it : List Char)
    (w w1 : World)
    (h : BT_WaitUntil_loop str time_ms start_ms fuel it w = some (true, w1)) :
    ∃ consumed, w.rx = consumed ++ w1.rx ∧ List.Sublist it (consumed.map Prod.snd) :=
  BT_WaitUntil_loop_consumed str time_ms start_ms fuel it w w1 h

/-- Witness of the amended C9: the run of the counterexample. -/
theorem BT_WaitUntil_in_order_witness :
    ∃ consumed, [((0 : Nat), 'A'), (0, 'x'), (0, 'O'), (0, 'K')] = consumed ++ [] ∧
      List.Sublist "AOK".toList (consumed.map Prod.snd) :=
  BT_WaitUntil_in_order "AOK" 1000 0 20 "AOK".toList
    ⟨0, [(0, 'A'), (0, 'x'), (0, 'O'), (0, 'K')], [], [], false⟩ ⟨0, [], [], [], false⟩
    (by decide)

/-! ## Claims about `BT_IsConnected` -/

theorem BT_IsConnected_query_total (fuel : Nat) (w : World) (hf : BT_fuel w ≤ fuel) :
    ∃ w2, BT_IsConnected_query fuel w = some w2 ∧ Emits ["$$$", "GK\n"] w w2 := by
  obtain ⟨w1, h1, e1⟩ := BT_CmdResponse_total fuel "$$$" "CMD" 1000 w (by omega) hf
  obtain ⟨w2, h2, e2⟩ := BT_Send_total fuel "GK\n" w1 (Nat.le_trans e1.fuel_le hf)
  refine ⟨w2, ?_, e1.trans e2⟩
  simp only [BT_IsConnected_query, h1, h2, Option.some_bind]

theorem BT_IsConnected_result (fuel : Nat) (w w2 : World) (ok : Bool) (conn : CharStr)
    (w3 : World) (hf : BT_fuel w ≤ fuel) (hq : BT_IsConnected_query fuel w = some w2)
    (hr : BT_ReceiveResponse fuel CharStr.new 4000 w2 = some (ok, conn, w3)) :
    ∃ w4, BT_IsConnected fuel w =
      some (decide (0 = stricmp (cstr conn.data) "1,0,0".toList), w4) := by
  obtain ⟨v2, hv2, e2⟩ := BT_IsConnected_query_total fuel w hf
  rw [hq] at hv2
  simp only [Option.some.injEq] at hv2
  subst hv2
  obtain ⟨r, hr3, e3⟩ := BT_ReceiveResponse_total fuel 4000 CharStr.new w2 (by omega)
    (Nat.le_trans e2.fuel_le hf)
  rw [hr] at hr3
  simp only [Option.some.injEq] at hr3
  subst hr3
  obtain ⟨w4, h4, _⟩ := BT_CmdResponse_total fuel "---\n" "END" 4000 w3 (by omega)
    (Nat.le_trans (e2.trans_nil e3).fuel_le hf)
  exact ⟨w4, by simp only [BT_IsConnected, hq, hr, h4, Option.some_bind]⟩

theorem cstr_store_new (cs : List Char) (h : cs.length < CharStr.n) :
    cstr (store CharStr.new.data 0 cs) = cstr cs := by
  have hlen : CharStr.new.data.length = CharStr.n := by simp [CharStr.new]
  rw [store_zero cs _ (by omega)]
  have : CharStr.new.data.drop cs.length =
      '\x00' :: List.replicate (CharStr.n - cs.length - 1) '\x00' := by
    simp only [CharStr.new, List.drop_replicate]
    have : CharStr.n - cs.length = (CharStr.n - cs.length - 1) + 1 := by omega
    rw [this, List.replicate_succ]
    simp
  rw [this, cstr_append_zero]

theorem BT_IsConnected_query_unended :
    BT_IsConnected_query 50000 module_unended_status =
      some (sent "GK\n" (unanswered "$$$" "CMD" 1000 module_unended_status)) := by
  unfold BT_IsConnected_query
  rw [BT_CmdResponse_silent 50000 "$$$" "CMD" 1000 _ (by decide) (by decide) (by decide)
    (by decide)]
  simp only [Option.some_bind]
  rw [BT_Send_quiet 50000 "GK\n" _ (by decide) (by decide)]

/-- Counterexample to C4 as stated: the module sends `1,0,0` after `GK` and never
ends the line.  The line read times out (`BT_ReceiveResponse` returns false and
prints the timeout message), yet `BT_IsConnected` returns true, because the bytes
stay in the zero-filled buffer and compare equal to `1,0,0`. -/
theorem BT_IsConnected_timeout_counterexample :
    ∃ w2 conn w3 w4,
      BT_IsConnected_query 50000 module_unended_status = some w2 ∧
      BT_ReceiveResponse 50000 CharStr.new 4000 w2 = some (false, conn, w3) ∧
      (Chan.err, ": Error - timeout waiting for response\r\n") ∈ w3.serial ∧
      BT_IsConnected 50000 module_unended_status = some (true, w4) := by
  have hq := BT_IsConnected_query_unended
  have hr := BT_ReceiveResponse_deadline 50000 4000 CharStr.new
    (sent "GK\n" (unanswered "$$$" "CMD" 1000 module_unended_status))
    [(1404, '1'), (1404, ','), (1404, '0'), (1404, ','), (1404, '0')] [] (by decide)
    (by decide) (by decide) (by decide) (by decide) (by decide)
  obtain ⟨w4, h4⟩ := BT_IsConnected_result 50000 _ _ _ _ _ (by decide) hq hr
  refine ⟨_, _, _, w4, hq, hr, by decide, ?_⟩
  rw [h4]
  rfl

/-- C4, amended: `BT_IsConnected` returns true if and only if the buffer the
status line was read into holds `1,0,0` (as a C string, compared without regard
to case) after the read, whatever `BT_ReceiveResponse` returned; so it returns
false when the buffer holds `1,0,1` or `0,0,0`.  When the read times out (fewer
than 50 bytes and no line end within 4000 ms) the buffer holds the bytes that
did arrive, so the result is true exactly when those bytes spell `1,0,0`, and
false otherwise. -/
theorem BT_IsConnected_iff (fuel : Nat) (w w2 : World) (hf : BT_fuel w ≤ fuel)
    (hq : BT_IsConnected_query fuel w = some w2) :
    (∀ ok conn w3, BT_ReceiveResponse fuel CharStr.new 4000 w2 = some (ok, conn, w3) →
      (∃ w4, BT_IsConnected fuel w =
        some (decide (0 = stricmp (cstr conn.data) "1,0,0".toList), w4)) ∧
      (cstr conn.data = "1,0,1".toList ∨ cstr conn.data = "0,0,0".toList →
        ∃ w4, BT_IsConnected fuel w = some (false, w4))) ∧
    ((delivered (w2.clock + 4000) w2.rx).length < 50 →
      (∀ p ∈ delivered (w2.clock + 4000) w2.rx, p.2 ≠ '\n' ∧ p.2 ≠ '\r') →
      ∃ conn w3 w4, BT_ReceiveResponse fuel CharStr.new 4000 w2 = some (false, conn, w3) ∧
        BT_IsConnected fuel w = some (decide (0 = stricmp
          (cstr ((delivered (w2.clock + 4000) w2.rx).map Prod.snd)) "1,0,0".toList), w4)) := by
  constructor
  · intro ok conn w3 hr
    obtain ⟨w4, h4⟩ := BT_IsConnected_result fuel w w2 ok conn w3 hf hq hr
    refine ⟨⟨w4, h4⟩, ?_⟩
    intro hc
    refine ⟨w4, ?_⟩
    rw [h4]
    rcases hc with hc | hc <;> rw [hc] <;> rfl
  · intro hlen hno
    have hfuel : CharStr.n + 4000 + 2 ≤ fuel := by
      have : 8192 ≤ BT_fuel w := by
        unfold BT_fuel
        exact Nat.le_mul_of_pos_left _ (Nat.succ_pos _)
      unfold CharStr.n
      omega
    have hr := BT_ReceiveResponse_deadline fuel 4000 CharStr.new w2
      (delivered (w2.clock + 4000) w2.rx) (pending (w2.clock + 4000) w2.rx) (by decide)
      (delivered_append_pending _ _).symm hlen
      (fun p hp => ⟨delivered_le hp, by
        have := hno p hp
        simp [isTerminator, this.1, this.2]⟩)
      (notBefore_pending _ _) hfuel
    obtain ⟨w4, h4⟩ := BT_IsConnected_result fuel w w2 _ _ _ hf hq hr
    refine ⟨_, _, w4, hr, ?_⟩
    rw [h4]
    simp only
    rw [cstr_store_new _ (by rw [List.length_map]; exact hlen)]

/-- Witness of the amended C4: the module of the counterexample. -/
theorem BT_IsConnected_iff_witness :
    (∀ ok conn w3, BT_ReceiveResponse 50000 CharStr.new 4000
        (sent "GK\n" (unanswered "$$$" "CMD" 1000 module_unended_status)) =
          some (ok, conn, w3) →
      (∃ w4, BT_IsConnected 50000 module_unended_status =
        some (decide (0 = stricmp (cstr conn.data) "1,0,0".toList), w4)) ∧
      (cstr conn.data = "1,0,1".toList ∨ cstr conn.data = "0,0,0".toList →
        ∃ w4, BT_IsConnected 50000 module_unended_status = some (false, w4))) ∧
    ((delivered ((sent "GK\n" (unanswered "$$$" "CMD" 1000 module_unended_status)).clock + 4000)
        (sent "GK\n" (unanswered "$$$" "CMD" 1000 module_unended_status)).rx).length < 50 →
      (∀ p ∈ delivered
          ((sent "GK\n" (unanswered "$$$" "CMD" 1000 module_unended_status)).clock + 4000)
          (sent "GK\n" (unanswered "$$$" "CMD" 1000 module_unended_status)).rx,
        p.2 ≠ '\n' ∧ p.2 ≠ '\r') →
      ∃ conn w3 w4, BT_ReceiveResponse 50000 CharStr.new 4000
          (sent "GK\n" (unanswered "$$$" "CMD" 1000 module_unended_status)) =
            some (false, conn, w3) ∧
        BT_IsConnected 50000 module_unended_status = some (decide (0 = stricmp
          (cstr ((delivered
            ((sent "GK\n" (unanswered "$$$" "CMD" 1000 module_unended_status)).clock + 4000)
            (sent "GK\n" (unanswered "$$$" "CMD" 1000 module_unended_status)).rx).map Prod.snd))
          "1,0,0".toList), w4)) :=
  BT_IsConnected_iff 50000 module_unended_status
    (sent "GK\n" (unanswered "$$$" "CMD" 1000 module_unended_status)) (by decide)
    BT_IsConnected_query_unended

/-! ## Claims about `BT_BondPrivatelyWith` -/

theorem cstr_length_le (data : List Char) : (cstr data).length ≤ data.length := by
  induction data with
  | nil => simp [cstr]
  | cons c l ih =>
    by_cases hc : c = '\x00'
    · subst hc
      rw [cstr_cons_zero]
      simp
    · rw [cstr_cons c l hc]
      simp only [List.length_cons]
      omega

theorem cstr_length_lt (data : List Char) (h : '\x00' ∈ data) :
    (cstr data).length < data.length := by
  induction data with
  | nil => simp at h
  | cons c l ih =>
    by_cases hc : c = '\x00'
    · subst hc
      rw [cstr_cons_zero]
      simp
    · rw [cstr_cons c l hc]
      have hl : '\x00' ∈ l := by
        rcases List.mem_cons.mp h with h1 | h1
        · exact absurd h1.symm hc
        · exact h1
      have := ih hl
      simp only [List.length_cons]
      omega

theorem cstr_cstr (data : List Char) : cstr (cstr data) = cstr data := by
  apply cstr_eq_self
  intro c hc
  unfold cstr at hc
  have := List.mem_takeWhile_imp hc
  simpa using this

theorem stricmp_length {x y : List Char} (h : stricmp x y = 0) :
    (cstr x).length = (cstr y).length := by
  have := congrArg List.length ((stricmp_eq_zero_iff x y).mp h)
  simpa using this

theorem BT_ReceiveResponse_loop_zero (timeout start : Nat) :
    ∀ (fuel pos : Nat) (dest : CharStr) (w : World) (buf : CharStr) (w1 : World),
      CharStr.n ≤ dest.data.length →
      BT_ReceiveResponse_loop timeout start fuel pos dest w = some (true, buf, w1) →
      '\x00' ∈ buf.data := by
  intro fuel
  induction fuel with
  | zero => intro pos dest w buf w1 _ h; simp [BT_ReceiveResponse_loop] at h
  | succ fuel ih =>
    intro pos dest w buf w1 hlen h
    by_cases hp : CharStr.n ≤ pos
    · rw [BT_ReceiveResponse_loop_overflow _ _ _ _ _ _ hp] at h
      simp at h
    have hp1 : pos < CharStr.n := Nat.not_le.mp hp
    by_cases hd : timeout < elapsed_ms (millis w) start
    · rw [BT_ReceiveResponse_loop_timeout _ _ _ _ _ _ hp1 hd] at h
      simp at h
    have hd1 : elapsed_ms (millis w) start ≤ timeout := Nat.not_lt.mp hd
    by_cases ha : Bluetooth_available w = true
    · by_cases hc : (Bluetooth_read w).1 = '\n' ∨ (Bluetooth_read w).1 = '\r'
      · rw [BT_ReceiveResponse_loop_end _ _ _ _ _ _ hp1 hd1 ha hc] at h
        simp only [Option.some.injEq, Prod.mk.injEq, true_and] at h
        rw [← h.1]
        have hlt : pos < dest.data.length := Nat.lt_of_lt_of_le hp1 hlen
        have hget : (dest.data.set pos '\x00')[pos]? = some '\x00' := by
          simp [hlt]
        exact List.getElem?_mem hget
      · rw [BT_ReceiveResponse_loop_store _ _ _ _ _ _ hp1 hd1 ha hc] at h
        exact ih _ _ _ buf w1 (by simpa using hlen) h
    · have ha0 : Bluetooth_available w = false := by simpa using ha
      rw [BT_ReceiveResponse_loop_spin _ _ _ _ _ _ hp1 hd1 ha0] at h
      exact ih pos dest (spin w) buf w1 hlen h

theorem BT_BondPrivatelyWith_address_zero (fuel : Nat) (w : World) (rec_addr : CharStr)
    (w1 : World) (hrec : BT_BondPrivatelyWith_address fuel w = some (true, rec_addr, w1)) :
    '\x00' ∈ rec_addr.data := by
  unfold BT_BondPrivatelyWith_address at hrec
  simp only [Option.bind_eq_some] at hrec
  obtain ⟨_, _, _, _, _, _, _, _, w5, _, h5⟩ := hrec
  exact BT_ReceiveResponse_loop_zero 4000 (millis w5) fuel 0 CharStr.new w5 rec_addr w1
    (by decide) h5

theorem sprintf_SR_fits (addr : String) (h : addr.length ≤ 45) :
    (sprintf_SR addr).length + 1 ≤ BT_BondPrivatelyWith_buf_size := by
  unfold sprintf_SR BT_BondPrivatelyWith_buf_size
  rw [String.length_append, String.length_append]
  have h1 : "SR,".length = 3 := by decide
  have h2 : "\n".length = 1 := by decide
  omega

theorem sprintf_SR_fits_reported (rec_addr : CharStr) (b : String) (hb : b.length ≤ 45)
    (h : stricmp (cstr rec_addr.data) b.toList = 0) :
    (sprintf_SR (String.mk (cstr rec_addr.data))).length + 1 ≤ BT_BondPrivatelyWith_buf_size := by
  apply sprintf_SR_fits
  have h1 := stricmp_length h
  rw [cstr_cstr] at h1
  have h2 := cstr_length_le b.toList
  have h3 : (String.mk (cstr rec_addr.data)).length = (cstr rec_addr.data).length := rfl
  have h4 : b.toList.length = b.length := rfl
  omega

theorem BT_BondPrivatelyWith_report_tx (rec_addr : CharStr) (a b : String) (w : World) :
    (BT_BondPrivatelyWith_report rec_addr a b w).tx = w.tx := by
  simp [BT_BondPrivatelyWith_report]

theorem BT_BondPrivatelyWith_address_emits (fuel : Nat) (w : World) (ok : Bool)
    (rec_addr : CharStr) (w1 : World) (hf : BT_fuel w ≤ fuel)
    (hrec : BT_BondPrivatelyWith_address fuel w = some (ok, rec_addr, w1)) :
    Emits ["$$$", "SF,1\n", "SA,4\n", "SE,1\n", "GB\n"] w w1 := by
  obtain ⟨r, hr, e⟩ := BT_BondPrivatelyWith_address_total fuel w hf
  rw [hrec] at hr
  simp only [Option.some.injEq] at hr
  subst hr
  exact e

theorem BT_BondPrivatelyWith_pair_after (fuel : Nat) (w : World) (ok : Bool)
    (rec_addr : CharStr) (w1 : World) (peer : String) (hf : BT_fuel w ≤ fuel)
    (hrec : BT_BondPrivatelyWith_address fuel w = some (ok, rec_addr, w1)) :
    ∃ w2, BT_BondPrivatelyWith_pair fuel peer w1 = some (true, w2) ∧
      w2.tx = w.tx ++ ["$$$", "SF,1\n", "SA,4\n", "SE,1\n", "GB\n", sprintf_SR peer, "SM,6\n",
        "SP,c0de\n", "R,1\n", "$$$", "D\n", "---\n"] := by
  have e1 := BT_BondPrivatelyWith_address_emits fuel w ok rec_addr w1 hf hrec
  obtain ⟨w2, h2, e2⟩ := BT_BondPrivatelyWith_pair_total fuel peer w1
    (Nat.le_trans e1.fuel_le hf)
  exact ⟨w2, h2, (e1.trans e2).tx_eq⟩

theorem BT_BondPrivatelyWith_first (fuel : Nat) (w : World) (ok : Bool) (rec_addr : CharStr)
    (w1 : World) (a b : String) (hf : BT_fuel w ≤ fuel)
    (hrec : BT_BondPrivatelyWith_address fuel w = some (ok, rec_addr, w1))
    (ha : 0 = stricmp (cstr rec_addr.data) a.toList) :
    ∃ w2, BT_BondPrivatelyWith fuel a b w = some (true, w2) ∧
      w2.tx = w.tx ++ ["$$$", "SF,1\n", "SA,4\n", "SE,1\n", "GB\n", sprintf_SR b, "SM,6\n",
        "SP,c0de\n", "R,1\n", "$$$", "D\n", "---\n"] := by
  rw [BT_BondPrivatelyWith_unfold fuel a b w ok rec_addr w1 hrec]
  unfold BT_BondPrivatelyWith_validate
  rw [if_pos ha]
  exact BT_BondPrivatelyWith_pair_after fuel w ok rec_addr w1 b hf hrec

theorem BT_BondPrivatelyWith_second (fuel : Nat) (w : World) (ok : Bool) (rec_addr : CharStr)
    (w1 : World) (a b : String) (hf : BT_fuel w ≤ fuel)
    (hrec : BT_BondPrivatelyWith_address fuel w = some (ok, rec_addr, w1))
    (ha : 0 ≠ stricmp (cstr rec_addr.data) a.toList)
    (hb : 0 = stricmp (cstr rec_addr.data) b.toList) :
    ∃ w2, BT_BondPrivatelyWith fuel a b w = some (true, w2) ∧
      w2.tx = w.tx ++ ["$$$", "SF,1\n", "SA,4\n", "SE,1\n", "GB\n", sprintf_SR a, "SM,6\n",
        "SP,c0de\n", "R,1\n", "$$$", "D\n", "---\n"] := by
  rw [BT_BondPrivatelyWith_unfold fuel a b w ok rec_addr w1 hrec]
  unfold BT_BondPrivatelyWith_validate
  rw [if_neg ha, if_pos hb]
  exact BT_BondPrivatelyWith_pair_after fuel w ok rec_addr w1 a hf hrec

theorem BT_BondPrivatelyWith_neither (fuel : Nat) (w : World) (ok : Bool) (rec_addr : CharStr)
    (w1 : World) (a b : String) (hf : BT_fuel w ≤ fuel)
    (hrec : BT_BondPrivatelyWith_address fuel w = some (ok, rec_addr, w1))
    (ha : 0 ≠ stricmp (cstr rec_addr.data) a.toList)
    (hb : 0 ≠ stricmp (cstr rec_addr.data) b.toList) :
    BT_BondPrivatelyWith fuel a b w =
        some (false, BT_BondPrivatelyWith_report rec_addr a b w1) ∧
      (BT_BondPrivatelyWith_report rec_addr a b w1).tx =
        w.tx ++ ["$$$", "SF,1\n", "SA,4\n", "SE,1\n", "GB\n"] := by
  rw [BT_BondPrivatelyWith_unfold fuel a b w ok rec_addr w1 hrec]
  unfold BT_BondPrivatelyWith_validate
  rw [if_neg ha, if_neg hb, BT_BondPrivatelyWith_report_tx]
  exact ⟨rfl, (BT_BondPrivatelyWith_address_emits fuel w ok rec_addr w1 hf hrec).tx_eq⟩

/-- C1: the address `rec_addr` read after `GB` holds its terminating zero (the
read did not run over the 50 bytes of the buffer) and the candidates have at
most 45 characters, so that the string compared ends inside the array and the
`SR` command with its zero fits the 50 bytes of `buf`.  Then a run of
`BT_BondPrivatelyWith(a, b)` writes `SR,b` as the next command when `rec_addr`
equals `a` without regard to case, and otherwise `SR,a` when it equals `b`.  So
with the reported address `A` itself as a candidate, candidates `(A, B)` give
peer `B`, and candidates `(B, A)` give the peer `B` as well: spelled `B`
whenever `A` and `B` are different addresses, and spelled `A` in the one case
left, in which `A` and `B` are the same address up to letter case. -/
theorem BT_BondPrivatelyWith_peer (fuel : Nat) (w : World) (ok : Bool) (rec_addr : CharStr)
    (w1 : World) (a b : String) (hf : BT_fuel w ≤ fuel)
    (hrec : BT_BondPrivatelyWith_address fuel w = some (ok, rec_addr, w1))
    (hterm : '\x00' ∈ rec_addr.data) (hla : a.length ≤ 45) (hlb : b.length ≤ 45) :
    (cstr rec_addr.data).length < rec_addr.data.length ∧
    (sprintf_SR a).length + 1 ≤ BT_BondPrivatelyWith_buf_size ∧
    (sprintf_SR b).length + 1 ≤ BT_BondPrivatelyWith_buf_size ∧
    (0 = stricmp (cstr rec_addr.data) a.toList →
      ∃ w2 later, BT_BondPrivatelyWith fuel a b w = some (true, w2) ∧
        w2.tx = w.tx ++ ["$$$", "SF,1\n", "SA,4\n", "SE,1\n", "GB\n", "SR," ++ b ++ "\n"] ++
          later) ∧
    (0 ≠ stricmp (cstr rec_addr.data) a.toList → 0 = stricmp (cstr rec_addr.data) b.toList →
      ∃ w2 later, BT_BondPrivatelyWith fuel a b w = some (true, w2) ∧
        w2.tx = w.tx ++ ["$$$", "SF,1\n", "SA,4\n", "SE,1\n", "GB\n", "SR," ++ a ++ "\n"] ++
          later) ∧
    (∃ w2 later, BT_BondPrivatelyWith fuel (String.mk (cstr rec_addr.data)) b w =
        some (true, w2) ∧
      w2.tx = w.tx ++ ["$$$", "SF,1\n", "SA,4\n", "SE,1\n", "GB\n", "SR," ++ b ++ "\n"] ++
        later) ∧
    (∃ w2 later peer, BT_BondPrivatelyWith fuel b (String.mk (cstr rec_addr.data)) w =
        some (true, w2) ∧
      w2.tx = w.tx ++ ["$$$", "SF,1\n", "SA,4\n", "SE,1\n", "GB\n", "SR," ++ peer ++ "\n"] ++
        later ∧
      stricmp peer.toList b.toList = 0 ∧
      (stricmp (cstr rec_addr.data) b.toList ≠ 0 → peer = b) ∧
      (sprintf_SR peer).length + 1 ≤ BT_BondPrivatelyWith_buf_size) := by
  refine ⟨cstr_length_lt _ hterm, sprintf_SR_fits a hla, sprintf_SR_fits b hlb, ?_, ?_, ?_, ?_⟩
  · intro ha
    obtain ⟨w2, h, htx⟩ := BT_BondPrivatelyWith_first fuel w ok rec_addr w1 a b hf hrec ha
    exact ⟨w2, ["SM,6\n", "SP,c0de\n", "R,1\n", "$$$", "D\n", "---\n"], h, by rw [htx]; simp [sprintf_SR]⟩
  · intro ha hb
    obtain ⟨w2, h, htx⟩ := BT_BondPrivatelyWith_second fuel w ok rec_addr w1 a b hf hrec ha hb
    exact ⟨w2, ["SM,6\n", "SP,c0de\n", "R,1\n", "$$$", "D\n", "---\n"], h, by rw [htx]; simp [sprintf_SR]⟩
  · obtain ⟨w2, h, htx⟩ := BT_BondPrivatelyWith_first fuel w ok rec_addr w1
      (String.mk (cstr rec_addr.data)) b hf hrec (stricmp_self _).symm
    exact ⟨w2, ["SM,6\n", "SP,c0de\n", "R,1\n", "$$$", "D\n", "---\n"], h, by rw [htx]; simp [sprintf_SR]⟩
  · by_cases hb : 0 = stricmp (cstr rec_addr.data) b.toList
    · obtain ⟨w2, h, htx⟩ := BT_BondPrivatelyWith_first fuel w ok rec_addr w1 b
        (String.mk (cstr rec_addr.data)) hf hrec hb
      exact ⟨w2, ["SM,6\n", "SP,c0de\n", "R,1\n", "$$$", "D\n", "---\n"], String.mk (cstr rec_addr.data), h,
        by rw [htx]; simp [sprintf_SR], hb.symm, fun hne => absurd hb.symm hne,
        sprintf_SR_fits_reported rec_addr b hlb hb.symm⟩
    · obtain ⟨w2, h, htx⟩ := BT_BondPrivatelyWith_second fuel w ok rec_addr w1 b
        (String.mk (cstr rec_addr.data)) hf hrec hb (stricmp_self _).symm
      exact ⟨w2, ["SM,6\n", "SP,c0de\n", "R,1\n", "$$$", "D\n", "---\n"], b, h, by rw [htx]; simp [sprintf_SR],
        stricmp_self _, fun _ => rfl, sprintf_SR_fits b hlb⟩

/-- C2: when the address read after `GB` holds its terminating zero (the read
did not run over the 50 bytes of the buffer, so the comparison and the report
stay inside the array) and equals neither candidate (compared without regard to
case), `BT_BondPrivatelyWith` returns false, and all it has written to the
Bluetooth stream are the commands up to `GB`: nothing follows. -/
theorem BT_BondPrivatelyWith_mismatch (fuel : Nat) (w : World) (ok : Bool)
    (rec_addr : CharStr) (w1 : World) (a b : String) (hf : BT_fuel w ≤ fuel)
    (hrec : BT_BondPrivatelyWith_address fuel w = some (ok, rec_addr, w1))
    (hterm : '\x00' ∈ rec_addr.data)
    (ha : stricmp (cstr rec_addr.data) a.toList ≠ 0)
    (hb : stricmp (cstr rec_addr.data) b.toList ≠ 0) :
    (cstr rec_addr.data).length < rec_addr.data.length ∧
    ∃ w2, BT_BondPrivatelyWith fuel a b w = some (false, w2) ∧
      w2.tx = w.tx ++ ["$$$", "SF,1\n", "SA,4\n", "SE,1\n", "GB\n"] ∧ w2.tx = w1.tx := by
  obtain ⟨h, htx⟩ := BT_BondPrivatelyWith_neither fuel w ok rec_addr w1 a b hf hrec
    (fun h => ha h.symm) (fun h => hb h.symm)
  exact ⟨cstr_length_lt _ hterm, _, h, htx, BT_BondPrivatelyWith_report_tx _ _ _ _⟩

/-- C10: the address read into the buffer after `GB` holds its terminating zero
(the read did not run over the 50 bytes) and the candidates have at most 45
characters (the `SR` command with its zero fits the 50 bytes of `buf`).
Whenever that address equals one of the two candidates (without regard to
case), `BT_BondPrivatelyWith` returns true and has written exactly the twelve
commands of the sequence, in order, with the other candidate in the `SR`
command; this holds for every behaviour of the module, so whichever waits for
`CMD`, `AOK`, `Reboot!` or `END` time out.  And the function returns false only
when the address equals neither candidate. -/
theorem BT_BondPrivatelyWith_best_effort (fuel : Nat) (w : World) (ok : Bool)
    (rec_addr : CharStr) (w1 : World) (a b : String) (hf : BT_fuel w ≤ fuel)
    (hrec : BT_BondPrivatelyWith_address fuel w = some (ok, rec_addr, w1))
    (hterm : '\x00' ∈ rec_addr.data) (hla : a.length ≤ 45) (hlb : b.length ≤ 45) :
    (cstr rec_addr.data).length < rec_addr.data.length ∧
    (stricmp (cstr rec_addr.data) a.toList = 0 ∨ stricmp (cstr rec_addr.data) b.toList = 0 →
      ∃ w2, BT_BondPrivatelyWith fuel a b w = some (true, w2) ∧
        w2.tx = w.tx ++ ["$$$", "SF,1\n", "SA,4\n", "SE,1\n", "GB\n",
          "SR," ++ (if stricmp (cstr rec_addr.data) a.toList = 0 then b else a) ++ "\n",
          "SM,6\n", "SP,c0de\n", "R,1\n", "$$$", "D\n", "---\n"] ∧
        (sprintf_SR (if stricmp (cstr rec_addr.data) a.toList = 0 then b else a)).length + 1 ≤
          BT_BondPrivatelyWith_buf_size) ∧
    (∀ w2, BT_BondPrivatelyWith fuel a b w = some (false, w2) →
      stricmp (cstr rec_addr.data) a.toList ≠ 0 ∧ stricmp (cstr rec_addr.data) b.toList ≠ 0) := by
  refine ⟨cstr_length_lt _ hterm, ?_, ?_⟩
  · intro hm
    by_cases ha : stricmp (cstr rec_addr.data) a.toList = 0
    · rw [if_pos ha]
      obtain ⟨w2, h, htx⟩ := BT_BondPrivatelyWith_first fuel w ok rec_addr w1 a b hf hrec ha.symm
      exact ⟨w2, h, htx, sprintf_SR_fits b hlb⟩
    · rw [if_neg ha]
      have hb : stricmp (cstr rec_addr.data) b.toList = 0 := hm.resolve_left ha
      obtain ⟨w2, h, htx⟩ := BT_BondPrivatelyWith_second fuel w ok rec_addr w1 a b hf hrec
        (fun h => ha h.symm) hb.symm
      exact ⟨w2, h, htx, sprintf_SR_fits a hla⟩
  · intro w2 hfalse
    by_cases ha : stricmp (cstr rec_addr.data) a.toList = 0
    · obtain ⟨w3, h, _⟩ := BT_BondPrivatelyWith_first fuel w ok rec_addr w1 a b hf hrec ha.symm
      rw [h] at hfalse
      simp at hfalse
    · by_cases hb : stricmp (cstr rec_addr.data) b.toList = 0
      · obtain ⟨w3, h, _⟩ := BT_BondPrivatelyWith_second fuel w ok rec_addr w1 a b hf hrec
          (fun h => ha h.symm) hb.symm
        rw [h] at hfalse
        simp at hfalse
      · exact ⟨ha, hb⟩

@[simp] theorem sent_rx (msg : String) (w : World) : (sent msg w).rx = w.rx := by
  simp [sent]

@[simp] theorem sent_clock (msg : String) (w : World) : (sent msg w).clock = w.clock + 201 := by
  simp [sent]

@[simp] theorem unanswered_rx (cmd resp : String) (time : Nat) (w : World) :
    (unanswered cmd resp time w).rx = w.rx := by
  simp [unanswered]

@[simp] theorem unanswered_clock (cmd resp : String) (time : Nat) (w : World) :
    (unanswered cmd resp time w).clock = w.clock + 201 + (time + 1) := by
  simp [unanswered]

@[simp] theorem BT_Setup_rx (w : World) : (BT_Setup w).rx = w.rx := rfl

@[simp] theorem BT_Setup_clock (w : World) : (BT_Setup w).clock = w.clock + 1000 := rfl

theorem BT_BondPrivatelyWith_address_silent (fuel : Nat) (w : World)
    (hq : notBefore (w.clock + 16010) w.rx = true) (hf : 5202 ≤ fuel) :
    BT_BondPrivatelyWith_address fuel w =
      BT_ReceiveResponse fuel CharStr.new 4000
        (sent "GB\n" (unanswered "SE,1\n" "AOK" 4000 (unanswered "SA,4\n" "AOK" 4000
          (unanswered "SF,1\n" "AOK" 5000 (unanswered "$$$" "CMD" 1000 (BT_Setup w)))))) := by
  have hR : ∀ t, t ≤ 5000 → t + 1 < ULONG_RANGE := by
    intro t ht; unfold ULONG_RANGE; omega
  unfold BT_BondPrivatelyWith_address
  rw [BT_CmdResponse_silent fuel "$$$" "CMD" 1000 (BT_Setup w) (by decide) (hR _ (by omega))
    (by simp only [unanswered_rx, BT_Setup_rx]
        exact notBefore_mono (by simp) hq) (by omega)]
  simp only [Option.some_bind]
  rw [BT_CmdResponse_silent fuel "SF,1\n" "AOK" 5000 (unanswered "$$$" "CMD" 1000 (BT_Setup w)) (by decide) (hR _ (by omega))
    (by simp only [unanswered_rx, BT_Setup_rx]
        exact notBefore_mono (by simp) hq) (by omega)]
  simp only [Option.some_bind]
  rw [BT_CmdResponse_silent fuel "SA,4\n" "AOK" 4000 (unanswered "SF,1\n" "AOK" 5000 (unanswered "$$$" "CMD" 1000 (BT_Setup w))) (by decide) (hR _ (by omega))
    (by simp only [unanswered_rx, BT_Setup_rx]
        exact notBefore_mono (by simp) hq) (by omega)]
  simp only [Option.some_bind]
  rw [BT_CmdResponse_silent fuel "SE,1\n" "AOK" 4000 (unanswered "SA,4\n" "AOK" 4000
    (unanswered "SF,1\n" "AOK" 5000 (unanswered "$$$" "CMD" 1000 (BT_Setup w)))) (by decide) (hR _ (by omega))
    (by simp only [unanswered_rx, BT_Setup_rx]
        exact notBefore_mono (by simp) hq) (by omega)]
  simp only [Option.some_bind]
  rw [BT_Send_quiet fuel "GB\n" (unanswered "SE,1\n" "AOK" 4000 (unanswered "SA,4\n" "AOK" 4000
    (unanswered "SF,1\n" "AOK" 5000 (unanswered "$$$" "CMD" 1000 (BT_Setup w)))))
    (by simp only [unanswered_rx, BT_Setup_rx]
        exact notBefore_mono (by simp) hq) (by omega)]
  simp only [Option.some_bind]

theorem module_reports_address_read :
    ∃ rec_addr w1, BT_BondPrivatelyWith_address 200000 module_reports_address =
        some (true, rec_addr, w1) ∧
      cstr rec_addr.data = "000666AB12CD".toList := by
  have key := BT_BondPrivatelyWith_address_silent 200000 module_reports_address (by decide)
    (by decide)
  have hclock : (sent "GB\n" (unanswered "SE,1\n" "AOK" 4000 (unanswered "SA,4\n" "AOK" 4000
      (unanswered "SF,1\n" "AOK" 5000 (unanswered "$$$" "CMD" 1000
        (BT_Setup module_reports_address)))))).clock = 16009 := by
    simp
    rfl
  have h := BT_ReceiveResponse_line 200000 4000 CharStr.new
    (sent "GB\n" (unanswered "SE,1\n" "AOK" 4000 (unanswered "SA,4\n" "AOK" 4000
      (unanswered "SF,1\n" "AOK" 5000 (unanswered "$$$" "CMD" 1000
        (BT_Setup module_reports_address))))))
    ("000666AB12CD".toList.map (fun c => (16010, c))) [] 16010 '\r' (by decide)
    (by simp only [sent_rx, unanswered_rx, BT_Setup_rx]; rfl) (by decide)
    (by rw [hclock]; decide) (by decide) (by rw [hclock]; decide) (by decide)
  rw [h] at key
  exact ⟨_, _, key, by decide⟩

theorem module_reports_address_line :
    ∃ rec_addr w1, BT_BondPrivatelyWith_address 200000 module_reports_address =
        some (true, rec_addr, w1) ∧
      cstr rec_addr.data = "000666AB12CD".toList ∧ '\x00' ∈ rec_addr.data := by
  have key := BT_BondPrivatelyWith_address_silent 200000 module_reports_address (by decide)
    (by decide)
  have hclock : (sent "GB\n" (unanswered "SE,1\n" "AOK" 4000 (unanswered "SA,4\n" "AOK" 4000
      (unanswered "SF,1\n" "AOK" 5000 (unanswered "$$$" "CMD" 1000
        (BT_Setup module_reports_address)))))).clock = 16009 := by
    simp
    rfl
  have h := BT_ReceiveResponse_line 200000 4000 CharStr.new
    (sent "GB\n" (unanswered "SE,1\n" "AOK" 4000 (unanswered "SA,4\n" "AOK" 4000
      (unanswered "SF,1\n" "AOK" 5000 (unanswered "$$$" "CMD" 1000
        (BT_Setup module_reports_address))))))
    ("000666AB12CD".toList.map (fun c => (16010, c))) [] 16010 '\r' (by decide)
    (by simp only [sent_rx, unanswered_rx, BT_Setup_rx]; rfl) (by decide)
    (by rw [hclock]; decide) (by decide) (by rw [hclock]; decide) (by decide)
  rw [h] at key
  exact ⟨_, _, key, by decide, by decide⟩

/-- Witness of C1: the module reports `000666AB12CD`; the first candidate is
that address in lower case, the second the address of the peer. -/
theorem BT_BondPrivatelyWith_peer_witness :
    ∃ w2 later, BT_BondPrivatelyWith 200000 "000666ab12cd" "000666AB34EF"
        module_reports_address = some (true, w2) ∧
      w2.tx = module_reports_address.tx ++
        ["$$$", "SF,1\n", "SA,4\n", "SE,1\n", "GB\n", "SR," ++ "000666AB34EF" ++ "\n"] ++
          later := by
  obtain ⟨rec_addr, w1, h, hc, hz⟩ := module_reports_address_line
  exact (BT_BondPrivatelyWith_peer 200000 module_reports_address true rec_addr w1
    "000666ab12cd" "000666AB34EF" (by decide) h hz (by decide) (by decide)).2.2.2.1
    (by rw [hc]; decide)

/-- Witness of C2: the module reports `000666AB12CD`, and neither candidate is
that address. -/
theorem BT_BondPrivatelyWith_mismatch_witness :
    ∃ w2, BT_BondPrivatelyWith 200000 "000666AB12CE" "000666AB34EF" module_reports_address =
        some (false, w2) ∧
      w2.tx = module_reports_address.tx ++ ["$$$", "SF,1\n", "SA,4\n", "SE,1\n", "GB\n"] := by
  obtain ⟨rec_addr, w1, h, hc, hz⟩ := module_reports_address_line
  obtain ⟨_, w2, h2, htx, _⟩ := BT_BondPrivatelyWith_mismatch 200000 module_reports_address true
    rec_addr w1 "000666AB12CE" "000666AB34EF" (by decide) h hz (by rw [hc]; decide)
    (by rw [hc]; decide)
  exact ⟨w2, h2, htx⟩

/-- Witness of C10: the module reports `000666AB12CD` and answers no command at
all, so every wait for a token times out; the second candidate is the reported
address and the first one becomes the peer. -/
theorem BT_BondPrivatelyWith_best_effort_witness :
    ∃ w2, BT_BondPrivatelyWith 200000 "000666AB34EF" "000666ab12cd" module_reports_address =
        some (true, w2) ∧
      w2.tx = ["$$$", "SF,1\n", "SA,4\n", "SE,1\n", "GB\n", "SR,000666AB34EF\n", "SM,6\n",
        "SP,c0de\n", "R,1\n", "$$$", "D\n", "---\n"] := by
  obtain ⟨rec_addr, w1, h, hc, hz⟩ := module_reports_address_line
  obtain ⟨w2, h2, htx, _⟩ := (BT_BondPrivatelyWith_best_effort 200000 module_reports_address
    true rec_addr w1 "000666AB34EF" "000666ab12cd" (by decide) h hz (by decide)
    (by decide)).2.1 (Or.inr (by rw [hc]; decide))
  refine ⟨w2, h2, ?_⟩
  rw [htx, hc]
  decide

/-- Counterexample to C3 as stated: two candidates that spell the same address
in different letter case, `000666ab12cd` and `000666AB12CD`, with a module that
reports `000666AB12CD`.  Each order returns true, but the `SR` command carries
whichever candidate is second, so the two runs write different commands. -/
theorem BT_BondPrivatelyWith_order_counterexample :
    ∃ w2 w3,
      BT_BondPrivatelyWith 200000 "000666ab12cd" "000666AB12CD" module_reports_address =
        some (true, w2) ∧
      BT_BondPrivatelyWith 200000 "000666AB12CD" "000666ab12cd" module_reports_address =
        some (true, w3) ∧
      w2.tx = ["$$$", "SF,1\n", "SA,4\n", "SE,1\n", "GB\n", "SR,000666AB12CD\n", "SM,6\n",
        "SP,c0de\n", "R,1\n", "$$$", "D\n", "---\n"] ∧
      w3.tx = ["$$$", "SF,1\n", "SA,4\n", "SE,1\n", "GB\n", "SR,000666ab12cd\n", "SM,6\n",
        "SP,c0de\n", "R,1\n", "$$$", "D\n", "---\n"] ∧
      w2.tx ≠ w3.tx := by
  obtain ⟨rec_addr, w1, h, hc⟩ := module_reports_address_read
  obtain ⟨w2, h2, htx2⟩ := BT_BondPrivatelyWith_first 200000 module_reports_address true
    rec_addr w1 "000666ab12cd" "000666AB12CD" (by decide) h (by rw [hc]; decide)
  obtain ⟨w3, h3, htx3⟩ := BT_BondPrivatelyWith_first 200000 module_reports_address true
    rec_addr w1 "000666AB12CD" "000666ab12cd" (by decide) h (by rw [hc]; decide)
  refine ⟨w2, w3, h2, h3, ?_, ?_, ?_⟩
  · rw [htx2]; decide
  · rw [htx3]; decide
  · rw [htx2, htx3]; decide

/-- C3, amended: the address read after `GB` holds its terminating zero (the
read did not run over the 50 bytes of the buffer) and the two addresses have at
most 45 characters (either `SR` command with its zero fits the 50 bytes of
`buf`).  Then for two addresses that are identical, or that differ by more
than letter case, the order does not matter: `BT_BondPrivatelyWith(a, b)` and
`BT_BondPrivatelyWith(b, a)`, run against the same behaviour of the module,
return the same boolean and write the same commands to the Bluetooth stream.
(For two spellings of one address the `SR` command carries the second one.) -/
theorem BT_BondPrivatelyWith_order (fuel : Nat) (w : World) (ok : Bool) (rec_addr : CharStr)
    (w1 : World) (a b : String) (hf : BT_fuel w ≤ fuel)
    (hrec : BT_BondPrivatelyWith_address fuel w = some (ok, rec_addr, w1))
    (hterm : '\x00' ∈ rec_addr.data) (hla : a.length ≤ 45) (hlb : b.length ≤ 45)
    (hab : stricmp a.toList b.toList ≠ 0 ∨ a = b) :
    (cstr rec_addr.data).length < rec_addr.data.length ∧
    (sprintf_SR a).length + 1 ≤ BT_BondPrivatelyWith_buf_size ∧
    (sprintf_SR b).length + 1 ≤ BT_BondPrivatelyWith_buf_size ∧
    ∃ r w2 w3, BT_BondPrivatelyWith fuel a b w = some (r, w2) ∧
      BT_BondPrivatelyWith fuel b a w = some (r, w3) ∧ w2.tx = w3.tx := by
  refine ⟨cstr_length_lt _ hterm, sprintf_SR_fits a hla, sprintf_SR_fits b hlb, ?_⟩
  by_cases ha : 0 = stricmp (cstr rec_addr.data) a.toList
  · by_cases hb : 0 = stricmp (cstr rec_addr.data) b.toList
    · have hsame : a = b := by
        rcases hab with hne | heq
        · exact absurd (stricmp_trans (stricmp_symm ha.symm) hb.symm) hne
        · exact heq
      subst hsame
      obtain ⟨w2, h2, _⟩ := BT_BondPrivatelyWith_first fuel w ok rec_addr w1 a a hf hrec ha
      exact ⟨true, w2, w2, h2, h2, rfl⟩
    · obtain ⟨w2, h2, htx2⟩ := BT_BondPrivatelyWith_first fuel w ok rec_addr w1 a b hf hrec ha
      obtain ⟨w3, h3, htx3⟩ := BT_BondPrivatelyWith_second fuel w ok rec_addr w1 b a hf hrec
        hb ha
      exact ⟨true, w2, w3, h2, h3, by rw [htx2, htx3]⟩
  · by_cases hb : 0 = stricmp (cstr rec_addr.data) b.toList
    · obtain ⟨w2, h2, htx2⟩ := BT_BondPrivatelyWith_second fuel w ok rec_addr w1 a b hf hrec
        ha hb
      obtain ⟨w3, h3, htx3⟩ := BT_BondPrivatelyWith_first fuel w ok rec_addr w1 b a hf hrec hb
      exact ⟨true, w2, w3, h2, h3, by rw [htx2, htx3]⟩
    · obtain ⟨h2, htx2⟩ := BT_BondPrivatelyWith_neither fuel w ok rec_addr w1 a b hf hrec ha hb
      obtain ⟨h3, htx3⟩ := BT_BondPrivatelyWith_neither fuel w ok rec_addr w1 b a hf hrec hb ha
      exact ⟨false, _, _, h2, h3, by rw [htx2, htx3]⟩

/-- Witness of the amended C3: two different addresses, against the module that
reports the first of them. -/
theorem BT_BondPrivatelyWith_order_witness :
    ∃ r w2 w3,
      BT_BondPrivatelyWith 200000 "000666AB12CD" "000666AB34EF" module_reports_address =
        some (r, w2) ∧
      BT_BondPrivatelyWith 200000 "000666AB34EF" "000666AB12CD" module_reports_address =
        some (r, w3) ∧ w2.tx = w3.tx := by
  obtain ⟨rec_addr, w1, h, _, hz⟩ := module_reports_address_line
  exact (BT_BondPrivatelyWith_order 200000 module_reports_address true rec_addr w1
    "000666AB12CD" "000666AB34EF" (by decide) h hz (by decide) (by decide)
    (by decide)).2.2.2

/-! ## Claims about the clock and the command buffer -/

/-- C17: with `now = (s + d) mod 2^32` for a true elapsed time `d < 2^32`, the
`unsigned long` difference `now - s` is `d`, also when the counter wrapped
between the two readings; so the test `delta_ms > timeout` is the test
`d > timeout`.  In each of the three loops, run at a clock `s + d` with the
start reading of clock `s`, the deadline branch is taken when `d` exceeds the
timeout, and the loop polls on when it does not (and no byte is there). -/
theorem elapsed_ms_wraparound (s d : Nat) (hd : d < ULONG_RANGE) :
    elapsed_ms ((s + d) % ULONG_RANGE) s = d ∧
    (∀ timeout, timeout < elapsed_ms ((s + d) % ULONG_RANGE) s ↔ timeout < d) ∧
    (∀ (w : World), w.clock = s + d → ∀ (timeout fuel : Nat),
      (∀ (pos : Nat) (dest : CharStr), pos < CharStr.n →
        (timeout < d →
          BT_ReceiveResponse_loop timeout (s % ULONG_RANGE) (fuel + 1) pos dest w =
            some (false, dest, BT_ERR_PRINTLN ": Error - timeout waiting for response"
              (BT_ERR_PRINT "BT_ReceiveResponse" w))) ∧
        (d ≤ timeout → Bluetooth_available w = false →
          BT_ReceiveResponse_loop timeout (s % ULONG_RANGE) (fuel + 1) pos dest w =
            BT_ReceiveResponse_loop timeout (s % ULONG_RANGE) fuel pos dest (spin w))) ∧
      (∀ (str : String) (x : Char) (rest : List Char),
        (timeout < d →
          BT_WaitUntil_loop str timeout (s % ULONG_RANGE) (fuel + 1) (x :: rest) w =
            some (false, BT_ERR_PRINTLN str
              (BT_ERR_PRINT "Error, timeout in bluetooth while waiting for " w))) ∧
        (d ≤ timeout → Bluetooth_available w = false →
          BT_WaitUntil_loop str timeout (s % ULONG_RANGE) (fuel + 1) (x :: rest) w =
            BT_WaitUntil_loop str timeout (s % ULONG_RANGE) fuel (x :: rest) (spin w))) ∧
      (∀ (count : Nat) (last : Char), Bluetooth_available w = false →
        (timeout < d →
          BT_FlushPrint_loop timeout (fuel + 1) (s % ULONG_RANGE) count last w =
            some (count, last, w)) ∧
        (d ≤ timeout →
          BT_FlushPrint_loop timeout (fuel + 1) (s % ULONG_RANGE) count last w =
            BT_FlushPrint_loop timeout fuel (s % ULONG_RANGE) count last (spin w)))) := by
  have h1 : elapsed_ms ((s + d) % ULONG_RANGE) s = d := by
    unfold elapsed_ms ULONG_RANGE at *
    omega
  refine ⟨h1, fun timeout => by rw [h1], ?_⟩
  intro w hc timeout fuel
  have hel : elapsed_ms (millis w) (s % ULONG_RANGE) = d := by
    rw [elapsed_ms_since s d w hc, Nat.mod_eq_of_lt hd]
  refine ⟨?_, ?_, ?_⟩
  · intro pos dest hp
    exact ⟨fun h => BT_ReceiveResponse_loop_timeout _ _ _ _ _ _ hp (by rw [hel]; exact h),
      fun h ha => BT_ReceiveResponse_loop_spin _ _ _ _ _ _ hp (by rw [hel]; exact h) ha⟩
  · intro str x rest
    exact ⟨fun h => BT_WaitUntil_loop_timeout _ _ _ _ _ _ _ (by rw [hel]; exact h),
      fun h ha => BT_WaitUntil_loop_spin _ _ _ _ _ _ _ (by rw [hel]; exact h) ha⟩
  · intro count last ha
    exact ⟨fun h => BT_FlushPrint_loop_break _ _ _ _ _ _ ha (by rw [hel]; exact h),
      fun h => BT_FlushPrint_loop_spin _ _ _ _ _ _ ha (by rw [hel]; exact h)⟩

/-- Witness of C17: the start reading is 5 ms before the counter wraps and 10 ms
have passed, so `now` reads 5 and the difference is still 10. -/
theorem elapsed_ms_wraparound_witness :
    (4294967291 + 10) % ULONG_RANGE = 5 ∧
    elapsed_ms ((4294967291 + 10) % ULONG_RANGE) 4294967291 = 10 :=
  ⟨by decide, (elapsed_ms_wraparound 4294967291 10 (by decide)).1⟩

/-- C18: the command `SR,<addr>` with its line feed has four characters more
than the address, and with its terminating zero it fits the 50 bytes of `buf`
exactly when the address has at most 45 characters. -/
theorem sprintf_SR_length (addr : String) :
    (sprintf_SR addr).length = addr.length + 4 ∧
    ((sprintf_SR addr).length + 1 ≤ BT_BondPrivatelyWith_buf_size ↔ addr.length ≤ 45) := by
  have h : (sprintf_SR addr).length = addr.length + 4 := by
    unfold sprintf_SR
    rw [String.length_append, String.length_append]
    have h1 : "SR,".length = 3 := by decide
    have h2 : "\n".length = 1 := by decide
    omega
  refine ⟨h, ?_⟩
  rw [h]
  unfold BT_BondPrivatelyWith_buf_size
  omega

/-! ## One line, one terminator -/

theorem BT_ReceiveResponse_loop_shape (timeout start : Nat) :
    ∀ (fuel pos : Nat) (dest : CharStr) (w : World) (buf : CharStr) (w1 : World),
      BT_ReceiveResponse_loop timeout start fuel pos dest w = some (true, buf, w1) →
      ∃ line t term, w.rx = line ++ (t, term) :: w1.rx ∧ (term = '\n' ∨ term = '\r') ∧
        ∀ p ∈ line, p.2 ≠ '\n' ∧ p.2 ≠ '\r' := by
  intro fuel
  induction fuel with
  | zero => intro pos dest w buf w1 h; simp [BT_ReceiveResponse_loop] at h
  | succ fuel ih =>
    intro pos dest w buf w1 h
    by_cases hp : CharStr.n ≤ pos
    · rw [BT_ReceiveResponse_loop_overflow _ _ _ _ _ _ hp] at h
      simp at h
    have hp1 : pos < CharStr.n := Nat.not_le.mp hp
    by_cases hd : timeout < elapsed_ms (millis w) start
    · rw [BT_ReceiveResponse_loop_timeout _ _ _ _ _ _ hp1 hd] at h
      simp at h
    have hd1 : elapsed_ms (millis w) start ≤ timeout := Nat.not_lt.mp hd
    by_cases ha : Bluetooth_available w = true
    · obtain ⟨t, c, rest, hrx⟩ := Bluetooth_available_rx ha
      have hrd := Bluetooth_read_cons hrx
      by_cases hc : (Bluetooth_read w).1 = '\n' ∨ (Bluetooth_read w).1 = '\r'
      · rw [BT_ReceiveResponse_loop_end _ _ _ _ _ _ hp1 hd1 ha hc, hrd] at h
        simp only [Option.some.injEq, Prod.mk.injEq, true_and] at h
        rw [hrd] at hc
        refine ⟨[], t, c, ?_, hc, by simp⟩
        rw [← h.2, BT_DBG_PRINTLN_rx, hrx]
        rfl
      · rw [BT_ReceiveResponse_loop_store _ _ _ _ _ _ hp1 hd1 ha hc, hrd] at h
        obtain ⟨line, t1, term, h1, h2, h3⟩ := ih _ _ _ buf w1 h
        rw [hrd] at hc
        simp only at h1 hc
        refine ⟨(t, c) :: line, t1, term, by rw [hrx, h1]; rfl, h2, ?_⟩
        intro p hp
        rcases List.mem_cons.mp hp with rfl | hp
        · exact ⟨fun e => hc (Or.inl e), fun e => hc (Or.inr e)⟩
        · exact h3 p hp
    · have ha0 : Bluetooth_available w = false := by simpa using ha
      rw [BT_ReceiveResponse_loop_spin _ _ _ _ _ _ hp1 hd1 ha0] at h
      exact ih pos dest (spin w) buf w1 h

theorem cstr_set_zero (data : List Char) : cstr (data.set 0 '\x00') = [] := by
  cases data with
  | nil => rfl
  | cons c cs => rfl

/-- C16: whenever `BT_ReceiveResponse` returns true it has read the bytes of a
line without line feed or carriage return and then one single terminator, and
every later byte is still in the stream.  So for a line ended by carriage return
and line feed, delivered within the timeout, the first call stops after the
carriage return, the line feed stays unread, and the next call returns true
with the empty string, having read only that line feed. -/
theorem BT_ReceiveResponse_one_terminator (fuel timeout : Nat) (dest dest2 : CharStr)
    (w : World) (line : List (Nat × Char)) (t t2 : Nat) (rest : List (Nat × Char))
    (ht : timeout < ULONG_RANGE)
    (hrx : w.rx = line ++ (t, '\r') :: (t2, '\n') :: rest) (hlen : line.length < CharStr.n)
    (hline : ∀ p ∈ line, p.2 ≠ '\n' ∧ p.2 ≠ '\r')
    (htime : ∀ p ∈ line ++ [(t, '\r'), (t2, '\n')], p.1 ≤ w.clock + timeout)
    (hf : CharStr.n + timeout + 1 ≤ fuel) :
    (∀ (fuel1 timeout1 : Nat) (dest1 buf : CharStr) (v v1 : World),
      BT_ReceiveResponse fuel1 dest1 timeout1 v = some (true, buf, v1) →
      ∃ read t1 term, v.rx = read ++ (t1, term) :: v1.rx ∧ (term = '\n' ∨ term = '\r') ∧
        ∀ p ∈ read, p.2 ≠ '\n' ∧ p.2 ≠ '\r') ∧
    ∃ buf1 w1 buf2 w2,
      BT_ReceiveResponse fuel dest timeout w = some (true, buf1, w1) ∧
      w1.rx = (t2, '\n') :: rest ∧
      BT_ReceiveResponse fuel dest2 timeout w1 = some (true, buf2, w2) ∧
      cstr buf2.data = [] ∧ w2.rx = rest := by
  constructor
  · intro fuel1 timeout1 dest1 buf v v1 h
    exact BT_ReceiveResponse_loop_shape timeout1 (millis v) fuel1 0 dest1 v buf v1 h
  · have h1 := BT_ReceiveResponse_line fuel timeout dest w line ((t2, '\n') :: rest) t '\r' ht hrx
      hlen
      (fun p hp => ⟨htime p (List.mem_append_left _ hp), by
        have := hline p hp
        simp [isTerminator, this.1, this.2]⟩)
      (by decide) (htime (t, '\r') (by simp)) hf
    have hc := le_arrive w.clock (line ++ [(t, '\r')])
    have h2 := BT_ReceiveResponse_line fuel timeout dest2
      (BT_DBG_PRINTLN
        (String.mk (cstr ((store dest.data 0 (line.map Prod.snd)).set line.length '\x00')))
        { w with rx := (t2, '\n') :: rest, clock := arrive w.clock (line ++ [(t, '\r')]) })
      [] rest t2 '\n' ht (by simp) (by decide) (by simp) (by decide)
      (by
        have := htime (t2, '\n') (by simp)
        simp only [BT_DBG_PRINTLN_clock]
        simp only at this
        omega) hf
    refine ⟨_, _, _, _, h1, by simp, h2, ?_, by simp⟩
    simp only [List.map_nil, List.length_nil, store]
    exact cstr_set_zero _

/-- Witness of C16: the line `OK` ended by carriage return and line feed. -/
theorem BT_ReceiveResponse_one_terminator_witness :
    ∃ buf1 w1 buf2 w2,
      BT_ReceiveResponse 5000 CharStr.new 4000
        ⟨10, [(12, 'O'), (15, 'K')] ++ (15, '\r') :: (16, '\n') :: [(40, 'x')], [], [], false⟩ =
          some (true, buf1, w1) ∧
      w1.rx = (16, '\n') :: [(40, 'x')] ∧
      BT_ReceiveResponse 5000 CharStr.new 4000 w1 = some (true, buf2, w2) ∧
      cstr buf2.data = [] ∧ w2.rx = [(40, 'x')] :=
  (BT_ReceiveResponse_one_terminator 5000 4000 CharStr.new CharStr.new
    ⟨10, [(12, 'O'), (15, 'K')] ++ (15, '\r') :: (16, '\n') :: [(40, 'x')], [], [], false⟩
    [(12, 'O'), (15, 'K')] 15 16 [(40, 'x')] (by decide) rfl (by decide) (by decide)
    (by decide) (by decide)).2

/-! ## Claims about `BT_FlushPrint` -/

theorem BT_DBG_PRINT_serial (s : String) (w : World) :
    (BT_DBG_PRINT s w).serial = w.serial ++ (if w.noverbose then [] else [(Chan.dbg, s)]) := by
  unfold BT_DBG_PRINT
  split <;> simp

@[simp] theorem BT_DBG_PRINT_noverbose (s : String) (w : World) :
    (BT_DBG_PRINT s w).noverbose = w.noverbose := by
  unfold BT_DBG_PRINT
  split <;> rfl

theorem Bluetooth_available_congr {w v : World} (h1 : v.rx = w.rx) (h2 : v.clock = w.clock) :
    Bluetooth_available v = Bluetooth_available w := by
  unfold Bluetooth_available
  rw [h1, h2]

theorem BT_FlushPrint_loop_drained (wait : Nat) :
    ∀ (fuel start count : Nat) (last : Char) (w : World) (r : Nat × Char × World),
      BT_FlushPrint_loop wait fuel start count last w = some r →
      ∃ consumed, w.rx = consumed ++ r.2.2.rx ∧ r.1 = count + consumed.length ∧
        r.2.1 = ((consumed.map Prod.snd).getLast?).getD last ∧
        r.2.2.serial = w.serial ++ echoes w.noverbose consumed ∧
        r.2.2.noverbose = w.noverbose ∧ r.2.2.tx = w.tx ∧
        Bluetooth_available r.2.2 = false := by
  intro fuel
  induction fuel with
  | zero => intro start count last w r h; simp [BT_FlushPrint_loop] at h
  | succ fuel ih =>
    intro start count last w r h
    by_cases ha : Bluetooth_available w = true
    · obtain ⟨t, c, rest, hrx⟩ := Bluetooth_available_rx ha
      have hrd := Bluetooth_read_cons hrx
      rw [BT_FlushPrint_loop_read _ _ _ _ _ _ ha, hrd] at h
      obtain ⟨consumed, h1, h2, h3, h4, h5, h6, h7⟩ := ih _ _ _ _ r h
      simp only [BT_DBG_PRINT_rx, BT_DBG_PRINT_noverbose, BT_DBG_PRINT_tx] at h1 h4 h5 h6
      rw [BT_DBG_PRINT_serial] at h4
      simp only at h4
      refine ⟨(t, c) :: consumed, by rw [hrx, h1]; rfl, ?_, ?_, ?_, h5, h6, h7⟩
      · rw [h2, List.length_cons]; omega
      · rw [h3, List.map_cons, List.getLast?_cons]
        rfl
      · rw [h4]
        unfold echoes
        cases w.noverbose <;> simp
    · have ha0 : Bluetooth_available w = false := by simpa using ha
      by_cases hd : wait < elapsed_ms (millis w) start
      · rw [BT_FlushPrint_loop_break _ _ _ _ _ _ ha0 hd] at h
        simp only [Option.some.injEq] at h
        subst h
        exact ⟨[], rfl, rfl, rfl, by simp [echoes], rfl, rfl, ha0⟩
      · rw [BT_FlushPrint_loop_spin _ _ _ _ _ _ ha0 (Nat.not_lt.mp hd)] at h
        obtain ⟨consumed, h1, h2, h3, h4, h5, h6, h7⟩ := ih _ _ _ _ r h
        exact ⟨consumed, h1, h2, h3, h4, h5, h6, h7⟩

theorem BT_FlushPrint_not_available (fuel wait : Nat) (w w2 : World)
    (h : BT_FlushPrint fuel wait w = some w2) : Bluetooth_available w2 = false := by
  unfold BT_FlushPrint at h
  split at h
  · simp at h
  · next count last w1 hl =>
    obtain ⟨_, _, _, _, _, _, _, h7⟩ := BT_FlushPrint_loop_drained wait fuel _ _ _ w _ hl
    split at h
    · simp only [Option.some.injEq] at h
      rw [← h, Bluetooth_available_congr (BT_DBG_PRINTLN_rx _ _) (BT_DBG_PRINTLN_clock _ _)]
      exact h7
    · simp only [Option.some.injEq] at h
      rw [← h]
      exact h7

theorem BT_FlushPrint_drained (fuel wait : Nat) (w : World) (hw : wait + 1 < ULONG_RANGE)
    (hf : (w.rx.length + 1) * (wait + 2) ≤ fuel) :
    ∃ consumed w1,
      w.rx = consumed ++ w1.rx ∧
      w1.serial = w.serial ++ echoes w.noverbose consumed ∧
      w1.noverbose = w.noverbose ∧
      BT_FlushPrint fuel wait w = some
        (if consumed ≠ [] ∧ (consumed.map Prod.snd).getLast? ≠ some '\n'
          then BT_DBG_PRINTLN "" w1 else w1) := by
  obtain ⟨r, hr, _⟩ := BT_FlushPrint_loop_total wait hw fuel (millis w) 0 '\x00' w (by
    have h2 : (w.rx.length + 1) * (wait + 2) = w.rx.length * (wait + 2) + (wait + 2) := by
      rw [Nat.add_mul, Nat.one_mul]
    split <;> omega)
  obtain ⟨consumed, h1, h2, h3, h4, h5, _, _⟩ :=
    BT_FlushPrint_loop_drained wait fuel _ _ _ w r hr
  obtain ⟨count, last, w1⟩ := r
  simp only at h1 h2 h3 h4 h5
  refine ⟨consumed, w1, h1, h4, h5, ?_⟩
  unfold BT_FlushPrint
  rw [hr]
  simp only
  have hiff : (count > 0 ∧ last ≠ '\n') ↔
      (consumed ≠ [] ∧ (consumed.map Prod.snd).getLast? ≠ some '\n') := by
    subst h2 h3
    cases consumed with
    | nil => simp
    | cons p ps =>
      simp only [List.map_cons, List.getLast?_cons, List.length_cons, Nat.zero_add]
      simp
  by_cases hc : consumed ≠ [] ∧ (consumed.map Prod.snd).getLast? ≠ some '\n'
  · rw [if_pos (hiff.mpr hc), if_pos hc]
  · rw [if_neg (fun h => hc (hiff.mp h)), if_neg hc]

theorem BT_FlushPrint_counted (fuel wait : Nat) (w : World) (hw : wait + 1 < ULONG_RANGE)
    (hf : (w.rx.length + 1) * (wait + 2) ≤ fuel) :
    ∃ consumed count last_char w1,
      BT_FlushPrint_loop wait fuel (millis w) 0 '\x00' w = some (count, last_char, w1) ∧
      count = consumed.length ∧
      ((count > 0 ∧ last_char ≠ '\n') ↔
        (consumed ≠ [] ∧ (consumed.map Prod.snd).getLast? ≠ some '\n')) ∧
      w.rx = consumed ++ w1.rx ∧
      w1.serial = w.serial ++ echoes w.noverbose consumed ∧
      w1.noverbose = w.noverbose ∧
      BT_FlushPrint fuel wait w = some
        (if consumed ≠ [] ∧ (consumed.map Prod.snd).getLast? ≠ some '\n'
          then BT_DBG_PRINTLN "" w1 else w1) := by
  obtain ⟨r, hr, _⟩ := BT_FlushPrint_loop_total wait hw fuel (millis w) 0 '\x00' w (by
    have h2 : (w.rx.length + 1) * (wait + 2) = w.rx.length * (wait + 2) + (wait + 2) := by
      rw [Nat.add_mul, Nat.one_mul]
    split <;> omega)
  obtain ⟨consumed, h1, h2, h3, h4, h5, _, _⟩ :=
    BT_FlushPrint_loop_drained wait fuel _ _ _ w r hr
  obtain ⟨count, last, w1⟩ := r
  simp only at h1 h2 h3 h4 h5
  have hiff : (count > 0 ∧ last ≠ '\n') ↔
      (consumed ≠ [] ∧ (consumed.map Prod.snd).getLast? ≠ some '\n') := by
    subst h2 h3
    cases consumed with
    | nil => simp
    | cons p ps =>
      simp only [List.map_cons, List.getLast?_cons, List.length_cons, Nat.zero_add]
      simp
  refine ⟨consumed, count, last, w1, hr, by omega, hiff, h1, h4, h5, ?_⟩
  unfold BT_FlushPrint
  rw [hr]
  simp only
  by_cases hc : consumed ≠ [] ∧ (consumed.map Prod.snd).getLast? ≠ some '\n'
  · rw [if_pos (hiff.mpr hc), if_pos hc]
  · rw [if_neg (fun h => hc (hiff.mp h)), if_neg hc]

/-- C11: `BT_FlushPrint` on a stream of at most `INT_MAX` bytes (so that
`int count` cannot overflow), with a quiet window below the largest
`unsigned long` and fuel for every byte and every quiet millisecond, returns
having read a front part `consumed` of the stream; its counter is the number of
bytes consumed and stays within `INT_MAX`, so the test `count > 0` of the source
is the test that a byte was consumed.  The flush ends with the trailing
`BT_DBG_PRINTLN()` exactly when it consumed at least one byte and the last byte
consumed was not a line feed.  On the serial port of a verbose build that is one
CR LF after the echoed bytes in that case and nothing otherwise (a build with
`BT_NOVERBOSE` silences the diagnostic sink as a whole, echo and newline alike).
Called with no byte pending for the whole quiet window it consumes nothing and
prints nothing. -/
theorem BT_FlushPrint_trailing_newline (fuel wait : Nat) (w : World)
    (hn : w.rx.length ≤ INT_MAX)
    (hw : wait + 1 < ULONG_RANGE) (hf : (w.rx.length + 1) * (wait + 2) ≤ fuel) :
    ∃ consumed count last_char w1 w2,
      BT_FlushPrint_loop wait fuel (millis w) 0 '\x00' w = some (count, last_char, w1) ∧
      count = consumed.length ∧ count ≤ INT_MAX ∧
      ((count > 0 ∧ last_char ≠ '\n') ↔
        (consumed ≠ [] ∧ (consumed.map Prod.snd).getLast? ≠ some '\n')) ∧
      BT_FlushPrint fuel wait w = some w2 ∧ w.rx = consumed ++ w2.rx ∧
      w1.serial = w.serial ++ echoes w.noverbose consumed ∧
      w2 = (if consumed ≠ [] ∧ (consumed.map Prod.snd).getLast? ≠ some '\n'
        then BT_DBG_PRINTLN "" w1 else w1) ∧
      (w.noverbose = false →
        (w2.serial = w1.serial ++ [(Chan.dbg, "\r\n")] ↔
          (consumed ≠ [] ∧ (consumed.map Prod.snd).getLast? ≠ some '\n')) ∧
        (¬ (consumed ≠ [] ∧ (consumed.map Prod.snd).getLast? ≠ some '\n') →
          w2.serial = w1.serial)) ∧
      (w.noverbose = true → w2.serial = w.serial) ∧
      (notBefore (w.clock + wait + 2) w.rx = true → consumed = [] ∧ w2.serial = w.serial) := by
  obtain ⟨consumed, count, last_char, w1, hloop, hcount, hiff, h1, h2, h3, h4⟩ :=
    BT_FlushPrint_counted fuel wait w hw hf
  have hrx : (if consumed ≠ [] ∧ (consumed.map Prod.snd).getLast? ≠ some '\n'
      then BT_DBG_PRINTLN "" w1 else w1).rx = w1.rx := by
    split <;> simp
  have hmax : count ≤ INT_MAX := by
    have hl := congrArg List.length h1
    rw [List.length_append] at hl
    omega
  refine ⟨consumed, count, last_char, w1, _, hloop, hcount, hmax, hiff, h4,
    by rw [hrx]; exact h1, h2, rfl, ?_, ?_, ?_⟩
  · intro hv
    have hv1 : w1.noverbose = false := by rw [h3, hv]
    by_cases hc : consumed ≠ [] ∧ (consumed.map Prod.snd).getLast? ≠ some '\n'
    · rw [if_pos hc]
      have : (BT_DBG_PRINTLN "" w1).serial = w1.serial ++ [(Chan.dbg, "\r\n")] := by
        unfold BT_DBG_PRINTLN
        rw [BT_DBG_PRINT_serial, hv1]
        rfl
      exact ⟨⟨fun _ => hc, fun _ => this⟩, fun h => absurd hc h⟩
    · rw [if_neg hc]
      refine ⟨⟨fun h => ?_, fun h => absurd h hc⟩, fun _ => rfl⟩
      have := congrArg List.length h
      simp at this
  · intro hv
    have hv1 : w1.noverbose = true := by rw [h3, hv]
    have hs : w1.serial = w.serial := by rw [h2, hv]; simp [echoes]
    split
    · unfold BT_DBG_PRINTLN
      rw [BT_DBG_PRINT_serial, hv1, hs]
      simp
    · exact hs
  · intro hq
    have hfuel : wait + 2 ≤ fuel := by
      have : (w.rx.length + 1) * (wait + 2) = w.rx.length * (wait + 2) + (wait + 2) := by
        rw [Nat.add_mul, Nat.one_mul]
      omega
    have hquiet := BT_FlushPrint_quiet fuel wait w hw hq hfuel
    rw [h4] at hquiet
    simp only [Option.some.injEq] at hquiet
    have hrx2 := congrArg World.rx hquiet
    rw [hrx, delay_rx] at hrx2
    have hnil : consumed = [] := by
      rw [hrx2] at h1
      exact List.self_eq_append_left.mp h1
    refine ⟨hnil, ?_⟩
    rw [hquiet]
    rfl

/-- Witness of C11: the bytes `OK` are pending, the build is verbose; the flush
echoes them and ends with one CR LF. -/
theorem BT_FlushPrint_trailing_newline_witness :
    (∃ consumed count last_char w1 w2,
      BT_FlushPrint_loop 3 100 (millis ⟨0, [(0, 'O'), (0, 'K')], [], [], false⟩) 0 '\x00'
        ⟨0, [(0, 'O'), (0, 'K')], [], [], false⟩ = some (count, last_char, w1) ∧
      count = consumed.length ∧ count ≤ INT_MAX ∧
      ((count > 0 ∧ last_char ≠ '\n') ↔
        (consumed ≠ [] ∧ (consumed.map Prod.snd).getLast? ≠ some '\n')) ∧
      BT_FlushPrint 100 3 ⟨0, [(0, 'O'), (0, 'K')], [], [], false⟩ = some w2 ∧
      [((0 : Nat), 'O'), (0, 'K')] = consumed ++ w2.rx ∧
      w1.serial = [] ++ echoes false consumed ∧
      w2 = (if consumed ≠ [] ∧ (consumed.map Prod.snd).getLast? ≠ some '\n'
        then BT_DBG_PRINTLN "" w1 else w1) ∧
      (false = false →
        (w2.serial = w1.serial ++ [(Chan.dbg, "\r\n")] ↔
          (consumed ≠ [] ∧ (consumed.map Prod.snd).getLast? ≠ some '\n')) ∧
        (¬ (consumed ≠ [] ∧ (consumed.map Prod.snd).getLast? ≠ some '\n') →
          w2.serial = w1.serial)) ∧
      (false = true → w2.serial = []) ∧
      (notBefore (0 + 3 + 2) [((0 : Nat), 'O'), (0, 'K')] = true →
        consumed = [] ∧ w2.serial = [])) ∧
    BT_FlushPrint_loop 3 100 0 0 '\x00' ⟨0, [(0, 'O'), (0, 'K')], [], [], false⟩ =
      some (2, 'K', ⟨4, [], [], [(Chan.dbg, "O"), (Chan.dbg, "K")], false⟩) ∧
    BT_FlushPrint 100 3 ⟨0, [(0, 'O'), (0, 'K')], [], [], false⟩ =
      some ⟨4, [], [], [(Chan.dbg, "O"), (Chan.dbg, "K"), (Chan.dbg, "\r\n")], false⟩ ∧
    BT_FlushPrint 100 3 ⟨0, [(0, 'O'), (0, '\n')], [], [], false⟩ =
      some ⟨4, [], [], [(Chan.dbg, "O"), (Chan.dbg, "\n")], false⟩ ∧
    BT_FlushPrint 100 3 ⟨0, [], [], [], false⟩ = some ⟨4, [], [], [], false⟩ :=
  ⟨BT_FlushPrint_trailing_newline 100 3 ⟨0, [(0, 'O'), (0, 'K')], [], [], false⟩ (by decide)
    (by decide) (by decide), by decide, by decide, by decide, by decide⟩

/-! ## The end of `BT_WaitUntil` -/

theorem BT_WaitUntil_loop_gave_up (str : String) (time start : Nat) :
    ∀ (fuel : Nat) (it : List Char) (w w1 : World),
      BT_WaitUntil_loop str time start fuel it w = some (false, w1) →
      ∃ w0, w1 = BT_ERR_PRINTLN str
          (BT_ERR_PRINT "Error, timeout in bluetooth while waiting for " w0) ∧
        time < elapsed_ms (millis w0) start := by
  intro fuel
  induction fuel with
  | zero =>
    intro it w w1 h
    cases it with
    | nil => rw [BT_WaitUntil_loop_done] at h; simp at h
    | cons x r => simp [BT_WaitUntil_loop] at h
  | succ fuel ih =>
    intro it w w1 h
    cases it with
    | nil => rw [BT_WaitUntil_loop_done] at h; simp at h
    | cons x r =>
      by_cases hd : time < elapsed_ms (millis w) start
      · rw [BT_WaitUntil_loop_timeout _ _ _ _ _ _ _ hd] at h
        simp only [Option.some.injEq, Prod.mk.injEq, true_and] at h
        exact ⟨w, h.symm, hd⟩
      have hd1 : elapsed_ms (millis w) start ≤ time := Nat.not_lt.mp hd
      by_cases ha : Bluetooth_available w = true
      · by_cases hc : (Bluetooth_read w).1 = x
        · rw [BT_WaitUntil_loop_hit _ _ _ _ _ _ _ hd1 ha hc] at h
          exact ih _ _ w1 h
        · rw [BT_WaitUntil_loop_miss _ _ _ _ _ _ _ hd1 ha hc] at h
          exact ih _ _ w1 h
      · have ha0 : Bluetooth_available w = false := by simpa using ha
        rw [BT_WaitUntil_loop_spin _ _ _ _ _ _ _ hd1 ha0] at h
        exact ih _ _ w1 h

/-- Counterexample to C13 as stated: the token `AOK` with a deadline of 5 ms and a
stream whose only byte arrives at 6 ms.  The wait ends on the timeout path at
6 ms and returns at once: the byte is there and unread in the world it returns,
which no flush can leave behind, since a flush only ends when nothing is
available. -/
theorem BT_WaitUntil_flush_counterexample :
    BT_WaitUntil 100 "AOK" 5 ⟨0, [(6, 'x')], [], [], false⟩ =
      some ⟨6, [(6, 'x')], [],
        [(Chan.err, "Error, timeout in bluetooth while waiting for "), (Chan.err, "AOK\r\n")],
        false⟩ ∧
    Bluetooth_available ⟨6, [(6, 'x')], [],
        [(Chan.err, "Error, timeout in bluetooth while waiting for "), (Chan.err, "AOK\r\n")],
        false⟩ = true ∧
    ∀ (fuel wait : Nat) (w0 : World), BT_FlushPrint fuel wait w0 ≠
      some ⟨6, [(6, 'x')], [],
        [(Chan.err, "Error, timeout in bluetooth while waiting for "), (Chan.err, "AOK\r\n")],
        false⟩ := by
  refine ⟨by decide, by decide, ?_⟩
  intro fuel wait w0 h
  have := BT_FlushPrint_not_available fuel wait w0 _ h
  revert this
  decide

/-- C13, amended: for every token, every timeout below the largest
`unsigned long` (a larger one never fires) and every stream, `BT_WaitUntil`
returns, given fuel for every byte, for the deadline and for the quiet window.
It ends with the quiet-period flush (`BT_FlushPrint` with its default window of
200 ms) on the matched path only, after which nothing is available on the
stream.  On the timeout path it prints the timeout on the error channel and
returns the world as it is at that moment, without a flush. -/
theorem BT_WaitUntil_flush_on_match (fuel : Nat) (str : String) (time_ms : Nat) (w : World)
    (ht : time_ms + 1 < ULONG_RANGE) (hf : (w.rx.length + 1) * 202 + time_ms + 2 ≤ fuel) :
    ∃ matched w1,
      BT_WaitUntil_loop str time_ms (millis w) fuel str.toList w = some (matched, w1) ∧
      (matched = true → ∃ w2, BT_FlushPrint fuel 200 (BT_DBG_PRINT str w1) = some w2 ∧
        BT_WaitUntil fuel str time_ms w = some w2 ∧ Bluetooth_available w2 = false) ∧
      (matched = false → BT_WaitUntil fuel str time_ms w = some w1 ∧
        ∃ w0, w1 = BT_ERR_PRINTLN str
            (BT_ERR_PRINT "Error, timeout in bluetooth while waiting for " w0) ∧
          time_ms < elapsed_ms (millis w0) (millis w)) := by
  have hmul : (w.rx.length + 1) * 202 = w.rx.length * 202 + 202 := by
    rw [Nat.add_mul, Nat.one_mul]
  obtain ⟨r, hr, he⟩ := BT_WaitUntil_loop_total str time_ms (millis w) ht fuel str.toList w (by
    rw [elapsed_ms_self]
    omega)
  obtain ⟨matched, w1⟩ := r
  refine ⟨matched, w1, hr, ?_, ?_⟩
  · intro hm
    subst hm
    have hlen : (BT_DBG_PRINT str w1).rx.length ≤ w.rx.length := by
      rw [BT_DBG_PRINT_rx]
      exact he.rx_suffix.length_le
    have hmul1 : ((BT_DBG_PRINT str w1).rx.length + 1) * (200 + 2) =
        (BT_DBG_PRINT str w1).rx.length * 202 + 202 := by
      rw [Nat.add_mul, Nat.one_mul]
    have hmono : (BT_DBG_PRINT str w1).rx.length * 202 ≤ w.rx.length * 202 :=
      Nat.mul_le_mul_right _ hlen
    obtain ⟨_, _, _, _, _, _, _, _, _, _, h2⟩ := BT_FlushPrint_counted fuel 200
      (BT_DBG_PRINT str w1) (by unfold ULONG_RANGE; omega) (by omega)
    refine ⟨_, h2, ?_, BT_FlushPrint_not_available _ _ _ _ h2⟩
    unfold BT_WaitUntil
    rw [hr]
    exact h2
  · intro hm
    subst hm
    refine ⟨?_, BT_WaitUntil_loop_gave_up str time_ms (millis w) fuel str.toList w w1 hr⟩
    unfold BT_WaitUntil
    rw [hr]

/-- Witness of the amended C13, on both paths.  The token `AOK` arrives within a
deadline of 1000 ms, followed by a carriage return and a line feed: the wait
ends on the matched path after the `K` and the flush that follows leaves nothing
available.  And the run of the counterexample: the wait gives up at 6 ms and
returns without a flush. -/
theorem BT_WaitUntil_flush_on_match_witness :
    (∃ w1 w2,
      BT_WaitUntil_loop "AOK" 1000
          (millis ⟨0, [(0, 'A'), (1, 'O'), (2, 'K'), (2, '\r'), (2, '\n')], [], [], false⟩) 3000
          "AOK".toList ⟨0, [(0, 'A'), (1, 'O'), (2, 'K'), (2, '\r'), (2, '\n')], [], [], false⟩ =
        some (true, w1) ∧
      w1.rx = [(2, '\r'), (2, '\n')] ∧
      BT_FlushPrint 3000 200 (BT_DBG_PRINT "AOK" w1) = some w2 ∧
      BT_WaitUntil 3000 "AOK" 1000
        ⟨0, [(0, 'A'), (1, 'O'), (2, 'K'), (2, '\r'), (2, '\n')], [], [], false⟩ = some w2 ∧
      Bluetooth_available w2 = false) ∧
    (∃ matched w1,
      BT_WaitUntil_loop "AOK" 5 (millis ⟨0, [(6, 'x')], [], [], false⟩) 20000 "AOK".toList
        ⟨0, [(6, 'x')], [], [], false⟩ = some (matched, w1) ∧
      (matched = true → ∃ w2, BT_FlushPrint 20000 200 (BT_DBG_PRINT "AOK" w1) = some w2 ∧
        BT_WaitUntil 20000 "AOK" 5 ⟨0, [(6, 'x')], [], [], false⟩ = some w2 ∧
        Bluetooth_available w2 = false) ∧
      (matched = false → BT_WaitUntil 20000 "AOK" 5 ⟨0, [(6, 'x')], [], [], false⟩ = some w1 ∧
        ∃ w0, w1 = BT_ERR_PRINTLN "AOK"
            (BT_ERR_PRINT "Error, timeout in bluetooth while waiting for " w0) ∧
          5 < elapsed_ms (millis w0) (millis ⟨0, [(6, 'x')], [], [], false⟩))) := by
  constructor
  · obtain ⟨matched, w1, hl, hm, _⟩ := BT_WaitUntil_flush_on_match 3000 "AOK" 1000
      ⟨0, [(0, 'A'), (1, 'O'), (2, 'K'), (2, '\r'), (2, '\n')], [], [], false⟩ (by decide)
      (by decide)
    have hev : BT_WaitUntil_loop "AOK" 1000
        (millis ⟨0, [(0, 'A'), (1, 'O'), (2, 'K'), (2, '\r'), (2, '\n')], [], [], false⟩) 3000
        "AOK".toList ⟨0, [(0, 'A'), (1, 'O'), (2, 'K'), (2, '\r'), (2, '\n')], [], [], false⟩ =
        some (true, ⟨2, [(2, '\r'), (2, '\n')], [], [], false⟩) := by decide
    rw [hev] at hl
    simp only [Option.some.injEq, Prod.mk.injEq] at hl
    obtain ⟨hm1, hw1⟩ := hl
    obtain ⟨w2, h2, h3, h4⟩ := hm hm1.symm
    exact ⟨w1, w2, by rw [hev, hw1], by rw [← hw1], h2, h3, h4⟩
  · exact BT_WaitUntil_flush_on_match 20000 "AOK" 5 ⟨0, [(6, 'x')], [], [], false⟩ (by decide)
      (by decide)

/-! ## The mismatch report and `BT_NOVERBOSE` -/

theorem BT_DBG_PRINT_silent (s : String) (w : World) (h : w.noverbose = true) :
    BT_DBG_PRINT s w = w := by
  unfold BT_DBG_PRINT
  rw [if_pos h]

theorem BT_BondPrivatelyWith_report_silent (rec_addr : CharStr) (a b : String) (w : World)
    (h : w.noverbose = true) : BT_BondPrivatelyWith_report rec_addr a b w = w := by
  unfold BT_BondPrivatelyWith_report BT_DBG_PRINTLN
  simp only [BT_DBG_PRINT_silent _ w h]

theorem BT_DBG_PRINT_err (s : String) (w : World) :
    (BT_DBG_PRINT s w).serial.filter (fun e => decide (e.1 = Chan.err)) =
      w.serial.filter (fun e => decide (e.1 = Chan.err)) := by
  rw [BT_DBG_PRINT_serial]
  cases w.noverbose <;> simp

theorem BT_BondPrivatelyWith_report_err (rec_addr : CharStr) (a b : String) (w : World) :
    (BT_BondPrivatelyWith_report rec_addr a b w).serial.filter
        (fun e => decide (e.1 = Chan.err)) =
      w.serial.filter (fun e => decide (e.1 = Chan.err)) := by
  unfold BT_BondPrivatelyWith_report BT_DBG_PRINTLN
  simp only [BT_DBG_PRINT_err]

/-- C12, the code at the failing input: a build with `BT_NOVERBOSE` against a
module that reports `000666AB12CD`, called with two candidates that are not that
address.  The call returns false and the mismatch branch leaves the world as it
found it: nothing is written to the serial port for the mismatch.  In general
the report goes through `BT_DBG_PRINT` only, so a build with `BT_NOVERBOSE`
drops it, and in no build does it add anything to the error channel. -/
theorem BT_BondPrivatelyWith_mismatch_silenced :
    (module_reports_address.noverbose = true ∧
      ∃ rec_addr w1,
        BT_BondPrivatelyWith_address 200000 module_reports_address = some (true, rec_addr, w1) ∧
        stricmp (cstr rec_addr.data) "000666AB12CE".toList ≠ 0 ∧
        stricmp (cstr rec_addr.data) "000666AB34EF".toList ≠ 0 ∧
        BT_BondPrivatelyWith 200000 "000666AB12CE" "000666AB34EF" module_reports_address =
          some (false, w1)) ∧
    (∀ (rec_addr : CharStr) (a b : String) (w : World), w.noverbose = true →
      BT_BondPrivatelyWith_report rec_addr a b w = w) ∧
    (∀ (rec_addr : CharStr) (a b : String) (w : World),
      (BT_BondPrivatelyWith_report rec_addr a b w).serial.filter
          (fun e => decide (e.1 = Chan.err)) =
        w.serial.filter (fun e => decide (e.1 = Chan.err))) := by
  refine ⟨⟨rfl, ?_⟩, BT_BondPrivatelyWith_report_silent, BT_BondPrivatelyWith_report_err⟩
  obtain ⟨rec_addr, w1, h, hc⟩ := module_reports_address_read
  have ha : stricmp (cstr rec_addr.data) "000666AB12CE".toList ≠ 0 := by rw [hc]; decide
  have hb : stricmp (cstr rec_addr.data) "000666AB34EF".toList ≠ 0 := by rw [hc]; decide
  have hnv : w1.noverbose = true :=
    (BT_BondPrivatelyWith_address_emits 200000 module_reports_address true rec_addr w1
      (by decide) h).noverbose_eq
  obtain ⟨h2, _⟩ := BT_BondPrivatelyWith_neither 200000 module_reports_address true rec_addr w1
    "000666AB12CE" "000666AB34EF" (by decide) h (fun e => ha e.symm) (fun e => hb e.symm)
  rw [BT_BondPrivatelyWith_report_silent _ _ _ _ hnv] at h2
  exact ⟨rec_addr, w1, h, ha, hb, h2⟩

/-! ## The buffer of `BT_ReceiveResponse` -/

theorem BT_ReceiveResponse_loop_iteration (timeout start fuel pos : Nat) (dest : CharStr)
    (w : World) :
    BT_ReceiveResponse_loop timeout start (fuel + 1) pos dest w =
      match (BT_ReceiveResponse_iteration timeout start ⟨pos, dest, w⟩).2 with
      | Sum.inl r => some r
      | Sum.inr s1 => BT_ReceiveResponse_loop timeout start fuel s1.pos s1.dest s1.w := by
  unfold BT_ReceiveResponse_iteration
  by_cases hp : CharStr.n ≤ pos
  · rw [BT_ReceiveResponse_loop_overflow _ _ _ _ _ _ hp]
    simp [hp]
  have hp1 : pos < CharStr.n := Nat.not_le.mp hp
  by_cases hd : timeout < elapsed_ms (millis w) start
  · rw [BT_ReceiveResponse_loop_timeout _ _ _ _ _ _ hp1 hd]
    simp [hp, hd]
  have hd1 : elapsed_ms (millis w) start ≤ timeout := Nat.not_lt.mp hd
  by_cases ha : Bluetooth_available w = true
  · by_cases hc : (Bluetooth_read w).1 = '\n' ∨ (Bluetooth_read w).1 = '\r'
    · rw [BT_ReceiveResponse_loop_end _ _ _ _ _ _ hp1 hd1 ha hc]
      simp [hp, hd, ha, hc]
    · rw [BT_ReceiveResponse_loop_store _ _ _ _ _ _ hp1 hd1 ha hc]
      simp [hp, hd, ha, hc]
  · have ha0 : Bluetooth_available w = false := by simpa using ha
    rw [BT_ReceiveResponse_loop_spin _ _ _ _ _ _ hp1 hd1 ha0]
    simp [hp, hd, ha0]

theorem BT_ReceiveResponse_loop_head (timeout start : Nat) :
    ∀ (k : Nat) (s0 s : ReceiveState) (fuel : Nat),
      BT_ReceiveResponse_head timeout start k s0 = some s →
      BT_ReceiveResponse_loop timeout start (fuel + k) s0.pos s0.dest s0.w =
        BT_ReceiveResponse_loop timeout start fuel s.pos s.dest s.w := by
  intro k
  induction k with
  | zero =>
    intro s0 s fuel h
    simp only [BT_ReceiveResponse_head, Option.some.injEq] at h
    subst h
    rfl
  | succ k ih =>
    intro s0 s fuel h
    rw [← Nat.add_assoc, BT_ReceiveResponse_loop_iteration]
    simp only [BT_ReceiveResponse_head] at h
    cases hi : (BT_ReceiveResponse_iteration timeout start s0).2 with
    | inl r => rw [hi] at h; simp at h
    | inr s1 =>
      rw [hi] at h
      simp only at h ⊢
      exact ih s1 s fuel h

theorem BT_ReceiveResponse_iteration_inv (timeout start : Nat) (data0 : List Char)
    (s s1 : ReceiveState)
    (hinv : s.pos ≤ CharStr.n ∧ s.dest.data.length = CharStr.n ∧
      ∀ i, s.pos ≤ i → s.dest.data[i]? = data0[i]?)
    (h : (BT_ReceiveResponse_iteration timeout start s).2 = Sum.inr s1) :
    s1.pos ≤ CharStr.n ∧ s1.dest.data.length = CharStr.n ∧
      ∀ i, s1.pos ≤ i → s1.dest.data[i]? = data0[i]? := by
  obtain ⟨h1, h2, h3⟩ := hinv
  unfold BT_ReceiveResponse_iteration at h
  split at h
  · simp at h
  · next hp =>
    simp only at h
    split at h
    · simp at h
    · split at h
      · simp only [Sum.inr.injEq] at h
        subst h
        exact ⟨h1, h2, h3⟩
      · split at h
        · simp at h
        · simp only [Sum.inr.injEq] at h
          subst h
          refine ⟨by simp only; omega, by simp only [List.length_set]; exact h2, ?_⟩
          intro i hi
          simp only at hi ⊢
          rw [List.getElem?_set_ne (by omega)]
          exact h3 i (by omega)

theorem BT_ReceiveResponse_head_inv (timeout start : Nat) (data0 : List Char) :
    ∀ (k : Nat) (s0 s : ReceiveState),
      (s0.pos ≤ CharStr.n ∧ s0.dest.data.length = CharStr.n ∧
        ∀ i, s0.pos ≤ i → s0.dest.data[i]? = data0[i]?) →
      BT_ReceiveResponse_head timeout start k s0 = some s →
      s.pos ≤ CharStr.n ∧ s.dest.data.length = CharStr.n ∧
        ∀ i, s.pos ≤ i → s.dest.data[i]? = data0[i]? := by
  intro k
  induction k with
  | zero =>
    intro s0 s hinv h
    simp only [BT_ReceiveResponse_head, Option.some.injEq] at h
    subst h
    exact hinv
  | succ k ih =>
    intro s0 s hinv h
    simp only [BT_ReceiveResponse_head] at h
    cases hi : (BT_ReceiveResponse_iteration timeout start s0).2 with
    | inl r => rw [hi] at h; simp at h
    | inr s1 =>
      rw [hi] at h
      exact ih s1 s (BT_ReceiveResponse_iteration_inv timeout start data0 s0 s1 hinv hi) h

theorem BT_ReceiveResponse_iteration_write (timeout start : Nat) (s : ReceiveState) (idx : Nat)
    (h : (BT_ReceiveResponse_iteration timeout start s).1 = some idx) :
    idx = s.pos ∧ idx < CharStr.n := by
  unfold BT_ReceiveResponse_iteration at h
  split at h
  · simp at h
  · next hp =>
    simp only at h
    split at h
    · simp at h
    · split at h
      · simp at h
      · split at h <;>
        · simp only [Option.some.injEq] at h
          exact ⟨h.symm, by omega⟩

/-- C14: at the head of every iteration of the loop of `BT_ReceiveResponse`,
started at position 0 on a buffer of 50 bytes, the write position is at most
50, the buffer still has its 50 bytes, and the bytes at indices at or beyond the
position are those the caller passed in.  A write made in the iteration (a data
byte or the terminating zero) goes to the index `pos`, which is below 50 then.
The states meant are those of the run of the function itself: running it for
`k` iterations more than from the state `s` gives the same result. -/
theorem BT_ReceiveResponse_bounds (timeout_ms k : Nat) (dest : CharStr) (w : World)
    (s : ReceiveState) (hdest : dest.data.length = CharStr.n)
    (hs : BT_ReceiveResponse_head timeout_ms (millis w) k ⟨0, dest, w⟩ = some s) :
    s.pos ≤ 50 ∧ s.dest.data.length = 50 ∧
    (∀ i, s.pos ≤ i → s.dest.data[i]? = dest.data[i]?) ∧
    (∀ idx, (BT_ReceiveResponse_iteration timeout_ms (millis w) s).1 = some idx →
      idx = s.pos ∧ idx < 50) ∧
    (∀ fuel, BT_ReceiveResponse (fuel + k) dest timeout_ms w =
      BT_ReceiveResponse_loop timeout_ms (millis w) fuel s.pos s.dest s.w) := by
  obtain ⟨h1, h2, h3⟩ := BT_ReceiveResponse_head_inv timeout_ms (millis w) dest.data k
    ⟨0, dest, w⟩ s ⟨Nat.zero_le _, hdest, fun _ _ => rfl⟩ hs
  exact ⟨h1, h2, h3, fun idx h => BT_ReceiveResponse_iteration_write _ _ s idx h,
    fun fuel => BT_ReceiveResponse_loop_head timeout_ms (millis w) k ⟨0, dest, w⟩ s fuel hs⟩

/-- Witness of C14: after two iterations on the stream `OK` and a line feed the
position is 2 and the bytes from index 2 on are still the zeros of the fresh
buffer. -/
theorem BT_ReceiveResponse_bounds_witness :
    (2 : Nat) ≤ 50 ∧ ('O' :: 'K' :: List.replicate 48 '\x00').length = 50 ∧
    (∀ i, 2 ≤ i →
      ('O' :: 'K' :: List.replicate 48 '\x00')[i]? = CharStr.new.data[i]?) ∧
    (∀ idx, (BT_ReceiveResponse_iteration 4000
        (millis ⟨0, [(0, 'O'), (0, 'K'), (0, '\n')], [], [], false⟩)
        ⟨2, ⟨'O' :: 'K' :: List.replicate 48 '\x00'⟩,
          ⟨0, [(0, '\n')], [], [], false⟩⟩).1 = some idx → idx = 2 ∧ idx < 50) ∧
    (∀ fuel, BT_ReceiveResponse (fuel + 2) CharStr.new 4000
        ⟨0, [(0, 'O'), (0, 'K'), (0, '\n')], [], [], false⟩ =
      BT_ReceiveResponse_loop 4000
        (millis ⟨0, [(0, 'O'), (0, 'K'), (0, '\n')], [], [], false⟩) fuel 2
        ⟨'O' :: 'K' :: List.replicate 48 '\x00'⟩ ⟨0, [(0, '\n')], [], [], false⟩) :=
  BT_ReceiveResponse_bounds 4000 2 CharStr.new
    ⟨0, [(0, 'O'), (0, 'K'), (0, '\n')], [], [], false⟩
    ⟨2, ⟨'O' :: 'K' :: List.replicate 48 '\x00'⟩, ⟨0, [(0, '\n')], [], [], false⟩⟩
    (by decide) (by rfl)

/-! ## The exchanges of the driver and their deadlines -/

theorem BT_IsConnected_query_eq (fuel : Nat) (w : World) :
    BT_IsConnected_query fuel w = exec_all fuel BT_IsConnected_before w := by
  simp [BT_IsConnected_query, BT_IsConnected_before, exec_all, Stmt.exec]

theorem BT_IsConnected_eq (fuel : Nat) (w : World) :
    BT_IsConnected fuel w =
      (exec_all fuel BT_IsConnected_before w).bind fun w2 =>
      (BT_ReceiveResponse fuel CharStr.new 4000 w2).bind fun r =>
      (exec_all fuel BT_IsConnected_after r.2.2).bind fun w4 =>
      some (decide (0 = stricmp (cstr r.2.1.data) "1,0,0".toList), w4) := by
  rw [← BT_IsConnected_query_eq]
  simp [BT_IsConnected, BT_IsConnected_after, exec_all, Stmt.exec]

theorem BT_EnterCmdModeAndPrintSettingsAndExit_eq (fuel : Nat) (w : World) :
    BT_EnterCmdModeAndPrintSettingsAndExit fuel w =
      exec_all fuel BT_EnterCmdModeAndPrintSettingsAndExit_body w := by
  simp [BT_EnterCmdModeAndPrintSettingsAndExit, BT_EnterCmdModeAndPrintSettingsAndExit_body,
    exec_all, Stmt.exec]

theorem BT_BondPrivatelyWith_address_eq (fuel : Nat) (w : World) :
    BT_BondPrivatelyWith_address fuel w =
      (exec_all fuel BT_BondPrivatelyWith_before w).bind fun w5 =>
      BT_ReceiveResponse fuel CharStr.new 4000 w5 := by
  simp [BT_BondPrivatelyWith_address, BT_BondPrivatelyWith_before, exec_all, Stmt.exec,
    BT_Setup, Option.bind_assoc]

theorem BT_BondPrivatelyWith_pair_eq (fuel : Nat) (addr : String) (w : World) :
    BT_BondPrivatelyWith_pair fuel addr w =
      (exec_all fuel (BT_BondPrivatelyWith_after addr) w).bind fun w9 => some (true, w9) := by
  simp [BT_BondPrivatelyWith_pair, BT_BondPrivatelyWith_after, exec_all, Stmt.exec,
    Option.bind_assoc]

theorem driver_exchanges_eq (addr : String) :
    driver_exchanges addr =
      [("$$$", "CMD", 1000), ("---\n", "END", 4000),
        ("$$$", "CMD", 1000), ("---\n", "END", 1000),
        ("$$$", "CMD", 1000), ("SF,1\n", "AOK", 5000), ("SA,4\n", "AOK", 4000),
        ("SE,1\n", "AOK", 4000),
        (sprintf_SR addr, "AOK", 4000), ("SM,6\n", "AOK", 4000), ("SP,c0de\n", "AOK", 4000),
        ("R,1\n", "Reboot!", 6000), ("$$$", "CMD", 2000), ("---\n", "END", 4000)] := by
  rfl

theorem follows_table_of_row (addr : String) (e : String × String × Nat)
    (row : String × String × Nat × Nat) (hrow : row ∈ wire_protocol addr)
    (hcmd : row.1 = e.1) (hresp : row.2.1 = e.2.1) (hlo : row.2.2.1 ≤ e.2.2)
    (hhi : e.2.2 ≤ row.2.2.2) : follows_table addr e = true := by
  unfold follows_table
  rw [List.any_eq_true]
  exact ⟨row, hrow, by simp [hcmd, hresp, hlo, hhi]⟩

theorem driver_exchanges_follow (addr : String) (e : String × String × Nat)
    (he : e ∈ driver_exchanges addr) :
    follows_table addr e = true ∨ e = ("$$$", "CMD", 2000) ∨ e = ("---\n", "END", 4000) := by
  rw [driver_exchanges_eq] at he
  simp only [List.mem_cons, List.mem_singleton, List.not_mem_nil, or_false] at he
  rcases he with h | h | h | h | h | h | h | h | h | h | h | h | h | h
  · subst h
    exact Or.inl (follows_table_of_row addr _ ("$$$", "CMD", 1000, 1000)
      (by simp [wire_protocol]) rfl rfl (by decide) (by decide))
  · exact Or.inr (Or.inr h)
  · subst h
    exact Or.inl (follows_table_of_row addr _ ("$$$", "CMD", 1000, 1000)
      (by simp [wire_protocol]) rfl rfl (by decide) (by decide))
  · subst h
    exact Or.inl (follows_table_of_row addr _ ("---\n", "END", 1000, 2000)
      (by simp [wire_protocol]) rfl rfl (by decide) (by decide))
  · subst h
    exact Or.inl (follows_table_of_row addr _ ("$$$", "CMD", 1000, 1000)
      (by simp [wire_protocol]) rfl rfl (by decide) (by decide))
  · subst h
    exact Or.inl (follows_table_of_row addr _ ("SF,1\n", "AOK", 5000, 5000)
      (by simp [wire_protocol]) rfl rfl (by decide) (by decide))
  · subst h
    exact Or.inl (follows_table_of_row addr _ ("SA,4\n", "AOK", 4000, 4000)
      (by simp [wire_protocol]) rfl rfl (by decide) (by decide))
  · subst h
    exact Or.inl (follows_table_of_row addr _ ("SE,1\n", "AOK", 4000, 4000)
      (by simp [wire_protocol]) rfl rfl (by decide) (by decide))
  · subst h
    exact Or.inl (follows_table_of_row addr _ (sprintf_SR addr, "AOK", 4000, 4000)
      (by simp [wire_protocol]) rfl rfl (Nat.le_refl _) (Nat.le_refl _))
  · subst h
    exact Or.inl (follows_table_of_row addr _ ("SM,6\n", "AOK", 4000, 4000)
      (by simp [wire_protocol]) rfl rfl (by decide) (by decide))
  · subst h
    exact Or.inl (follows_table_of_row addr _ ("SP,c0de\n", "AOK", 4000, 4000)
      (by simp [wire_protocol]) rfl rfl (by decide) (by decide))
  · subst h
    exact Or.inl (follows_table_of_row addr _ ("R,1\n", "Reboot!", 6000, 6000)
      (by simp [wire_protocol]) rfl rfl (by decide) (by decide))
  · exact Or.inr (Or.inl h)
  · exact Or.inr (Or.inr h)

/-- C15 (as written, refuted): the claim has every `$$$` exchange wait 1000 ms
for `CMD` and every `---\n` exchange wait at most 2000 ms for `END`.  With the
peer address `000666AB34EF`, not every exchange of the driver follows the
wire-protocol table: `BT_BondPrivatelyWith` sends its second `$$$` with a
deadline of 2000 ms, and `BT_IsConnected` and `BT_BondPrivatelyWith` send
`---\n` with the default deadline of 4000 ms. -/
theorem driver_exchanges_deadline_counterexample :
    ¬ (∀ e ∈ driver_exchanges "000666AB34EF", follows_table "000666AB34EF" e = true) ∧
    ("$$$", "CMD", 2000) ∈ exchanges (BT_BondPrivatelyWith_after "000666AB34EF") ∧
    follows_table "000666AB34EF" ("$$$", "CMD", 2000) = false ∧
    ("---\n", "END", 4000) ∈ exchanges BT_IsConnected_after ∧
    ("---\n", "END", 4000) ∈ exchanges (BT_BondPrivatelyWith_after "000666AB34EF") ∧
    follows_table "000666AB34EF" ("---\n", "END", 4000) = false := by
  refine ⟨?_, by decide, by decide, by decide, by decide, by decide⟩
  intro h
  have h1 := h ("$$$", "CMD", 2000) (by decide)
  revert h1
  decide

/-- C15 (amended): the functions of the driver are their statement lists, the
command/response exchanges of these lists are the fourteen listed, and each of
them expects the token and uses a deadline the wire-protocol table gives for
its command, but for two: the `$$$` exchange after the reboot in
`BT_BondPrivatelyWith` waits 2000 ms for `CMD`, and the `---\n` exchanges of
`BT_IsConnected` and `BT_BondPrivatelyWith` wait the default 4000 ms for `END`.
Every other `$$$` exchange waits 1000 ms for `CMD`, and the `---\n` exchange of
`BT_EnterCmdModeAndPrintSettingsAndExit` waits 1000 ms for `END`. -/
theorem driver_exchanges_deadlines (addr : String) :
    (∀ fuel w, BT_IsConnected_query fuel w = exec_all fuel BT_IsConnected_before w) ∧
    (∀ fuel w, BT_IsConnected fuel w =
      (exec_all fuel BT_IsConnected_before w).bind fun w2 =>
      (BT_ReceiveResponse fuel CharStr.new 4000 w2).bind fun r =>
      (exec_all fuel BT_IsConnected_after r.2.2).bind fun w4 =>
      some (decide (0 = stricmp (cstr r.2.1.data) "1,0,0".toList), w4)) ∧
    (∀ fuel w, BT_EnterCmdModeAndPrintSettingsAndExit fuel w =
      exec_all fuel BT_EnterCmdModeAndPrintSettingsAndExit_body w) ∧
    (∀ fuel w, BT_BondPrivatelyWith_address fuel w =
      (exec_all fuel BT_BondPrivatelyWith_before w).bind fun w5 =>
      BT_ReceiveResponse fuel CharStr.new 4000 w5) ∧
    (∀ fuel w, BT_BondPrivatelyWith_pair fuel addr w =
      (exec_all fuel (BT_BondPrivatelyWith_after addr) w).bind fun w9 => some (true, w9)) ∧
    exchanges BT_IsConnected_before = [("$$$", "CMD", 1000)] ∧
    exchanges BT_IsConnected_after = [("---\n", "END", 4000)] ∧
    exchanges BT_EnterCmdModeAndPrintSettingsAndExit_body =
      [("$$$", "CMD", 1000), ("---\n", "END", 1000)] ∧
    exchanges BT_BondPrivatelyWith_before =
      [("$$$", "CMD", 1000), ("SF,1\n", "AOK", 5000), ("SA,4\n", "AOK", 4000),
        ("SE,1\n", "AOK", 4000)] ∧
    exchanges (BT_BondPrivatelyWith_after addr) =
      [(sprintf_SR addr, "AOK", 4000), ("SM,6\n", "AOK", 4000), ("SP,c0de\n", "AOK", 4000),
        ("R,1\n", "Reboot!", 6000), ("$$$", "CMD", 2000), ("---\n", "END", 4000)] ∧
    (∀ e ∈ driver_exchanges addr,
      follows_table addr e = true ∨ e = ("$$$", "CMD", 2000) ∨ e = ("---\n", "END", 4000)) ∧
    (∀ t, ("$$$", "CMD", t) ∈ driver_exchanges addr → t = 1000 ∨ t = 2000) ∧
    (∀ t, ("---\n", "END", t) ∈ driver_exchanges addr → t = 1000 ∨ t = 4000) :=
  ⟨BT_IsConnected_query_eq, BT_IsConnected_eq, BT_EnterCmdModeAndPrintSettingsAndExit_eq,
    BT_BondPrivatelyWith_address_eq, fun fuel w => BT_BondPrivatelyWith_pair_eq fuel addr w,
    rfl, rfl, rfl, rfl, rfl, driver_exchanges_follow addr,
    fun t ht => by
      rw [driver_exchanges_eq] at ht
      simp [sprintf_SR] at ht
      omega,
    fun t ht => by
      rw [driver_exchanges_eq] at ht
      simp [sprintf_SR] at ht
      omega⟩

end EZBlueSmirf
